import Mathlib

/-!
Box backend (backend/box/box.go): a shallow embedding.

Go strings are byte sequences; they are embedded as lists of byte values.
Calls that leave the function's own data (directory cache, paced HTTP calls,
logging, token renewer, token dispenser) are recorded in a trace of events,
and their results are supplied by an environment record holding one result
per call site, in program order. The page loop of listAll takes fuel: a run
that uses it up ends as still running. Functions of the Go standard library
whose source is not part of the repository (strings.ToLower, path.Join) are
parameters of the functions that call them.
-/

namespace Box

/-- A Go string: its sequence of bytes. -/
abbrev GoString := List Nat

/-- Bytes of an ASCII literal. -/
def ascii (s : String) : GoString := s.data.map Char.toNat

/-- The byte 0x5C, the reserved backslash. -/
def backslash : GoString := [92]

/-- UTF-8 encoding (EF BC BC) of U+FF3C FULLWIDTH REVERSE SOLIDUS. -/
def fullwidthReverseSolidus : GoString := [239, 188, 188]

/-- Scan for strings.Replace: skip counts the bytes of a match of old that
are still to be consumed; at skip 0 a match of old at the current position
is replaced by new and the scan resumes after the match (leftmost,
non-overlapping matches). -/
def replaceFrom (old new : GoString) : Nat → GoString → GoString
  | _, [] => []
  | skip + 1, _ :: cs => replaceFrom old new skip cs
  | 0, c :: cs =>
    if old.isPrefixOf (c :: cs) then new ++ replaceFrom old new (old.length - 1) cs
    else c :: replaceFrom old new 0 cs

/-- Go strings.Replace(s, old, new, -1), for a non-empty old. -/
def stringsReplace (s old new : GoString) : GoString :=
  replaceFrom old new 0 s

/-- Go strings.Contains(s, substr). -/
def stringsContains : GoString → GoString → Bool
  | [], sub => sub.isEmpty
  | c :: cs, sub => sub.isPrefixOf (c :: cs) || stringsContains cs sub

/-- box.go replaceReservedChars: backslash for FULLWIDTH REVERSE SOLIDUS. -/
def replaceReservedChars (x : GoString) : GoString :=
  stringsReplace x backslash fullwidthReverseSolidus

/-- box.go restoreReservedChars: FULLWIDTH REVERSE SOLIDUS for backslash. -/
def restoreReservedChars (x : GoString) : GoString :=
  stringsReplace x fullwidthReverseSolidus backslash

/-! ## Data model -/

/-- Error values: the sentinels of packages fs and hash that the backend
returns or compares against, and the errors it builds in place. The
arguments formatted into a message are not kept. -/
inductive Error where
  | ErrorDirNotFound
  | ErrorObjectNotFound
  | ErrorCantCopy
  | ErrorCantMove
  | ErrorCantDirMove
  | ErrorDirExists
  | ErrorNotAFile
  | ErrorIsFile
  | ErrUnsupported
  /-- errors.Errorf / errors.New with the given format. -/
  | errorf (format : String)
  /-- errors.Wrap / errors.Wrapf of cause. -/
  | wrap (cause : Error) (format : String)
  /-- an api.Error decoded from a non-2xx response. -/
  | api (code : GoString) (status : Int)
  /-- any other error of a collaborator (transport, oauth, ...). -/
  | other (msg : String)
  deriving DecidableEq, Repr

/-- const minSleep = 10 * time.Millisecond, in nanoseconds. -/
def minSleep : Nat := 10 * 1000000

/-- const maxSleep = 2 * time.Second, in nanoseconds. -/
def maxSleep : Nat := 2 * 1000000000

/-- const decayConstant: bigger for slower decay, exponential. -/
def decayConstant : Nat := 2

/-- const minUploadCutoff: upload cutoff can be no lower than this. -/
def minUploadCutoff : Int := 50000000

/-- The value of a Go int (64 bits wide, as on the platforms the program is
built for) after an arithmetic operation whose exact result is x: wrapped
around into -2^63 .. 2^63 - 1. -/
def wrapInt (x : Int) : Int := (x + 2 ^ 63) % 2 ^ 64 - 2 ^ 63

/-- const listChunks: chunk size to read directory listings. -/
def listChunks : Int := 1000

/-- const uploadURL. -/
def uploadURL : String := "https://upload.box.com/api/2.0"

/-- The package variable uploadCutoff, set by the flag box-upload-cutoff
(an fs.SizeSuffix, that is an int64); its default is 50 * 1024 * 1024. -/
structure Config where
  uploadCutoff : Int
  deriving DecidableEq, Repr

/-- The default configuration. -/
def defaultConfig : Config := { uploadCutoff := 50 * 1024 * 1024 }

/-- Modelled from the spec: api.Item (package backend/box/api is not under
src/), the fields of a server item that box.go reads. -/
structure Item where
  type : GoString
  id : GoString
  name : GoString
  size : Int
  sha1 : GoString
  modTime : Int
  itemStatus : GoString
  deriving DecidableEq, Repr

/-- Modelled from the spec: api.ItemTypeFolder (package api is not under src/). -/
def ItemTypeFolder : GoString := ascii "folder"

/-- Modelled from the spec: api.ItemTypeFile (package api is not under src/). -/
def ItemTypeFile : GoString := ascii "file"

/-- Modelled from the spec: api.ItemStatusActive (package api is not under src/). -/
def ItemStatusActive : GoString := ascii "active"

/-- Modelled from the spec: api.FolderItems (package api is not under
src/), one page of a listing: each page declares a total count and a
per-page limit. -/
structure FolderItems where
  totalCount : Int
  entries : List Item
  offset : Int
  limit : Int
  deriving DecidableEq, Repr

/-- The fields of type Fs that identify the remote; srv, dirCache, pacer,
tokenRenewer and uploadToken are collaborators whose calls are events. -/
structure Fs where
  name : GoString
  root : GoString
  deriving DecidableEq, Repr

/-- Type Object: a box object. modTime is a time.Time, kept as an integer. -/
structure Object where
  fs : Fs
  remote : GoString
  hasMetaData : Bool
  size : Int
  modTime : Int
  id : GoString
  sha1 : GoString
  deriving DecidableEq, Repr

/-- An fs.Object handed to Copy or Move: of this backend (the type
assertion to *Object succeeds) or of another one. -/
inductive SrcObject where
  | box (o : Object)
  | foreign (description : String)
  deriving DecidableEq, Repr

/-- An fs.Fs handed to DirMove: of this backend or of another one. -/
inductive SrcFs where
  | box (f : Fs)
  | foreign (description : String)
  deriving DecidableEq, Repr

/-- Modelled from the spec: the hash algorithms of package fs/hash (not
under src/; its callers name hash.MD5, hash.SHA1, hash.Dropbox and
hash.None). -/
inductive HashType where
  | None
  | MD5
  | SHA1
  | Dropbox
  deriving DecidableEq, Repr

/-- Modelled from the spec: hash.Set (package fs/hash is not under src/), a
set of hash algorithms. -/
abbrev HashSet := List HashType

/-- Functions of the Go standard library and of packages that are not under
src/, taken as parameters. -/
structure Lib where
  /-- strings.ToLower -/
  toLower : GoString → GoString
  /-- path.Join of two elements -/
  pathJoin : GoString → GoString → GoString
  /-- dircache.SplitPath: directory and leaf of a path -/
  splitPath : GoString → GoString × GoString

/-! ## Events and executions -/

/-- Query parameters set on a request. -/
inductive Param where
  | fields
  | limit (n : Int)
  | offset (n : Int)
  | recursive (b : Bool)
  deriving DecidableEq, Repr

/-- JSON bodies sent with a request. -/
inductive Body where
  | none
  | createFolder (name parentID : GoString)
  | copyFile (name parentID : GoString)
  | updateFileMove (name parentID : GoString)
  | uploadFile (name : GoString) (contentModifiedAt contentCreatedAt : Int)
      (parentID : GoString)
  | updateFileModTime (contentModifiedAt : Int)
  deriving DecidableEq, Repr

/-- The rest.Opts of a call. -/
structure Request where
  method : String
  path : GoString
  parameters : List Param
  body : Body
  rootURL : Option String
  deriving DecidableEq, Repr

/-- What a function does outside its own data. A paced call is one event:
pacer.Call (retry = true) or pacer.CallNoRetry (retry = false) around
srv.Call / srv.CallJSON, with the retries the pacer makes inside it. -/
inductive Event where
  | debugf (msg : String)
  | newClient (name : GoString)
  | tokenRenewerStart
  | tokenRenewerStop
  | findRoot (f : Fs) (create : Bool)
  | foundRoot (f : Fs)
  | findRootAndPath (f : Fs) (path : GoString) (create : Bool)
  | findPath (f : Fs) (path : GoString) (create : Bool)
  | findDir (f : Fs) (path : GoString) (create : Bool)
  | flushDir (f : Fs) (dir : GoString)
  | call (retry : Bool) (req : Request)
  | tokenGet
  | tokenPut
  | multipart (leaf directoryID : GoString) (size modTime : Int)
  /-- the user function handed to listAll was applied to item and returned
  result (recorded by a user function that is being observed). -/
  | applied (item : Item) (result : Bool)
  deriving DecidableEq, Repr

/-- How a run ends: the function returned; the process stopped (log.Fatalf
or a nil dereference); or the fuel of the model ran out with the function
still looping. -/
inductive Outcome (α : Type) where
  | ret (a : α)
  | crash (msg : String)
  | running
  deriving DecidableEq, Repr

/-- A run: the events in order and the outcome. -/
structure Exec (α : Type) where
  trace : List Event
  out : Outcome α
  deriving DecidableEq, Repr

/-- Sequencing of runs. -/
def Exec.bind {α β : Type} (m : Exec α) (k : α → Exec β) : Exec β :=
  match m.out with
  | .ret a => { trace := m.trace ++ (k a).trace, out := (k a).out }
  | .crash msg => { trace := m.trace, out := .crash msg }
  | .running => { trace := m.trace, out := .running }

instance : Monad Exec where
  pure a := { trace := [], out := .ret a }
  bind := Exec.bind

/-- Record one event. -/
def emit (e : Event) : Exec Unit := { trace := [e], out := .ret () }

/-- Stop the process. -/
def crash {α : Type} (msg : String) : Exec α := { trace := [], out := .crash msg }

/-- A directory-cache call that may create directories, or a request other
than a GET. -/
def Event.writes : Event → Bool
  | .findRoot _ create => create
  | .findRootAndPath _ _ create => create
  | .findPath _ _ create => create
  | .findDir _ _ create => create
  | .flushDir _ _ => true
  | .call _ req => req.method != "GET"
  | .tokenGet => true
  | .tokenPut => true
  | .multipart _ _ _ _ => true
  | _ => false

/-- A run that calls the directory cache without creating and sends GET
requests only. -/
def Exec.readsOnly {α : Type} (m : Exec α) : Prop :=
  ∀ ev ∈ m.trace, ev.writes = false

/-! ## The functions of box.go -/

/-- Function rootSlash: root with a slash on if it is not empty. -/
def Fs.rootSlash (f : Fs) : GoString :=
  if f.root = [] then f.root else f.root ++ ascii "/"

/-- Function fieldsValue: url.Values with fields set to api.ItemFields. -/
def fieldsValue : List Param := [.fields]

/-- Method setMetaData: sets the metadata from info. -/
def Object.setMetaData (o : Object) (info : Item) : Object × Option Error :=
  if info.type ≠ ItemTypeFile then
    (o, some (.wrap .ErrorNotAFile "%q is %q"))
  else
    ({ o with hasMetaData := true, size := info.size, sha1 := info.sha1,
              modTime := info.modTime, id := info.id }, none)

/-- Results for listAll: the outcome of the paced GET of the n-th page
request (n = 0, 1, ...). -/
structure ListEnv where
  pages : Nat → Except Error FolderItems

/-- The loop of listAll over the entries of one page. The user function fn
is a Go closure: it reads and updates the variables it closes over (state
s), may act outside them (a run of its own) and returns true to finish.
Returns whether fn returned true. -/
def listAllEntries {σ : Type} (f : Fs) (directoriesOnly filesOnly : Bool)
    (fn : Item → σ → Exec (Bool × σ)) : List Item → σ → Exec (Bool × σ)
  | [], s => pure (false, s)
  | item :: rest, s =>
    if item.type = ItemTypeFolder then
      if filesOnly then listAllEntries f directoriesOnly filesOnly fn rest s
      else if item.itemStatus ≠ ItemStatusActive then
        listAllEntries f directoriesOnly filesOnly fn rest s
      else do
        let r ← fn { item with name := restoreReservedChars item.name } s
        if r.1 then pure (true, r.2)
        else listAllEntries f directoriesOnly filesOnly fn rest r.2
    else if item.type = ItemTypeFile then
      if directoriesOnly then listAllEntries f directoriesOnly filesOnly fn rest s
      else if item.itemStatus ≠ ItemStatusActive then
        listAllEntries f directoriesOnly filesOnly fn rest s
      else do
        let r ← fn { item with name := restoreReservedChars item.name } s
        if r.1 then pure (true, r.2)
        else listAllEntries f directoriesOnly filesOnly fn rest r.2
    else do
      emit (.debugf "Ignoring %q - unknown type %q")
      listAllEntries f directoriesOnly filesOnly fn rest s

/-- The request of listAll for the page at offset. -/
def listAllRequest (dirID : GoString) (offset : Int) : Request :=
  { method := "GET", path := ascii "/folders/" ++ dirID ++ ascii "/items",
    parameters := fieldsValue ++ [.limit listChunks, .offset offset],
    body := .none, rootURL := none }

/-- The page loop of listAll, n pages already requested; fuel bounds the
number of pages requested. Returns found and err. The offset is a Go int:
its sum with the page limit wraps around. -/
def listAllPages {σ : Type} (env : ListEnv) (f : Fs) (dirID : GoString)
    (directoriesOnly filesOnly : Bool) (fn : Item → σ → Exec (Bool × σ)) :
    Nat → Nat → Int → σ → Exec ((Bool × Option Error) × σ)
  | 0, _, _, _ => { trace := [], out := .running }
  | fuel + 1, n, offset, s => do
    emit (.call true (listAllRequest dirID offset))
    match env.pages n with
    | .error err => pure ((false, some (.wrap err "couldn't list files")), s)
    | .ok result => do
      let r ← listAllEntries f directoriesOnly filesOnly fn result.entries s
      if r.1 then pure ((true, none), r.2)
      else if wrapInt (offset + result.limit) ≥ result.totalCount then
        pure ((false, none), r.2)
      else
        listAllPages env f dirID directoriesOnly filesOnly fn fuel (n + 1)
          (wrapInt (offset + result.limit)) r.2

/-- Method listAll: lists the directory, calling fn on each item found. -/
def Fs.listAll {σ : Type} (fuel : Nat) (env : ListEnv) (f : Fs) (dirID : GoString)
    (directoriesOnly filesOnly : Bool) (fn : Item → σ → Exec (Bool × σ)) (s : σ) :
    Exec ((Bool × Option Error) × σ) :=
  listAllPages env f dirID directoriesOnly filesOnly fn fuel 0 0 s

/-- A user function for listAll that is being observed: it computes p on
its state and records each application and its result in the trace. -/
def observed {σ : Type} (p : Item → σ → Bool × σ) : Item → σ → Exec (Bool × σ) :=
  fun item s => do
    emit (.applied item (p item s).1)
    pure (p item s)

/-- The filter of the entry loop of listAll, in one expression: an item is
handed to fn when it is a folder and filesOnly is not set, or a file and
directoriesOnly is not set, and it is active. -/
def listAllKeeps (directoriesOnly filesOnly : Bool) (item : Item) : Bool :=
  ((item.type = ItemTypeFolder && !filesOnly) ||
    (item.type = ItemTypeFile && !directoriesOnly)) &&
  item.itemStatus = ItemStatusActive

/-- Results for readMetaDataForPath: dirCache.FindRootAndPath(path, false)
and the listing of the directory. -/
structure MetaEnv where
  findRootAndPath : Except Error (GoString × GoString)
  list : ListEnv

/-- Method readMetaDataForPath: reads the metadata from the path. -/
def Fs.readMetaDataForPath (fuel : Nat) (env : MetaEnv) (f : Fs) (path : GoString) :
    Exec (Option Item × Option Error) := do
  emit (.findRootAndPath f path false)
  match env.findRootAndPath with
  | .error err =>
    if err = .ErrorDirNotFound then pure (none, some .ErrorObjectNotFound)
    else pure (none, some err)
  | .ok (leaf, directoryID) => do
    let r ← f.listAll fuel env.list directoryID false true
      (fun item (info : Option Item) =>
        pure (if item.name = leaf then (true, some item) else (false, info))) none
    match r.1.2 with
    | some err => pure (none, some err)
    | none =>
      if !r.1.1 then pure (none, some .ErrorObjectNotFound)
      else pure (r.2, none)

/-- Method readMetaData: gets the metadata if it hasn't already been
fetched. Returns the object as it is afterwards and err. -/
def Object.readMetaData (fuel : Nat) (env : MetaEnv) (o : Object) :
    Exec (Object × Option Error) :=
  if o.hasMetaData then pure (o, none)
  else do
    let r ← o.fs.readMetaDataForPath fuel env o.remote
    match r.2 with
    | some err =>
      match err with
      | .api code _ =>
        if code = ascii "not_found" ∨ code = ascii "trashed" then
          pure (o, some .ErrorObjectNotFound)
        else pure (o, some err)
      | _ => pure (o, some err)
    | none =>
      match r.1 with
      | some info => pure (o.setMetaData info)
      | none => crash "nil pointer dereference"

/-- Method newObjectWithInfo: an Object from a path. -/
def Fs.newObjectWithInfo (fuel : Nat) (env : MetaEnv) (f : Fs) (remote : GoString)
    (info : Option Item) : Exec (Option Object × Option Error) := do
  let o : Object := { fs := f, remote := remote, hasMetaData := false, size := 0,
                      modTime := 0, id := [], sha1 := [] }
  let r ← match info with
    | some i => (pure (o.setMetaData i) : Exec (Object × Option Error))
    | none => o.readMetaData fuel env
  match r.2 with
  | some err => pure (none, some err)
  | none => pure (some r.1, none)

/-- Method createObject: a half finished Object; find is the result of
dirCache.FindRootAndPath(remote, true). Returns o, leaf, directoryID, err. -/
def Fs.createObject (find : Except Error (GoString × GoString)) (f : Fs)
    (remote : GoString) (_modTime _size : Int) :
    Exec (Option Object × GoString × GoString × Option Error) := do
  emit (.findRootAndPath f remote true)
  match find with
  | .error err => pure (none, [], [], some err)
  | .ok (leaf, directoryID) =>
    pure (some { fs := f, remote := remote, hasMetaData := false, size := 0,
                 modTime := 0, id := [], sha1 := [] }, leaf, directoryID, none)

/-- Results for Copy, in program order: the reading of the source metadata,
dirCache.FindRootAndPath(remote, true) in createObject, the copy request. -/
structure CopyEnv where
  readMeta : MetaEnv
  createObject : Except Error (GoString × GoString)
  copy : Except Error Item

/-- The request Copy sends. -/
def copyRequest (srcID leaf directoryID : GoString) : Request :=
  { method := "POST", path := ascii "/files/" ++ srcID ++ ascii "/copy",
    parameters := fieldsValue,
    body := .copyFile (replaceReservedChars leaf) directoryID, rootURL := none }

/-- Method Copy: src to this remote using server side copy operations.
Returns the source as it is afterwards, the destination object and err. -/
def Fs.Copy (fuel : Nat) (lib : Lib) (env : CopyEnv) (f : Fs) (src : SrcObject)
    (remote : GoString) : Exec (SrcObject × Option Object × Option Error) :=
  match src with
  | .foreign d => do
    emit (.debugf "Can't copy - not same remote type")
    pure (.foreign d, none, some .ErrorCantCopy)
  | .box srcObj0 => do
    let rm ← srcObj0.readMetaData fuel env.readMeta
    let srcObj := rm.1
    match rm.2 with
    | some err => pure (.box srcObj, none, some err)
    | none =>
      let srcPath := srcObj.fs.rootSlash ++ srcObj.remote
      let dstPath := f.rootSlash ++ remote
      if lib.toLower srcPath = lib.toLower dstPath then
        pure (.box srcObj, none,
          some (.errorf "can't copy %q -> %q as are same name when lowercase"))
      else do
        let c ← f.createObject env.createObject remote srcObj.modTime srcObj.size
        match c with
        | (_, _, _, some err) => pure (.box srcObj, none, some err)
        | (none, _, _, none) => crash "nil pointer dereference"
        | (some dstObj, leaf, directoryID, none) => do
          emit (.call true (copyRequest srcObj.id leaf directoryID))
          match env.copy with
          | .error err => pure (.box srcObj, none, some err)
          | .ok info =>
            match dstObj.setMetaData info with
            | (_, some err) => pure (.box srcObj, none, some err)
            | (dstObj1, none) => pure (.box srcObj, some dstObj1, none)

/-- The request of method move. -/
def moveRequest (endpoint id leaf directoryID : GoString) : Request :=
  { method := "PUT", path := endpoint ++ id, parameters := fieldsValue,
    body := .updateFileMove (replaceReservedChars leaf) directoryID, rootURL := none }

/-- Method move: moves a file or folder; res is the outcome of the paced call. -/
def Fs.move (res : Except Error Item) (_f : Fs) (endpoint id leaf directoryID : GoString) :
    Exec (Option Item × Option Error) := do
  emit (.call true (moveRequest endpoint id leaf directoryID))
  match res with
  | .error err => pure (none, some err)
  | .ok info => pure (some info, none)

/-- Results for Move, in program order. -/
structure MoveEnv where
  createObject : Except Error (GoString × GoString)
  move : Except Error Item

/-- Method Move: src to this remote using server side move operations. -/
def Fs.Move (env : MoveEnv) (f : Fs) (src : SrcObject) (remote : GoString) :
    Exec (Option Object × Option Error) :=
  match src with
  | .foreign _ => do
    emit (.debugf "Can't move - not same remote type")
    pure (none, some .ErrorCantMove)
  | .box srcObj => do
    let c ← f.createObject env.createObject remote srcObj.modTime srcObj.size
    match c with
    | (_, _, _, some err) => pure (none, some err)
    | (none, _, _, none) => crash "nil pointer dereference"
    | (some dstObj, leaf, directoryID, none) => do
      let m ← f.move env.move (ascii "/files/") srcObj.id leaf directoryID
      match m with
      | (_, some err) => pure (none, some err)
      | (none, none) => crash "nil pointer dereference"
      | (some info, none) =>
        match dstObj.setMetaData info with
        | (_, some err) => pure (none, some err)
        | (dstObj1, none) => pure (some dstObj1, none)

/-- Results for DirMove, in program order: srcFs.dirCache.FindRoot(false),
f.dirCache.FindRoot(true), f.dirCache.FoundRoot(), f.dirCache.FindPath,
f.dirCache.FindDir(dstRemote, false), srcFs.dirCache.FindDir(srcRemote,
false) and the move request. -/
structure DirMoveEnv where
  srcFindRoot : Option Error
  dstFindRoot : Option Error
  dstFoundRoot : Bool
  findPath : Except Error (GoString × GoString)
  dstFindDir : Except Error GoString
  srcFindDir : Except Error GoString
  move : Except Error Item

/-- The part of DirMove from the check that the destination does not exist. -/
def Fs.dirMoveCheckAndMove (env : DirMoveEnv) (f srcFs : Fs)
    (srcRemote dstRemote leaf directoryID : GoString) : Exec (Option Error) := do
  let check ← (if dstRemote ≠ [] then do
      emit (.findDir f dstRemote false)
      match env.dstFindDir with
      | .error err => if err = .ErrorDirNotFound then pure none else pure (some err)
      | .ok _ => pure (some .ErrorDirExists)
    else pure none : Exec (Option Error))
  match check with
  | some err => pure (some err)
  | none => do
    emit (.findDir srcFs srcRemote false)
    match env.srcFindDir with
    | .error err => pure (some err)
    | .ok srcID => do
      let m ← f.move env.move (ascii "/folders/") srcID leaf directoryID
      match m.2 with
      | some err => pure (some err)
      | none => do
        emit (.flushDir srcFs srcRemote)
        pure none

/-- Method DirMove: moves src, srcRemote to this remote at dstRemote using
server side move operations. -/
def Fs.DirMove (lib : Lib) (env : DirMoveEnv) (f : Fs) (src : SrcFs)
    (srcRemote dstRemote : GoString) : Exec (Option Error) :=
  match src with
  | .foreign _ => do
    emit (.debugf "Can't move directory - not same remote type")
    pure (some .ErrorCantDirMove)
  | .box srcFs =>
    let srcPath := lib.pathJoin srcFs.root srcRemote
    let dstPath := lib.pathJoin f.root dstRemote
    if srcPath = [] ∨ dstPath = [] then do
      emit (.debugf "DirMove error: Can't move root")
      pure (some (.errorf "can't move root directory"))
    else do
      emit (.findRoot srcFs false)
      match env.srcFindRoot with
      | some err => pure (some err)
      | none => do
        let root ← (if dstRemote ≠ [] then do
            emit (.findRoot f true)
            pure env.dstFindRoot
          else do
            emit (.foundRoot f)
            if env.dstFoundRoot then pure (some .ErrorDirExists) else pure none
          : Exec (Option Error))
        match root with
        | some err => pure (some err)
        | none => do
          let findPath := if dstRemote = [] then f.root else dstRemote
          emit (.findPath f findPath true)
          match env.findPath with
          | .error err => pure (some err)
          | .ok (leaf, directoryID) =>
            f.dirMoveCheckAndMove env srcFs srcRemote dstRemote leaf directoryID

/-- Method Hashes: the supported hash sets, hash.Set(hash.SHA1). -/
def Fs.Hashes (_f : Fs) : HashSet := [HashType.SHA1]

/-- Method Hash: the SHA-1 of an object. -/
def Object.Hash (o : Object) (t : HashType) : GoString × Option Error :=
  if t ≠ HashType.SHA1 then ([], some .ErrUnsupported)
  else (o.sha1, none)

/-- The request of method upload: the path is that of a new version when
the object has an ID. -/
def uploadRequest (o : Object) (leaf directoryID : GoString) (modTime : Int) : Request :=
  { method := "POST",
    path := if o.id ≠ [] then ascii "/files/" ++ o.id ++ ascii "/content"
            else ascii "/files/content",
    parameters := [],
    body := .uploadFile (replaceReservedChars leaf) modTime modTime directoryID,
    rootURL := some uploadURL }

/-- Method upload: a single non-multipart upload; res is the outcome of the
call made with pacer.CallNoRetry. -/
def Object.upload (res : Except Error FolderItems) (o : Object)
    (leaf directoryID : GoString) (modTime : Int) : Exec (Object × Option Error) := do
  emit (.call false (uploadRequest o leaf directoryID modTime))
  match res with
  | .error err => pure (o, some err)
  | .ok result =>
    if result.totalCount ≠ 1 ∨ result.entries.length ≠ 1 then
      pure (o, some (.errorf "failed to upload %v - not sure why"))
    else
      match result.entries.head? with
      | some entry => pure (o.setMetaData entry)
      | none => crash "index out of range"

/-- Modelled from the spec: uploadMultipart (upload.go is not under src/),
the chunked upload: it acquires a TokenDispenser slot for the duration,
released regardless of success or failure, and on success the object takes
the metadata of the server's response. -/
def Object.uploadMultipart (res : Except Error Item) (o : Object)
    (leaf directoryID : GoString) (size modTime : Int) : Exec (Object × Option Error) := do
  emit .tokenGet
  emit (.multipart leaf directoryID size modTime)
  emit .tokenPut
  match res with
  | .error err => pure (o, some err)
  | .ok info => pure (o.setMetaData info)

/-- Results for Update, in program order: dirCache.FindRootAndPath(remote,
true), then the upload by the path taken. -/
structure UpdateEnv where
  findRootAndPath : Except Error (GoString × GoString)
  upload : Except Error FolderItems
  multipart : Except Error Item

/-- Method Update: the object with the contents of the reader, modTime and
size (size and modTime are src.Size() and src.ModTime()). The deferred
tokenRenewer.Stop runs on every return. -/
def Object.Update (cfg : Config) (env : UpdateEnv) (o : Object) (size modTime : Int) :
    Exec (Object × Option Error) := do
  emit .tokenRenewerStart
  emit (.findRootAndPath o.fs o.remote true)
  let r ← (match env.findRootAndPath with
    | .error err => pure (o, some err)
    | .ok (leaf, directoryID) =>
      if size ≤ cfg.uploadCutoff then o.upload env.upload leaf directoryID modTime
      else o.uploadMultipart env.multipart leaf directoryID size modTime
    : Exec (Object × Option Error))
  emit .tokenRenewerStop
  pure r

/-- Variable retryErrorCodes: the error codes that we will retry. -/
def retryErrorCodes : List Int := [429, 500, 502, 503, 504, 509]

/-- The parts of an http.Response that shouldRetry and errorHandler read:
the status code, the status text (resp.Status) and the values of the header
Www-Authenticate. -/
structure Response where
  statusCode : Int
  status : GoString
  wwwAuthenticate : List GoString
  deriving DecidableEq, Repr

/-- Modelled from the spec: fserrors.ShouldRetryHTTP (package fs/fserrors is
not under src/), which retries a response whose status is one of the given
codes; there is nothing to retry without a response. -/
def shouldRetryHTTP (resp : Option Response) (codes : List Int) : Bool :=
  match resp with
  | none => false
  | some r => codes.contains r.statusCode

/-- The condition under which shouldRetry sets authRety: a 401 whose single
Www-Authenticate value contains expired_token (strings.Index(...) >= 0). -/
def authRetry (resp : Option Response) : Bool :=
  match resp with
  | none => false
  | some r =>
    r.statusCode = 401 && r.wwwAuthenticate.length = 1 &&
      stringsContains (r.wwwAuthenticate.headD []) (ascii "expired_token")

/-- Function shouldRetry: whether this resp and err deserve to be retried;
it returns the err as a convenience. errRetry is fserrors.ShouldRetry, whose
source is not under src/. -/
def shouldRetry (errRetry : Option Error → Bool) (resp : Option Response)
    (err : Option Error) : Exec (Bool × Option Error) := do
  if authRetry resp then emit (.debugf "Should retry: %v")
  pure (authRetry resp || errRetry err || shouldRetryHTTP resp retryErrorCodes, err)

/-- Function errorHandler: parses a non 2xx error response into an error.
What rest.DecodeJSON leaves behind is given: whether it returned an error,
and the fields Code and Status of errResponse (empty and 0 when the body
does not set them). -/
def errorHandler (resp : Response) (decodeFailed : Bool) (code : GoString) (status : Int) :
    Exec Error := do
  if decodeFailed then emit (.debugf "Couldn't decode error response: %v")
  pure (.api (if code = [] then resp.status else code)
    (if status = 0 then resp.statusCode else status))

/-- Modelled from the spec: fserrors.ShouldRetry on an error that is not nil
(package fs/fserrors is not under src/, its test is): network-level
transient errors are retryable, also under errors.Wrap, which keeps the
cause; the sentinels, the errors built in place and the api error decoded
from a response are not. transient tells which errors of the transport are
transient. -/
def errorShouldRetry (transient : String → Bool) : Error → Bool
  | .other msg => transient msg
  | .wrap cause _ => errorShouldRetry transient cause
  | _ => false

/-- Modelled from the spec: fserrors.ShouldRetry (package fs/fserrors is not
under src/, its test is): nil is not retried. -/
def ShouldRetry (transient : String → Bool) (err : Option Error) : Bool :=
  match err with
  | none => false
  | some e => errorShouldRetry transient e

/-- The request of method setModTime. -/
def setModTimeRequest (o : Object) (modTime : Int) : Request :=
  { method := "PUT", path := ascii "/files/" ++ o.id, parameters := fieldsValue,
    body := .updateFileModTime modTime, rootURL := none }

/-- Method setModTime: sets the modification time of the object on the
server; res is the outcome of the paced call. Returns info and err. -/
def Object.setModTime (res : Except Error Item) (o : Object) (modTime : Int) :
    Exec (Option Item × Option Error) := do
  emit (.call true (setModTimeRequest o modTime))
  match res with
  | .error err => pure (none, some err)
  | .ok info => pure (some info, none)

/-- Method SetModTime: sets the modification time and takes the metadata of
the server's response. Returns the object as it is afterwards and err. -/
def Object.SetModTime (res : Except Error Item) (o : Object) (modTime : Int) :
    Exec (Object × Option Error) := do
  let r ← o.setModTime res modTime
  match r.2 with
  | some err => pure (o, some err)
  | none =>
    match r.1 with
    | some info => pure (o.setMetaData info)
    | none => crash "nil pointer dereference"

/-- Method NewObject: finds the Object at remote. -/
def Fs.NewObject (fuel : Nat) (env : MetaEnv) (f : Fs) (remote : GoString) :
    Exec (Option Object × Option Error) :=
  f.newObjectWithInfo fuel env remote none

/-- Results for purgeCheck, in program order: dirCache.FindRoot(false),
dirCache.FindDir(dir, false) and the DELETE request. -/
structure PurgeEnv where
  findRoot : Option Error
  findDir : Except Error GoString
  delete : Option Error

/-- The request of purgeCheck: recursive is the negation of check. -/
def purgeRequest (rootID : GoString) (check : Bool) : Request :=
  { method := "DELETE", path := ascii "/folders/" ++ rootID,
    parameters := [.recursive (!check)], body := .none, rootURL := none }

/-- Method purgeCheck: removes the root directory; if check is set then it
refuses to do so if it has anything in. -/
def Fs.purgeCheck (lib : Lib) (env : PurgeEnv) (f : Fs) (dir : GoString) (check : Bool) :
    Exec (Option Error) :=
  let root := lib.pathJoin f.root dir
  if root = [] then pure (some (.errorf "can't purge root directory"))
  else do
    emit (.findRoot f false)
    match env.findRoot with
    | some err => pure (some err)
    | none => do
      emit (.findDir f dir false)
      match env.findDir with
      | .error err => pure (some err)
      | .ok rootID => do
        emit (.call true (purgeRequest rootID check))
        match env.delete with
        | some err => pure (some (.wrap err "rmdir failed"))
        | none => do
          emit (.flushDir f dir)
          pure none

/-- Method Rmdir: deletes the root folder; an error if it isn't empty. -/
def Fs.Rmdir (lib : Lib) (env : PurgeEnv) (f : Fs) (dir : GoString) : Exec (Option Error) :=
  f.purgeCheck lib env dir true

/-- Method Purge: deletes all the files and the container. -/
def Fs.Purge (lib : Lib) (env : PurgeEnv) (f : Fs) : Exec (Option Error) :=
  f.purgeCheck lib env [] false

/-- Go strings.Trim(s, cutset) for a cutset of the one ASCII byte c. -/
def stringsTrim (s : GoString) (c : Nat) : GoString :=
  ((s.dropWhile (fun b => b == c)).reverse.dropWhile (fun b => b == c)).reverse

/-- Function parsePath: parses a box url. -/
def parsePath (path : GoString) : GoString := stringsTrim path 47

/-- Results for NewFs, in program order: oauthutil.NewClient,
f.dirCache.FindRoot(false), newF.dirCache.FindRoot(false) and the lookup
made by newF.newObjectWithInfo(remote, nil). -/
structure NewFsEnv where
  newClient : Option Error
  findRoot : Option Error
  parentFindRoot : Option Error
  newObject : MetaEnv

/-- Function NewFs: constructs an Fs from the path. Returns the Fs and err.
Building the rest client, pacer, token dispenser, features, renewer and
directory cache calls nothing outside the process. -/
def NewFs (fuel : Nat) (lib : Lib) (cfg : Config) (env : NewFsEnv) (name root : GoString) :
    Exec (Option Fs × Option Error) :=
  if cfg.uploadCutoff < minUploadCutoff then
    pure (none, some (.errorf "box: upload cutoff (%v) must be greater than equal to %v"))
  else do
    let root := parsePath root
    emit (.newClient name)
    match env.newClient with
    | some _ => crash "Failed to configure Box: %v"
    | none =>
      let f : Fs := { name := name, root := root }
      emit (.findRoot f false)
      match env.findRoot with
      | none => pure (some f, none)
      | some _ =>
        let newF : Fs := { f with root := (lib.splitPath root).1 }
        let remote := (lib.splitPath root).2
        emit (.findRoot newF false)
        match env.parentFindRoot with
        | some _ => pure (some f, none)
        | none => do
          let r ← newF.newObjectWithInfo fuel env.newObject remote none
          match r.2 with
          | some err =>
            if err = .ErrorObjectNotFound then pure (some f, none)
            else pure (none, some err)
          | none => pure (some newF, some .ErrorIsFile)

/-- Modelled from the spec: the DirCache map (package lib/dircache is not
under src/): entries that map a path to a backend-native identifier. -/
abbrev DirCacheEntries := List (GoString × GoString)

/-- Modelled from the spec: DirCache.FlushDir(path) (package lib/dircache is
not under src/): removes the cache entry for path and all entries whose path
has path as a prefix. -/
def FlushDir (cache : DirCacheEntries) (path : GoString) : DirCacheEntries :=
  cache.filter (fun e => !(path.isPrefixOf e.1))

/-! ## Concrete library functions for evaluating examples -/

/-- ASCII lower-casing; agrees with strings.ToLower on ASCII strings. -/
def asciiToLower (s : GoString) : GoString :=
  s.map (fun b => if 65 ≤ b ∧ b ≤ 90 then b + 32 else b)

/-- Joins two elements with a slash, leaving out an empty one; agrees with
path.Join on clean relative elements. -/
def joinClean (a b : GoString) : GoString :=
  if a = [] then b else if b = [] then a else a ++ [47] ++ b

/-- Splits at the last slash; directory and leaf as dircache.SplitPath. -/
def splitLastSlash (path : GoString) : GoString × GoString :=
  if path.contains 47 then
    ((path.reverse.dropWhile (fun b => b != 47)).drop 1 |>.reverse,
     (path.reverse.takeWhile (fun b => b != 47)).reverse)
  else ([], path)

/-- A remote named box with an empty root. -/
def exampleFs : Fs := { name := ascii "box", root := [] }

/-- The object Hello.txt of exampleFs, metadata read. -/
def helloUpper : Object :=
  { fs := exampleFs, remote := ascii "Hello.txt", hasMetaData := true, size := 5,
    modTime := 0, id := ascii "7", sha1 := [] }

/-- The object hello.txt of exampleFs, metadata read. -/
def helloLower : Object :=
  { fs := exampleFs, remote := ascii "hello.txt", hasMetaData := true, size := 5,
    modTime := 0, id := ascii "7", sha1 := [] }

/-- The server item of the file with ID 7 once named hello.txt. -/
def helloItem : Item :=
  { type := ItemTypeFile, id := ascii "7", name := ascii "hello.txt", size := 5,
    sha1 := [], modTime := 0, itemStatus := ItemStatusActive }

/-- The object Hello.txt of exampleFs, metadata not yet read. -/
def helloUpperNoMeta : Object :=
  { fs := exampleFs, remote := ascii "Hello.txt", hasMetaData := false, size := 0,
    modTime := 0, id := [], sha1 := [] }

/-- A listing of one page holding the file with ID 7 named Hello.txt. -/
def helloPage : FolderItems :=
  { totalCount := 1, entries := [{ helloItem with name := ascii "Hello.txt" }],
    offset := 0, limit := 1000 }

/-- Results for a Copy of Hello.txt: the directory with ID 0 lists the file
with ID 7 under the name Hello.txt. -/
def listingCopyEnv : CopyEnv :=
  { readMeta :=
      { findRootAndPath := .ok (ascii "Hello.txt", ascii "0"),
        list := { pages := fun _ => .ok helloPage } },
    createObject := .ok (ascii "hello.txt", ascii "0"),
    copy := .ok helloItem }

/-- Results for an Update of hello.txt in the directory with ID 0: every
call succeeds. -/
def helloUpdateEnv : UpdateEnv :=
  { findRootAndPath := .ok (ascii "hello.txt", ascii "0"),
    upload := .ok { totalCount := 1, entries := [helloItem], offset := 0, limit := 1000 },
    multipart := .ok helloItem }

/-- A remote rooted at dst. -/
def dstFs : Fs := { name := ascii "box", root := ascii "dst" }

/-- A remote rooted at src. -/
def srcFsMissing : Fs := { name := ascii "box", root := ascii "src" }

/-- Results for a DirMove whose source root is not found while the
destination root has been found. -/
def rootFoundEnv : DirMoveEnv :=
  { srcFindRoot := some .ErrorDirNotFound, dstFindRoot := none, dstFoundRoot := true,
    findPath := .ok (ascii "dst", ascii "0"), dstFindDir := .ok (ascii "9"),
    srcFindDir := .ok (ascii "3"), move := .ok helloItem }

/-- Results for a DirMove whose destination does not exist yet: the lookups
of the source succeed and the destination parent resolves to leaf and ID 0. -/
def freshDstEnvFor (leaf : GoString) : DirMoveEnv :=
  { srcFindRoot := none, dstFindRoot := none, dstFoundRoot := false,
    findPath := .ok (leaf, ascii "0"), dstFindDir := .error .ErrorDirNotFound,
    srcFindDir := .ok (ascii "3"), move := .ok helloItem }

/-- Results for a DirMove to the root dst, not found yet. -/
def freshDstEnv : DirMoveEnv := freshDstEnvFor (ascii "dst")

/-- Results for a DirMove whose destination directory b already exists. -/
def dstExistsEnv : DirMoveEnv :=
  { srcFindRoot := none, dstFindRoot := none, dstFoundRoot := true,
    findPath := .ok (ascii "b", ascii "0"), dstFindDir := .ok (ascii "9"),
    srcFindDir := .ok (ascii "3"), move := .ok helloItem }

/-- A file item with the given name and status. -/
def fileItem (name status : GoString) : Item :=
  { type := ItemTypeFile, id := ascii "7", name := name, size := 5, sha1 := [],
    modTime := 0, itemStatus := status }

/-- A listing of two pages of limit 3 out of 4 entries: a folder, a trashed
file, the active file a.txt; then the active file b.txt. -/
def twoPagesEnv : ListEnv :=
  { pages := fun n =>
      if n = 0 then .ok
        { totalCount := 4,
          entries := [{ fileItem (ascii "docs") ItemStatusActive with type := ItemTypeFolder },
                      fileItem (ascii "old.txt") (ascii "trashed"),
                      fileItem (ascii "a.txt") ItemStatusActive],
          offset := 0, limit := 3 }
      else .ok
        { totalCount := 4, entries := [fileItem (ascii "b.txt") ItemStatusActive],
          offset := 3, limit := 3 } }

/-- A user function for listAll without state: true on the name a.txt. -/
def nameIsA (item : Item) (_ : Unit) : Bool × Unit :=
  (item.name = ascii "a.txt", ())

/-- Results for a lookup of a.txt in the directory cached under ID 0, which
the server no longer has: the listing request fails with not_found. -/
def staleDirEnv : MetaEnv :=
  { findRootAndPath := .ok (ascii "a.txt", ascii "0"),
    list := { pages := fun _ => .error (Error.api (ascii "not_found") 404) } }

/-- Results for a purgeCheck in which every call succeeds; the directory
has the ID 0. -/
def purgeOkEnv : PurgeEnv :=
  { findRoot := none, findDir := .ok (ascii "0"), delete := none }

/-- The library used in examples. -/
def exampleLib : Lib :=
  { toLower := asciiToLower, pathJoin := joinClean, splitPath := splitLastSlash }

end Box

/-!
Accounting (fs/accounting).

The package's source is not part of the sources at hand, only its tests are;
the definitions below follow the specification and the tests. An Account
wraps an ioutil.NopCloser over a bytes.Buffer, as in the tests: the wrapped
stream is the list of its bytes that are still to be read.
-/

namespace Accounting

/-- Modelled from the spec: the errors a Read through an Account can return
(package fs/accounting is not under src/): io.EOF of the wrapped stream and
the max-transfer cutoff error. -/
inductive ReadError where
  | EOF
  | ErrorMaxTransferLimitReached
  deriving DecidableEq, Repr

/-- Modelled from the spec: fserrors.IsFatalError (package fs/fserrors is
not under src/): the max-transfer cutoff error is distinguished as fatal,
ordinary I/O errors are not. -/
def IsFatalError : ReadError → Bool
  | .ErrorMaxTransferLimitReached => true
  | .EOF => false

/-- Modelled from the spec: Stats (not under src/), the process-wide
aggregate: total bytes transferred and the set of in-progress Accounts keyed
by name, each Account given by its address. -/
structure Stats where
  bytes : Int
  inProgress : List (String × Nat)
  deriving DecidableEq, Repr

/-- Modelled from the spec: Account (not under src/), one in-flight byte
stream: its address, name and declared size, the bytes of the wrapped stream
still to be read, the cumulative bytes transferred and whether it has been
closed. -/
structure Account where
  addr : Nat
  name : String
  size : Int
  stream : List Nat
  bytes : Int
  closed : Bool
  deriving DecidableEq, Repr

/-- Modelled from the spec: inProgress.set (not under src/): inserts or
overwrites the entry of name. -/
def inProgressSet (m : List (String × Nat)) (name : String) (addr : Nat) :
    List (String × Nat) :=
  (name, addr) :: m.filter (fun e => e.1 != name)

/-- Modelled from the spec: inProgress.get (not under src/): the Account
registered under name, or nil. -/
def inProgressGet (m : List (String × Nat)) (name : String) : Option Nat :=
  m.lookup name

/-- Modelled from the spec: inProgress.clear (not under src/): removes the
entry of name. -/
def inProgressClear (m : List (String × Nat)) (name : String) : List (String × Nat) :=
  m.filter (fun e => e.1 != name)

/-- Modelled from the spec: Stats.ResetCounters (not under src/): resets the
byte count between independent operations. -/
def Stats.ResetCounters (stats : Stats) : Stats := { stats with bytes := 0 }

/-- Modelled from the spec: NewAccountSizeName (not under src/): a new
Account at address addr around the stream, registered in the in-progress set
under name. -/
def NewAccountSizeName (stats : Stats) (addr : Nat) (stream : List Nat) (size : Int)
    (name : String) : Stats × Account :=
  ({ stats with inProgress := inProgressSet stats.inProgress name addr },
   { addr := addr, name := name, size := size, stream := stream, bytes := 0,
     closed := false })

/-- The result of a Read: Stats and the Account afterwards, the bytes
delivered into the buffer and the error. -/
structure ReadResult where
  stats : Stats
  acc : Account
  data : List Nat
  err : Option ReadError
  deriving DecidableEq, Repr

/-- Modelled from the spec: Account.Read into a buffer of n bytes (not under
src/). First the max-transfer cutoff (maxTransfer is the configured ceiling,
negative for none): once the bytes counted by Stats have reached it, the
read returns the cutoff error and delivers nothing. Otherwise the read of
the wrapped buffer: io.EOF when it is empty and n is not 0, else its next
bytes, up to n; the bytes delivered are added to the cumulative count of the
Account and to the byte count of Stats. -/
def Account.Read (maxTransfer : Int) (stats : Stats) (acc : Account) (n : Nat) :
    ReadResult :=
  if 0 ≤ maxTransfer ∧ maxTransfer ≤ stats.bytes then
    { stats := stats, acc := acc, data := [], err := some .ErrorMaxTransferLimitReached }
  else if acc.stream = [] ∧ n ≠ 0 then
    { stats := stats, acc := acc, data := [], err := some .EOF }
  else
    { stats := { stats with bytes := stats.bytes + ((acc.stream.take n).length : Int) },
      acc := { acc with stream := acc.stream.drop n,
                        bytes := acc.bytes + ((acc.stream.take n).length : Int) },
      data := acc.stream.take n, err := none }

/-- Modelled from the spec: Account.Close (not under src/): deregisters the
Account from the in-progress set exactly once; closing again is a no-op, not
an error. Closing the wrapped NopCloser returns nil. -/
def Account.Close (stats : Stats) (acc : Account) : Stats × Account × Option ReadError :=
  if acc.closed then (stats, acc, none)
  else
    ({ stats with inProgress := inProgressClear stats.inProgress acc.name },
     { acc with closed := true }, none)

/-- Modelled from the spec: a transfer (not under src/): reads into a buffer
of n bytes until a read returns an error, as io.Copy does; fuel bounds the
number of reads. Returns Stats and the Account afterwards and the result of
each read in order. -/
def readLoop (maxTransfer : Int) (n : Nat) :
    Nat → Stats → Account → Stats × Account × List (List Nat × Option ReadError)
  | 0, stats, acc => (stats, acc, [])
  | fuel + 1, stats, acc =>
    let r := acc.Read maxTransfer stats n
    match r.err with
    | some err => (r.stats, r.acc, [(r.data, some err)])
    | none =>
      let rest := readLoop maxTransfer n fuel r.stats r.acc
      (rest.1, rest.2.1, (r.data, none) :: rest.2.2)

/-- Modelled from the spec: a Read into a buffer of n bytes through the
i-th of several Accounts that share Stats (not under src/). -/
def readAt (maxTransfer : Int) : Nat → Nat → Stats → List Account → Stats × List Account
  | _, _, stats, [] => (stats, [])
  | 0, n, stats, acc :: rest =>
    ((acc.Read maxTransfer stats n).stats, (acc.Read maxTransfer stats n).acc :: rest)
  | i + 1, n, stats, acc :: rest =>
    ((readAt maxTransfer i n stats rest).1, acc :: (readAt maxTransfer i n stats rest).2)

/-- Modelled from the spec: a schedule of reads over several Accounts (not
under src/): each step names the Account and the size of the buffer. -/
def readSchedule (maxTransfer : Int) :
    List (Nat × Nat) → Stats → List Account → Stats × List Account
  | [], stats, accs => (stats, accs)
  | (i, n) :: steps, stats, accs =>
    readSchedule maxTransfer steps (readAt maxTransfer i n stats accs).1
      (readAt maxTransfer i n stats accs).2

end Accounting

/-!
Pacer (lib/pacer).

The package's source is not part of the sources at hand; box.go configures
it. The definitions below follow the specification. Durations are in
nanoseconds.
-/

namespace Pacer

/-- Modelled from the spec: PacerState (package lib/pacer is not under
src/): the bounds of the sleep interval, the decay constant, the factor of
the multiplicative increase (attackNum / attackDen, which the specification
leaves open) and the current sleep interval. -/
structure State where
  minSleep : Nat
  maxSleep : Nat
  decayConstant : Nat
  attackNum : Nat
  attackDen : Nat
  sleepTime : Nat
  deriving DecidableEq, Repr

/-- Modelled from the spec: the sleep interval after a call that signalled
retry (not under src/): a multiplicative increase capped at maxSleep. -/
def State.grown (p : State) : Nat :=
  min p.maxSleep (p.sleepTime * p.attackNum / p.attackDen)

/-- Modelled from the spec: the sleep interval after a call that succeeded
(not under src/): sleep * (decayConstant - 1) / decayConstant, never below
minSleep. -/
def State.decayed (p : State) : Nat :=
  max p.minSleep (p.sleepTime * (p.decayConstant - 1) / p.decayConstant)

/-- Modelled from the spec: the update of the state when a call completes
(not under src/); retry is the signal of the call. -/
def State.update (p : State) (retry : Bool) : State :=
  if retry then { p with sleepTime := p.grown } else { p with sleepTime := p.decayed }

/-- Modelled from the spec: the state after a sequence of call outcomes
(true: the call signalled retry). -/
def State.run (p : State) (outcomes : List Bool) : State :=
  outcomes.foldl State.update p

/-- The pacer NewFs builds in box.go: pacer.New().SetMinSleep(minSleep)
.SetMaxSleep(maxSleep).SetDecayConstant(decayConstant), with the given
factor of increase and current sleep interval. -/
def boxPacer (attackNum attackDen sleepTime : Nat) : State :=
  { minSleep := Box.minSleep, maxSleep := Box.maxSleep,
    decayConstant := Box.decayConstant, attackNum := attackNum, attackDen := attackDen,
    sleepTime := sleepTime }

end Pacer

/-!
WebDAV API types (backend/webdav/api/types.go).
-/

namespace Webdav

open Box (GoString ascii)

/-- Type Prop, the properties of a response, as far as StatusOK reads it:
Status collects all the status values. -/
structure DavProp where
  Status : List GoString
  deriving DecidableEq, Repr

/-- The character class [0-9.] of the pattern parseStatus. -/
def isVersionChar (c : Nat) : Bool := (48 ≤ c && c ≤ 57) || c = 46

/-- The character class \s of Go regular expressions: tab, line feed, form
feed, carriage return and space. -/
def isSpace (c : Nat) : Bool := c = 9 || c = 10 || c = 12 || c = 13 || c = 32

/-- The character class \d of Go regular expressions: the ASCII digits. -/
def isDigit (c : Nat) : Bool := 48 ≤ c && c ≤ 57

/-- The call parseStatus.FindStringSubmatch(s) for the pattern
^HTTP/[0-9.]+\s+(\d+): the whole match and the first group, or nothing when
the pattern does not match. The pattern is anchored at the start of the
text, and each repetition is followed by a character outside its class, so
the match takes the longest run of each class in turn. All classes are
ASCII, so matching bytes agrees with matching runes. -/
def parseStatusFind (s : GoString) : List GoString :=
  if (ascii "HTTP/").isPrefixOf s then
    let r0 := s.drop 5
    let v := r0.takeWhile isVersionChar
    let r1 := r0.dropWhile isVersionChar
    let ws := r1.takeWhile isSpace
    let r2 := r1.dropWhile isSpace
    let ds := r2.takeWhile isDigit
    if v = [] ∨ ws = [] ∨ ds = [] then []
    else [ascii "HTTP/" ++ v ++ ws ++ ds, ds]
  else []

/-- The number a string of decimal digits denotes. -/
def digitsValue (ds : GoString) : Nat :=
  ds.foldl (fun acc c => 10 * acc + (c - 48)) 0

/-- Go strconv.Atoi on a 64-bit platform: an optional sign and decimal
digits; nothing (an error) on any other string and when the value is out of
the range of int. -/
def strconvAtoi (s : GoString) : Option Int :=
  let neg : Bool := s.head? = some 45
  let body : GoString := if s.head? = some 43 ∨ s.head? = some 45 then s.drop 1 else s
  if body = [] ∨ ¬ (body.all isDigit = true) then none
  else if neg then
    if digitsValue body ≤ 2 ^ 63 then some (-(digitsValue body : Int)) else none
  else
    if digitsValue body < 2 ^ 63 then some (digitsValue body : Int) else none

/-- Method StatusOK: examines the Status and returns an OK flag. -/
def DavProp.StatusOK (p : DavProp) : Bool :=
  match p.Status with
  | [] => true
  | s0 :: _ =>
    if (parseStatusFind s0).length < 2 then false
    else
      match strconvAtoi ((parseStatusFind s0).getD 1 []) with
      | none => false
      | some code => if code ≥ 200 ∧ code < 300 then true else false

/-- The form of an accepted status in the words of the specification:
HTTP/, digits and dots, whitespace, then a decimal status code (all of its
digits), optionally followed by more text, the code being in 200..299. -/
def IsOKStatus (s : GoString) : Prop :=
  ∃ v ws ds rest : GoString,
    s = ascii "HTTP/" ++ v ++ ws ++ ds ++ rest ∧
    v ≠ [] ∧ (∀ c ∈ v, isVersionChar c = true) ∧
    ws ≠ [] ∧ (∀ c ∈ ws, isSpace c = true) ∧
    ds ≠ [] ∧ (∀ c ∈ ds, isDigit c = true) ∧
    (∀ c ∈ rest.head?, isDigit c = false) ∧
    200 ≤ digitsValue ds ∧ digitsValue ds ≤ 299

end Webdav

/-!
Test helpers (fstest/fstest.go).

A time.Time is the count of its nanoseconds since a fixed instant and a
time.Duration is an int64 count of nanoseconds.
-/

namespace Fstest

/-- The smallest time.Duration. -/
def minDuration : Int := -(2 ^ 63)

/-- The largest time.Duration. -/
def maxDuration : Int := 2 ^ 63 - 1

/-- Go Time.Sub: the duration t - u; if the result exceeds the maximum (or
minimum) value that can be stored in a Duration, the maximum (or minimum)
duration is returned. -/
def timeSub (t u : Int) : Int :=
  if t - u > maxDuration then maxDuration
  else if t - u < minDuration then minDuration
  else t - u

/-- Negation of a time.Duration, an int64: the smallest duration is its own
negation. -/
def negDuration (d : Int) : Int :=
  if d = minDuration then minDuration else -d

/-- Function CheckTimeEqualWithPrecision: checks the times are equal within
the precision, returns the delta and a flag. -/
def CheckTimeEqualWithPrecision (t0 t1 precision : Int) : Int × Bool :=
  let dt := timeSub t0 t1
  if dt ≥ precision ∨ dt ≤ negDuration precision then (dt, false)
  else (dt, true)

end Fstest

/-!
Release downloader (bin/get-github-release.go).
-/

namespace GetGithubRelease

open Box (GoString ascii)

/-- Go strings.Split(s, sep) for a separator of the one byte sep: the
substrings between the separators, a single empty string for an empty s. -/
def stringsSplit (sep : Nat) : GoString → List GoString
  | [] => [[]]
  | c :: rest =>
    if c = sep then [] :: stringsSplit sep rest
    else
      match stringsSplit sep rest with
      | [] => [[c]]
      | first :: more => (c :: first) :: more

/-- Go strings.HasPrefix(s, pre). -/
def stringsHasPrefix (s pre : GoString) : Bool := pre.isPrefixOf s

/-- The loop of defaultBinDir over the directories of $PATH that are left,
binDir being the local variable of that name. -/
def defaultBinDirLoop (writable : GoString → Bool) (home : GoString) :
    List GoString → GoString → GoString
  | [], binDir => binDir
  | dir :: rest, binDir =>
    if writable dir then
      if stringsHasPrefix dir home then dir
      else if binDir ≠ [] then defaultBinDirLoop writable home rest dir
      else defaultBinDirLoop writable home rest binDir
    else defaultBinDirLoop writable home rest binDir

/-- Function defaultBinDir: the directory to install releases in by default.
The environment (os.Getenv) and the access check (function writable, a call
of unix.Access) are parameters. -/
def defaultBinDir (getenv : GoString → GoString) (writable : GoString → Bool) : GoString :=
  defaultBinDirLoop writable (getenv (ascii "HOME"))
    (stringsSplit 58 (getenv (ascii "PATH"))) []

/-- An environment with HOME=/home/u and PATH=/usr/local/bin:/usr/bin. -/
def systemPathEnv (name : GoString) : GoString :=
  if name = ascii "HOME" then ascii "/home/u"
  else if name = ascii "PATH" then ascii "/usr/local/bin:/usr/bin"
  else []

/-- An environment with HOME=/home/u and PATH=/usr/bin:/home/u/bin. -/
def homePathEnv (name : GoString) : GoString :=
  if name = ascii "HOME" then ascii "/home/u"
  else if name = ascii "PATH" then ascii "/usr/bin:/home/u/bin"
  else []

end GetGithubRelease

/-!
FTP server (cmd/serve/ftp/ftp.go).
-/

namespace Ftp

open Box (GoString ascii)

/-- Type Auth: struct to handle ftp auth. -/
structure Auth where
  BasicUser : GoString
  BasicPass : GoString
  deriving DecidableEq, Repr

/-- Method CheckPasswd: handle auth based on configuration. Returns the flag
and the error (none is nil). -/
def Auth.CheckPasswd (a : Auth) (user pass : GoString) : Bool × Option String :=
  (a.BasicUser = user && (a.BasicPass = [] || a.BasicPass = pass), none)

end Ftp

/-!
Terminal disk-usage browser (cmd/ncdu/ncdu.go).

The UI is embedded with the fields that move, sortCurrentDir, biggestEntry
and the graph column of Draw read and write. A Go map from string is a
function that gives the zero value for a key that is not present. An index
out of range is a run-time panic: the functions that index return nothing
then.
-/

namespace Ncdu

open Box (GoString ascii wrapInt)

/-- Type dirPos: where we have got to in the directory listing. -/
structure dirPos where
  entry : Int
  offset : Int
  deriving DecidableEq, Repr

/-- Modelled from the spec: scan.Dir (package cmd/ncdu/scan is not under
src/) as far as the UI reads it: AttrI(i) gives the size, the count, the
directory flag and the readable flag of entry i. -/
structure Dir where
  AttrI : Int → Int × Int × Bool × Bool

/-- Type UI: the state of the user interface (the fields read or written by
the methods below; entries holds the Remote() of each entry). -/
structure UI where
  d : Option Dir
  path : GoString
  entries : List GoString
  sortPerm : List Int
  invSortPerm : List Int
  dirListHeight : Int
  dirPosMap : GoString → dirPos

/-- Method move: move the cursor this many spaces adjusting the viewport as
necessary. -/
def UI.move (u : UI) (d : Int) : UI :=
  match u.d with
  | none => u
  | some _ =>
    let absD := if d < 0 then wrapInt (-d) else d
    let entries : Int := u.entries.length
    let pos := u.dirPosMap u.path
    let entry := wrapInt (pos.entry + d)
    let entry :=
      if entry < 0 then 0
      else if entry ≥ entries then wrapInt (entries - 1)
      else entry
    let p := wrapInt (entry - pos.offset)
    let offset :=
      if p < 0 then wrapInt (pos.offset - absD)
      else if p ≥ u.dirListHeight then wrapInt (pos.offset + absD)
      else pos.offset
    let offset :=
      if entries = 0 ∨ offset < 0 then 0
      else if offset ≥ entries then wrapInt (entries - 1)
      else offset
    { u with dirPosMap := Function.update u.dirPosMap u.path { entry := entry, offset := offset } }

/-- Go indexing s[i] of a slice of int: nothing when i is out of range. -/
def getAt (s : List Int) (i : Int) : Option Int :=
  if 0 ≤ i then s[i.toNat]? else none

/-- Go assignment s[i] = v to an element of a slice of int: nothing when i
is out of range. -/
def setAt (s : List Int) (i v : Int) : Option (List Int) :=
  if 0 ≤ i ∧ i.toNat < s.length then some (s.set i.toNat v) else none

/-- Method Swap of ncduSort, on its field sortPerm. -/
def ncduSort.Swap (sortPerm : List Int) (i j : Int) : Option (List Int) :=
  match getAt sortPerm i, getAt sortPerm j with
  | some vi, some vj =>
    match setAt sortPerm i vj with
    | some s => setAt s j vi
    | none => none
  | _, _ => none

/-- Go sort.Sort(data) as far as it changes data: it calls data.Len once and
then data.Less and data.Swap; swaps lists the calls of Swap it makes, in
order (Less changes nothing). -/
def sortSort : List (Int × Int) → List Int → Option (List Int)
  | [], sortPerm => some sortPerm
  | (i, j) :: swaps, sortPerm =>
    match ncduSort.Swap sortPerm i j with
    | some s => sortSort swaps s
    | none => none

/-- The last loop of sortCurrentDir, for i, j := range u.sortPerm, from index
i on: u.invSortPerm[j] = i. -/
def fillInvSortPerm : List Int → Int → List Int → Option (List Int)
  | [], _, inv => some inv
  | j :: rest, i, inv =>
    match setAt inv j i with
    | some inv2 => fillInvSortPerm rest (i + 1) inv2
    | none => none

/-- Method sortCurrentDir: sort the permutation map of the current
directory. -/
def UI.sortCurrentDir (swaps : List (Int × Int)) (u : UI) : Option UI :=
  match sortSort swaps ((List.range u.entries.length).map Int.ofNat) with
  | none => none
  | some sortPerm =>
    match fillInvSortPerm sortPerm 0
        (if u.invSortPerm.length < sortPerm.length then List.replicate sortPerm.length 0
         else u.invSortPerm) with
    | none => none
    | some inv => some { u with sortPerm := sortPerm, invSortPerm := inv }

/-- The loop of biggestEntry over the indices i that are left. -/
def biggestEntryLoop (dir : Dir) (sortPerm : List Int) : List Nat → Int → Option Int
  | [], biggest => some biggest
  | i :: rest, biggest =>
    match getAt sortPerm i with
    | none => none
    | some k =>
      if (dir.AttrI k).1 > biggest then biggestEntryLoop dir sortPerm rest (dir.AttrI k).1
      else biggestEntryLoop dir sortPerm rest biggest

/-- Method biggestEntry: find the biggest entry in the current listing. -/
def UI.biggestEntry (u : UI) : Option Int :=
  match u.d with
  | none => some 0
  | some dir => biggestEntryLoop dir u.sortPerm (List.range u.entries.length) 0

/-- The constant graphBars of Draw. -/
def graphBars : Int := 10

/-- The constant graph of Draw. -/
def graph : GoString := ascii "##########          "

/-- Go slicing s[lo:hi] of a string: nothing when the indices are out of
range. -/
def goSlice (s : GoString) (lo hi : Int) : Option GoString :=
  if 0 ≤ lo ∧ lo ≤ hi ∧ hi ≤ s.length then some ((s.drop lo.toNat).take (hi - lo).toNat)
  else none

/-- The statements of Draw that set perBar from the biggest entry. -/
def perBarOf (biggest : Int) : Int :=
  if wrapInt (Int.tdiv biggest graphBars) = 0 then 1
  else wrapInt (Int.tdiv biggest graphBars)

/-- The statements of Draw that set and clip bars. -/
def clippedBars (size perBar : Int) : Int :=
  let bars :=
    wrapInt (Int.tdiv (wrapInt (wrapInt (size + wrapInt (Int.tdiv perBar 2)) - 1)) perBar)
  if bars > 10 then 10
  else if bars < 0 then 0
  else bars

/-- The statement of Draw that adds the graph to extras: what it adds. -/
def graphExtras (size perBar : Int) : Option GoString :=
  match goSlice graph (graphBars - clippedBars size perBar)
      (2 * graphBars - clippedBars size perBar) with
  | none => none
  | some g => some (ascii "[" ++ g ++ ascii "] ")

/-- A directory whose entry i has size 10 * i. -/
def exampleDir : Dir := { AttrI := fun i => (10 * i, 0, false, true) }

/-- A UI showing exampleDir with five entries on a screen of three lines,
the cursor on entry 2 at the bottom of the screen; the inverse permutation
is left over from a directory of seven entries. -/
def exampleUI : UI :=
  { d := some exampleDir, path := ascii "remote:dir",
    entries := [ascii "a", ascii "b", ascii "c", ascii "d", ascii "e"],
    sortPerm := [0, 1, 2, 3, 4], invSortPerm := [6, 5, 4, 3, 2, 1, 0],
    dirListHeight := 3,
    dirPosMap := fun p => if p = ascii "remote:dir" then { entry := 2, offset := 0 }
                          else { entry := 7, offset := 7 } }

end Ncdu

namespace Box

/-- The requests of the paced calls in a trace, in order. -/
def requestsOf (trace : List Event) : List Request :=
  trace.filterMap (fun ev => match ev with
    | .call _ req => some req
    | _ => none)

/-- The per-page limit that the n-th page reports (0 when the request
fails). -/
def pageLimit (env : ListEnv) (n : Nat) : Int :=
  match env.pages n with
  | .ok result => result.limit
  | .error _ => 0

/-- The offsets 0, Limit, 2*Limit, ... in the words of the specification:
the sum of the limits that the pages before the n-th reported. -/
def pageOffset (env : ListEnv) : Nat → Int
  | 0 => 0
  | n + 1 => pageOffset env n + pageLimit env n

/-- Whether listAll stops after the n-th page in the words of the
specification: the request failed, or offset + Limit >= TotalCount. -/
def pageStops (env : ListEnv) (n : Nat) : Bool :=
  match env.pages n with
  | .ok result => decide (pageOffset env n + result.limit ≥ result.totalCount)
  | .error _ => true

/-- A server that reports a total count of 10 on every page and a per-page
limit of 1 on the even pages and of 2^63 - 1 on the odd pages. -/
def wrapPagesEnv : ListEnv :=
  { pages := fun n => .ok { totalCount := 10, entries := [], offset := 0,
                            limit := if n % 2 = 0 then 1 else 2 ^ 63 - 1 } }

/-- A server that reports a total count of 5 and a limit of 2 on every page. -/
def threePagesEnv : ListEnv :=
  { pages := fun _ => .ok { totalCount := 5, entries := [], offset := 0, limit := 2 } }

/-- A user function that never returns true and does nothing else. -/
def neverFound : Item → Unit → Exec (Bool × Unit) := fun _ s => pure (false, s)

end Box

/-!
Operations (fs/operations).

The package's source is not part of the sources at hand, only its tests are;
the definitions below follow the specification and the tests. A reader is
the bytes it delivers and the way it ends: with io.EOF or with an error of
its own.
-/

namespace Operations

open Box (GoString ascii stringsTrim)

/-- Modelled from the spec: fs.Info (package fs is not under src/) as far as
Overlapping reads it: the name and the root of a remote, as testFsInfo of
operations_test.go sets them. -/
structure Info where
  name : GoString
  root : GoString
  deriving DecidableEq, Repr

/-- Modelled from the spec: the root of a remote ignoring leading and
trailing slashes (package fs/operations is not under src/). -/
def trimmedRoot (f : Info) : GoString := stringsTrim f.root 47

/-- Modelled from the spec: root a equals root b or is an ancestor directory
of it on a path-segment boundary; the empty root is an ancestor of every
root (package fs/operations is not under src/). -/
def isAncestorOrSelf (a b : GoString) : Bool :=
  a = [] || a = b || (a ++ [47]).isPrefixOf b

/-- Modelled from the spec: operations.Overlapping (package fs/operations is
not under src/): the two remotes have the same name and one root, ignoring
leading and trailing slashes, equals the other or is an ancestor directory
of it. -/
def Overlapping (fdst fsrc : Info) : Bool :=
  fdst.name = fsrc.name &&
    (isAncestorOrSelf (trimmedRoot fdst) (trimmedRoot fsrc) ||
     isAncestorOrSelf (trimmedRoot fsrc) (trimmedRoot fdst))

/-- The remote a of TestOverlapping. -/
def testInfoA : Info := { name := ascii "name", root := ascii "root" }

/-- The rows of the table of TestOverlapping: name, root and the expected
result against testInfoA. -/
def overlappingTable : List (Info × Bool) :=
  [({ name := ascii "name", root := ascii "root" }, true),
   ({ name := ascii "namey", root := ascii "root" }, false),
   ({ name := ascii "name", root := ascii "rooty" }, false),
   ({ name := ascii "namey", root := ascii "rooty" }, false),
   ({ name := ascii "name", root := ascii "roo" }, false),
   ({ name := ascii "name", root := ascii "root/toot" }, true),
   ({ name := ascii "name", root := ascii "root/toot/" }, true),
   ({ name := ascii "name", root := [] }, true),
   ({ name := ascii "name", root := ascii "/" }, true)]

/-- Modelled from the spec: an io.Reader (not under src/): the bytes it
delivers, and the error it ends with (none: it ends with io.EOF). -/
structure Reader where
  data : List Nat
  err : Option String
  deriving DecidableEq, Repr

/-- Modelled from the spec: the error of a read that filled less than the
buffer: io.EOF or the error of the reader. -/
inductive ReadErr where
  | EOF
  | failed (msg : String)
  deriving DecidableEq, Repr

/-- Modelled from the spec: a read that fills a buffer of n bytes from the
reader unless the reader ends first (not under src/): the bytes read, the
error (none when the buffer was filled) and the reader afterwards. -/
def ReadFill (r : Reader) (n : Nat) : List Nat × Option ReadErr × Reader :=
  if n ≤ r.data.length then (r.data.take n, none, { r with data := r.data.drop n })
  else
    (r.data,
     some (match r.err with
       | none => ReadErr.EOF
       | some msg => ReadErr.failed msg),
     { r with data := [] })

/-- Modelled from the spec: the error of a reader in a read result, if it is
not io.EOF. -/
def failure : Option ReadErr → Option String
  | some (ReadErr.failed msg) => some msg
  | _ => none

/-- Modelled from the spec: the loop of operations.CheckEqualReaders (package
fs/operations is not under src/) over buffers of bufSize bytes (65 KiB and
66 KiB of data tell one buffer from two in TestCheckEqualReaders); fuel
bounds the number of rounds. Returns differ and err. -/
def CheckEqualReadersLoop (bufSize : Nat) : Nat → Reader → Reader → Option (Bool × Option String)
  | 0, _, _ => none
  | fuel + 1, in1, in2 =>
    match failure (ReadFill in1 bufSize).2.1 with
    | some msg => some (true, some msg)
    | none =>
      match failure (ReadFill in2 bufSize).2.1 with
      | some msg => some (true, some msg)
      | none =>
        if (ReadFill in1 bufSize).1 ≠ (ReadFill in2 bufSize).1 then some (true, none)
        else if (ReadFill in1 bufSize).2.1 = some ReadErr.EOF ∧
            (ReadFill in2 bufSize).2.1 = some ReadErr.EOF then some (false, none)
        else CheckEqualReadersLoop bufSize fuel (ReadFill in1 bufSize).2.2
          (ReadFill in2 bufSize).2.2

/-- Modelled from the spec: operations.CheckEqualReaders(in1, in2) (package
fs/operations is not under src/). -/
def CheckEqualReaders (bufSize fuel : Nat) (in1 in2 : Reader) : Option (Bool × Option String) :=
  CheckEqualReadersLoop bufSize fuel in1 in2

/-- The buffers of TestCheckEqualReaders scaled down to a buffer size of 4:
five zero bytes. -/
def b5a : List Nat := [0, 0, 0, 0, 0]

/-- Five bytes that differ from b5a in the last one. -/
def b5b : List Nat := [0, 0, 0, 0, 1]

/-- Six zero bytes. -/
def b6 : List Nat := [0, 0, 0, 0, 0, 0]

/-- A reader over a buffer, as bytes.NewBuffer. -/
def buffer (b : List Nat) : Reader := { data := b, err := none }

/-- A reader over a buffer followed by the error reader of the test, as wrap
of TestCheckEqualReaders. -/
def wrap (b : List Nat) : Reader := { data := b, err := some "sentinel" }

end Operations

namespace Box

theorem replace_cons_backslash (cs : GoString) :
    replaceFrom backslash fullwidthReverseSolidus 0 (92 :: cs)
      = 239 :: 188 :: 188 :: replaceFrom backslash fullwidthReverseSolidus 0 cs := by
  simp [replaceFrom, backslash, fullwidthReverseSolidus, List.isPrefixOf]

theorem replace_cons_other (c : Nat) (cs : GoString) (h : c ≠ 92) :
    replaceFrom backslash fullwidthReverseSolidus 0 (c :: cs)
      = c :: replaceFrom backslash fullwidthReverseSolidus 0 cs := by
  have h2 : ¬ (92 = c) := fun e => h e.symm
  simp [replaceFrom, backslash, fullwidthReverseSolidus, List.isPrefixOf, h2]

theorem restore_cons_solidus (cs : GoString) :
    replaceFrom fullwidthReverseSolidus backslash 0 (239 :: 188 :: 188 :: cs)
      = 92 :: replaceFrom fullwidthReverseSolidus backslash 0 cs := by
  simp [replaceFrom, backslash, fullwidthReverseSolidus, List.isPrefixOf]

theorem restore_cons_other (c : Nat) (cs : GoString)
    (h : fullwidthReverseSolidus.isPrefixOf (c :: cs) = false) :
    replaceFrom fullwidthReverseSolidus backslash 0 (c :: cs)
      = c :: replaceFrom fullwidthReverseSolidus backslash 0 cs := by
  simp [replaceFrom, h]

theorem stringsContains_cons_false {c : Nat} {cs sub : GoString}
    (h : stringsContains (c :: cs) sub = false) :
    sub.isPrefixOf (c :: cs) = false ∧ stringsContains cs sub = false := by
  simpa [stringsContains] using h

/-- After substitution, no reverse solidus starts at a position that was an
ordinary byte of a name free of the reverse solidus. -/
theorem not_prefix_replace (c : Nat) (cs : GoString) (hc : c ≠ 92)
    (h : fullwidthReverseSolidus.isPrefixOf (c :: cs) = false) :
    fullwidthReverseSolidus.isPrefixOf
      (c :: replaceFrom backslash fullwidthReverseSolidus 0 cs) = false := by
  by_cases h1 : c = 239
  · subst h1
    cases cs with
    | nil => simp [replaceFrom, fullwidthReverseSolidus, List.isPrefixOf]
    | cons d ds =>
      by_cases hd : d = 92
      · subst hd
        rw [replace_cons_backslash]
        simp [fullwidthReverseSolidus, List.isPrefixOf]
      · rw [replace_cons_other d ds hd]
        by_cases hd2 : d = 188
        · subst hd2
          cases ds with
          | nil => simp [replaceFrom, fullwidthReverseSolidus, List.isPrefixOf]
          | cons e es =>
            by_cases he : e = 92
            · subst he
              rw [replace_cons_backslash]
              simp [fullwidthReverseSolidus, List.isPrefixOf]
            · rw [replace_cons_other e es he]
              have he2 : e ≠ 188 := by
                intro e188
                subst e188
                simp [fullwidthReverseSolidus, List.isPrefixOf] at h
              have he3 : ¬ (188 = e) := fun x => he2 x.symm
              simp [fullwidthReverseSolidus, List.isPrefixOf, he3]
        · have hd3 : ¬ (188 = d) := fun x => hd2 x.symm
          simp [fullwidthReverseSolidus, List.isPrefixOf, hd3]
  · have h2 : ¬ (239 = c) := fun x => h1 x.symm
    simp [fullwidthReverseSolidus, List.isPrefixOf, h2]

theorem restore_replace_of_not_contains (name : GoString)
    (h : stringsContains name fullwidthReverseSolidus = false) :
    restoreReservedChars (replaceReservedChars name) = name := by
  unfold restoreReservedChars replaceReservedChars stringsReplace
  induction name with
  | nil => rfl
  | cons c cs ih =>
    obtain ⟨hp, hs⟩ := stringsContains_cons_false h
    by_cases hc : c = 92
    · subst hc
      rw [replace_cons_backslash, restore_cons_solidus, ih hs]
    · rw [replace_cons_other c cs hc,
        restore_cons_other c _ (not_prefix_replace c cs hc hp), ih hs]

theorem restore_cons_match (c : Nat) (cs : GoString)
    (h : fullwidthReverseSolidus.isPrefixOf (c :: cs) = true) :
    replaceFrom fullwidthReverseSolidus backslash 0 (c :: cs)
      = 92 :: replaceFrom fullwidthReverseSolidus backslash 2 cs := by
  simp [replaceFrom, h, backslash]
  simp [fullwidthReverseSolidus]

/-- After restoring, no reverse solidus starts at a byte the scan copied. -/
theorem not_prefix_restore (c : Nat) (cs : GoString)
    (h : fullwidthReverseSolidus.isPrefixOf (c :: cs) = false) :
    fullwidthReverseSolidus.isPrefixOf
      (c :: replaceFrom fullwidthReverseSolidus backslash 0 cs) = false := by
  by_cases h1 : c = 239
  · subst h1
    cases cs with
    | nil => simp [replaceFrom, fullwidthReverseSolidus, List.isPrefixOf]
    | cons d ds =>
      cases hp : fullwidthReverseSolidus.isPrefixOf (d :: ds) with
      | true =>
        rw [restore_cons_match d ds hp]
        simp [fullwidthReverseSolidus, List.isPrefixOf]
      | false =>
        rw [restore_cons_other d ds hp]
        by_cases hd2 : d = 188
        · subst hd2
          cases ds with
          | nil => simp [replaceFrom, fullwidthReverseSolidus, List.isPrefixOf]
          | cons e es =>
            cases hp2 : fullwidthReverseSolidus.isPrefixOf (e :: es) with
            | true =>
              rw [restore_cons_match e es hp2]
              simp [fullwidthReverseSolidus, List.isPrefixOf]
            | false =>
              rw [restore_cons_other e es hp2]
              have he2 : e ≠ 188 := by
                intro e188
                subst e188
                simp [fullwidthReverseSolidus, List.isPrefixOf] at h
              have he3 : ¬ (188 = e) := fun x => he2 x.symm
              simp [fullwidthReverseSolidus, List.isPrefixOf, he3]
        · have hd3 : ¬ (188 = d) := fun x => hd2 x.symm
          simp [fullwidthReverseSolidus, List.isPrefixOf, hd3]
  · have h2 : ¬ (239 = c) := fun x => h1 x.symm
    simp [fullwidthReverseSolidus, List.isPrefixOf, h2]

/-- The output of the restoring scan never contains the reverse solidus. -/
theorem restore_not_contains (t : GoString) : ∀ skip : Nat,
    stringsContains (replaceFrom fullwidthReverseSolidus backslash skip t)
      fullwidthReverseSolidus = false := by
  induction t with
  | nil =>
    intro skip
    cases skip <;> simp [replaceFrom, stringsContains, fullwidthReverseSolidus]
  | cons c cs ih =>
    intro skip
    cases skip with
    | succ k => simpa [replaceFrom] using ih k
    | zero =>
      cases hp : fullwidthReverseSolidus.isPrefixOf (c :: cs) with
      | true =>
        rw [restore_cons_match c cs hp]
        simp [stringsContains, ih 2]
        simp [fullwidthReverseSolidus, List.isPrefixOf]
      | false =>
        rw [restore_cons_other c cs hp]
        simp [stringsContains, ih 0, not_prefix_restore c cs hp]

/-- C1 (as stated, refuted): the name made of a backslash followed by
U+FF3C contains the reserved backslash, yet restoring its substituted form
yields two backslashes, not the name. -/
theorem restore_replace_counterexample :
    stringsContains [92, 239, 188, 188] backslash = true ∧
    restoreReservedChars (replaceReservedChars [92, 239, 188, 188]) = [92, 92] ∧
    restoreReservedChars (replaceReservedChars [92, 239, 188, 188])
      ≠ [92, 239, 188, 188] := by
  decide

/-- C1 (amended): restoring the substituted form of a name gives the name
back exactly when the name does not contain U+FF3C FULLWIDTH REVERSE
SOLIDUS; in particular it does for every name with backslashes and no
U+FF3C. -/
theorem restore_replace_roundtrip_iff (name : GoString) :
    restoreReservedChars (replaceReservedChars name) = name ↔
      stringsContains name fullwidthReverseSolidus = false := by
  constructor
  · intro h
    have hnc := restore_not_contains (replaceReservedChars name) 0
    have e : replaceFrom fullwidthReverseSolidus backslash 0 (replaceReservedChars name)
        = name := h
    rw [e] at hnc
    exact hnc
  · exact restore_replace_of_not_contains name

/-- C10: Object.Hash(t) returns the empty string and hash.ErrUnsupported
exactly when t is not in the set returned by Fs.Hashes(), which is the set
holding SHA1 only; for SHA1 it returns the stored sha1 and a nil error. -/
theorem hash_unsupported_iff_not_in_hashes (f : Fs) (o : Object) (t : HashType) :
    (o.Hash t = ([], some Error.ErrUnsupported) ↔ t ∉ f.Hashes) ∧
    f.Hashes = [HashType.SHA1] ∧
    o.Hash HashType.SHA1 = (o.sha1, none) := by
  refine ⟨?_, rfl, ?_⟩
  · cases t <;> simp [Object.Hash, Fs.Hashes]
  · simp [Object.Hash]

/-- C7: for a source that is not of the box backend's own type, Copy
returns (nil, fs.ErrorCantCopy), Move returns (nil, fs.ErrorCantMove) and
DirMove returns fs.ErrorCantDirMove; the only event of each run is the debug
message, so there is no directory-cache lookup, directory creation or remote
call. -/
theorem foreign_source_not_supported (fuel : Nat) (lib : Lib) (cenv : CopyEnv)
    (menv : MoveEnv) (denv : DirMoveEnv) (f : Fs) (d : String)
    (remote srcRemote dstRemote : GoString) :
    f.Copy fuel lib cenv (SrcObject.foreign d) remote =
      { trace := [Event.debugf "Can't copy - not same remote type"],
        out := Outcome.ret (SrcObject.foreign d, none, some Error.ErrorCantCopy) } ∧
    f.Move menv (SrcObject.foreign d) remote =
      { trace := [Event.debugf "Can't move - not same remote type"],
        out := Outcome.ret (none, some Error.ErrorCantMove) } ∧
    f.DirMove lib denv (SrcFs.foreign d) srcRemote dstRemote =
      { trace := [Event.debugf "Can't move directory - not same remote type"],
        out := Outcome.ret (some Error.ErrorCantDirMove) } := by
  refine ⟨rfl, rfl, rfl⟩

/-- C8: when path.Join(srcFs.root, srcRemote) or path.Join(f.root,
dstRemote) is empty, DirMove returns a non-nil error and its only event is
the debug message: no directory-cache resolution, no directory creation, no
move request and no cache flush. -/
theorem dirMove_refuses_root (lib : Lib) (env : DirMoveEnv) (f srcFs : Fs)
    (srcRemote dstRemote : GoString)
    (h : lib.pathJoin srcFs.root srcRemote = [] ∨ lib.pathJoin f.root dstRemote = []) :
    f.DirMove lib env (SrcFs.box srcFs) srcRemote dstRemote =
      { trace := [Event.debugf "DirMove error: Can't move root"],
        out := Outcome.ret (some (Error.errorf "can't move root directory")) } := by
  unfold Fs.DirMove
  simp only [h, if_true]
  rfl

/-- Witness for C8: moving the root of a remote whose root is empty. -/
theorem dirMove_refuses_root_witness :
    (exampleLib.pathJoin (Fs.mk (ascii "box") []).root [] = [] ∨
      exampleLib.pathJoin (Fs.mk (ascii "box") (ascii "dst")).root (ascii "a") = []) ∧
    (Fs.mk (ascii "box") (ascii "dst")).DirMove exampleLib
        { srcFindRoot := none, dstFindRoot := none, dstFoundRoot := false,
          findPath := .ok (ascii "a", ascii "1"), dstFindDir := .error .ErrorDirNotFound,
          srcFindDir := .ok (ascii "0"), move := .error (.other "unused") }
        (SrcFs.box (Fs.mk (ascii "box") [])) [] (ascii "a") =
      { trace := [Event.debugf "DirMove error: Can't move root"],
        out := Outcome.ret (some (Error.errorf "can't move root directory")) } :=
  ⟨Or.inl rfl, dirMove_refuses_root _ _ _ _ _ _ (Or.inl rfl)⟩

/-- C4: NewFs returns a nil Fs and a non-nil error with no event before it
exactly when uploadCutoff is below minUploadCutoff (50000000); at or above
the floor the run starts with the oauth client and is never rejected by this
check. -/
theorem newFs_cutoff_floor (fuel : Nat) (lib : Lib) (cfg : Config) (env : NewFsEnv)
    (name root : GoString) :
    minUploadCutoff = 50000000 ∧
    ((∃ err, NewFs fuel lib cfg env name root =
        { trace := [], out := Outcome.ret (none, some err) })
      ↔ cfg.uploadCutoff < minUploadCutoff) := by
  refine ⟨rfl, ?_⟩
  constructor
  · rintro ⟨err, h⟩
    by_contra hc
    have ht := congrArg Exec.trace h
    unfold NewFs at ht
    simp only [hc, if_false] at ht
    simp [bind, Exec.bind, emit] at ht
  · intro hc
    refine ⟨Error.errorf "box: upload cutoff (%v) must be greater than equal to %v", ?_⟩
    unfold NewFs
    simp only [hc, if_true]
    rfl

/-! ### Runs that only read -/

theorem bind_trace_mem {α β : Type} (m : Exec α) (k : α → Exec β) (ev : Event)
    (h : ev ∈ (m >>= k).trace) :
    ev ∈ m.trace ∨ ∃ a, m.out = Outcome.ret a ∧ ev ∈ (k a).trace := by
  rcases m with ⟨tr, out⟩
  cases out with
  | ret a =>
    simp only [bind, Exec.bind, List.mem_append] at h
    rcases h with h | h
    · exact Or.inl h
    · exact Or.inr ⟨a, rfl, h⟩
  | crash msg => exact Or.inl (by simpa [bind, Exec.bind] using h)
  | running => exact Or.inl (by simpa [bind, Exec.bind] using h)

theorem readsOnly_bind {α β : Type} (m : Exec α) (k : α → Exec β)
    (hm : m.readsOnly) (hk : ∀ a, (k a).readsOnly) : (m >>= k).readsOnly := by
  intro ev hev
  rcases bind_trace_mem m k ev hev with h | ⟨a, _, h⟩
  · exact hm ev h
  · exact hk a ev h

theorem readsOnly_pure {α : Type} (a : α) : (pure a : Exec α).readsOnly := by
  intro ev hev
  simp [pure] at hev

theorem readsOnly_crash {α : Type} (msg : String) : (crash msg : Exec α).readsOnly := by
  intro ev hev
  simp [crash] at hev

theorem readsOnly_emit (e : Event) (h : e.writes = false) : (emit e).readsOnly := by
  intro ev hev
  simp [emit] at hev
  rw [hev]
  exact h

theorem listAllEntries_readsOnly {σ : Type} (f : Fs) (d fo : Bool)
    (fn : Item → σ → Exec (Bool × σ)) (hfn : ∀ item s, (fn item s).readsOnly)
    (items : List Item) :
    ∀ s, (listAllEntries f d fo fn items s).readsOnly := by
  induction items with
  | nil => intro s; exact readsOnly_pure _
  | cons item rest ih =>
    intro s
    unfold listAllEntries
    split
    · split
      · exact ih s
      · split
        · exact ih s
        · refine readsOnly_bind _ _ (hfn _ _) (fun r => ?_)
          split
          · exact readsOnly_pure _
          · exact ih _
    · split
      · split
        · exact ih s
        · split
          · exact ih s
          · refine readsOnly_bind _ _ (hfn _ _) (fun r => ?_)
            split
            · exact readsOnly_pure _
            · exact ih _
      · exact readsOnly_bind _ _ (readsOnly_emit _ rfl) (fun _ => ih s)

theorem listAllPages_readsOnly {σ : Type} (env : ListEnv) (f : Fs) (dirID : GoString)
    (d fo : Bool) (fn : Item → σ → Exec (Bool × σ))
    (hfn : ∀ item s, (fn item s).readsOnly) (fuel : Nat) :
    ∀ n offset s, (listAllPages env f dirID d fo fn fuel n offset s).readsOnly := by
  induction fuel with
  | zero =>
    intro n offset s ev hev
    simp [listAllPages] at hev
  | succ k ih =>
    intro n offset s
    unfold listAllPages
    refine readsOnly_bind _ _ (readsOnly_emit _ rfl) (fun _ => ?_)
    split
    · exact readsOnly_pure _
    · refine readsOnly_bind _ _ (listAllEntries_readsOnly f d fo fn hfn _ s) (fun r => ?_)
      split
      · exact readsOnly_pure _
      · split
        · exact readsOnly_pure _
        · exact ih _ _ _

theorem readMetaDataForPath_readsOnly (fuel : Nat) (env : MetaEnv) (f : Fs)
    (path : GoString) : (f.readMetaDataForPath fuel env path).readsOnly := by
  unfold Fs.readMetaDataForPath
  refine readsOnly_bind _ _ (readsOnly_emit _ rfl) (fun _ => ?_)
  split
  · split
    · exact readsOnly_pure _
    · exact readsOnly_pure _
  · refine readsOnly_bind _ _
      (listAllPages_readsOnly _ _ _ _ _ _ (fun _ _ => readsOnly_pure _) _ _ _ _) (fun r => ?_)
    split
    · exact readsOnly_pure _
    · split
      · exact readsOnly_pure _
      · exact readsOnly_pure _

theorem readMetaData_readsOnly (fuel : Nat) (env : MetaEnv) (o : Object) :
    (o.readMetaData fuel env).readsOnly := by
  unfold Object.readMetaData
  split
  · exact readsOnly_pure _
  · refine readsOnly_bind _ _ (readMetaDataForPath_readsOnly _ _ _ _) (fun r => ?_)
    split
    · split
      · split
        · exact readsOnly_pure _
        · exact readsOnly_pure _
      · exact readsOnly_pure _
    · split
      · exact readsOnly_pure _
      · exact readsOnly_crash _

theorem setMetaData_keeps_path (o : Object) (info : Item) :
    (o.setMetaData info).1.fs = o.fs ∧ (o.setMetaData info).1.remote = o.remote := by
  unfold Object.setMetaData
  split <;> exact ⟨rfl, rfl⟩

theorem bind_out_ret {α β : Type} (m : Exec α) (k : α → Exec β) (b : β)
    (h : (m >>= k).out = Outcome.ret b) :
    ∃ a, m.out = Outcome.ret a ∧ (k a).out = Outcome.ret b := by
  rcases m with ⟨tr, out⟩
  cases out with
  | ret a => exact ⟨a, rfl, by simpa [bind, Exec.bind] using h⟩
  | crash msg => simp [bind, Exec.bind] at h
  | running => simp [bind, Exec.bind] at h

theorem pure_out_ret {α : Type} (a b : α)
    (h : (pure a : Exec α).out = Outcome.ret b) : a = b := by
  simpa [pure] using h

theorem readMetaData_keeps_path (fuel : Nat) (env : MetaEnv) (o o1 : Object)
    (e : Option Error) (h : (o.readMetaData fuel env).out = Outcome.ret (o1, e)) :
    o1.fs = o.fs ∧ o1.remote = o.remote := by
  unfold Object.readMetaData at h
  split at h
  · have := pure_out_ret _ _ h
    simp only [Prod.mk.injEq] at this
    rw [← this.1]
    exact ⟨rfl, rfl⟩
  · obtain ⟨r, _, hk⟩ := bind_out_ret _ _ _ h
    split at hk
    · split at hk
      · split at hk
        all_goals
          have := pure_out_ret _ _ hk
          simp only [Prod.mk.injEq] at this
          rw [← this.1]
          exact ⟨rfl, rfl⟩
      · have := pure_out_ret _ _ hk
        simp only [Prod.mk.injEq] at this
        rw [← this.1]
        exact ⟨rfl, rfl⟩
    · split at hk
      · rename_i info _
        have := pure_out_ret _ _ hk
        have hp := setMetaData_keeps_path o info
        rw [this] at hp
        exact hp
      · simp [crash] at hk

/-- C5: for a box source object whose metadata is available (readMetaData
returns nil), when the lowercased source path (source rootSlash + source
remote) equals the lowercased destination path (rootSlash + remote), Copy
returns a nil object and a non-nil error, and the run consists of the reading
of the source metadata only: no directory is created and no request but a GET
is sent. -/
theorem copy_rejects_case_insensitive_collision (fuel : Nat) (lib : Lib)
    (env : CopyEnv) (f : Fs) (srcObj srcObj1 : Object) (remote : GoString)
    (hmeta : (srcObj.readMetaData fuel env.readMeta).out = Outcome.ret (srcObj1, none))
    (hsame : lib.toLower (srcObj.fs.rootSlash ++ srcObj.remote)
      = lib.toLower (f.rootSlash ++ remote)) :
    f.Copy fuel lib env (SrcObject.box srcObj) remote =
      { trace := (srcObj.readMetaData fuel env.readMeta).trace,
        out := Outcome.ret (SrcObject.box srcObj1, none,
          some (Error.errorf "can't copy %q -> %q as are same name when lowercase")) } ∧
    ∀ ev ∈ (f.Copy fuel lib env (SrcObject.box srcObj) remote).trace,
      ev.writes = false := by
  have hp := readMetaData_keeps_path fuel env.readMeta srcObj srcObj1 none hmeta
  have hro := readMetaData_readsOnly fuel env.readMeta srcObj
  have hsame1 : lib.toLower (srcObj1.fs.rootSlash ++ srcObj1.remote)
      = lib.toLower (f.rootSlash ++ remote) := by
    rw [hp.1, hp.2]
    exact hsame
  have key : f.Copy fuel lib env (SrcObject.box srcObj) remote =
      { trace := (srcObj.readMetaData fuel env.readMeta).trace,
        out := Outcome.ret (SrcObject.box srcObj1, none,
          some (Error.errorf "can't copy %q -> %q as are same name when lowercase")) } := by
    unfold Fs.Copy
    simp only [bind, Exec.bind, hmeta, hsame1, if_true]
    simp [pure]
  refine ⟨key, ?_⟩
  rw [key]
  exact hro

/-- Witness for C5: copying Hello.txt, whose metadata is first read from
the listing of its directory, to hello.txt in the same root. -/
theorem copy_rejects_case_insensitive_collision_witness :
    (helloUpperNoMeta.readMetaData 1 listingCopyEnv.readMeta).out
      = Outcome.ret (helloUpper, none) ∧
    exampleLib.toLower (helloUpperNoMeta.fs.rootSlash ++ helloUpperNoMeta.remote)
      = exampleLib.toLower (exampleFs.rootSlash ++ ascii "hello.txt") ∧
    exampleFs.Copy 1 exampleLib listingCopyEnv (SrcObject.box helloUpperNoMeta)
        (ascii "hello.txt") =
      { trace := [Event.findRootAndPath exampleFs (ascii "Hello.txt") false,
                  Event.call true (listAllRequest (ascii "0") 0)],
        out := Outcome.ret (SrcObject.box helloUpper, none,
          some (Error.errorf "can't copy %q -> %q as are same name when lowercase")) } :=
  ⟨rfl, by decide,
   (copy_rejects_case_insensitive_collision 1 exampleLib listingCopyEnv exampleFs
      helloUpperNoMeta helloUpper (ascii "hello.txt") rfl (by decide)).1⟩

/-- C6 (the code at the failing input): Move of Hello.txt to hello.txt in
the same root, two paths that are equal when lowercased, resolves the
destination directory, sends the move request and returns the destination
object with a nil error. -/
theorem move_sends_request_on_collision :
    asciiToLower (exampleFs.rootSlash ++ helloUpper.remote)
      = asciiToLower (exampleFs.rootSlash ++ ascii "hello.txt") ∧
    exampleFs.Move
        { createObject := .ok (ascii "hello.txt", ascii "0"), move := .ok helloItem }
        (SrcObject.box helloUpper) (ascii "hello.txt") =
      { trace := [Event.findRootAndPath exampleFs (ascii "hello.txt") true,
                  Event.call true (moveRequest (ascii "/files/") (ascii "7")
                    (ascii "hello.txt") (ascii "0"))],
        out := Outcome.ret (some helloLower, none) } := by
  constructor
  · decide
  · rfl

theorem upload_trace (res : Except Error FolderItems) (o : Object)
    (leaf directoryID : GoString) (modTime : Int) :
    (o.upload res leaf directoryID modTime).trace
      = [Event.call false (uploadRequest o leaf directoryID modTime)] := by
  unfold Object.upload
  cases res with
  | error err => rfl
  | ok result =>
    simp only [bind, Exec.bind, emit]
    split
    · rfl
    · split <;> rfl

theorem uploadMultipart_trace (res : Except Error Item) (o : Object)
    (leaf directoryID : GoString) (size modTime : Int) :
    (o.uploadMultipart res leaf directoryID size modTime).trace
      = [Event.tokenGet, Event.multipart leaf directoryID size modTime, Event.tokenPut] := by
  unfold Object.uploadMultipart
  cases res <;> rfl

theorem update_run (cfg : Config) (env : UpdateEnv) (o : Object) (size modTime : Int)
    (leaf directoryID : GoString) (up : Exec (Object × Option Error))
    (hfind : env.findRootAndPath = .ok (leaf, directoryID))
    (hup : (if size ≤ cfg.uploadCutoff then o.upload env.upload leaf directoryID modTime
      else o.uploadMultipart env.multipart leaf directoryID size modTime) = up)
    (hret : ∃ a, up.out = Outcome.ret a) :
    o.Update cfg env size modTime =
      { trace := [Event.tokenRenewerStart, Event.findRootAndPath o.fs o.remote true]
          ++ up.trace ++ [Event.tokenRenewerStop],
        out := up.out } := by
  obtain ⟨a, ha⟩ := hret
  unfold Object.Update
  simp only [hfind, hup]
  rcases up with ⟨tr, out⟩
  simp only at ha
  subst ha
  simp [bind, Exec.bind, emit, pure]

theorem upload_returns (res : Except Error FolderItems) (o : Object)
    (leaf directoryID : GoString) (modTime : Int) :
    ∃ a, (o.upload res leaf directoryID modTime).out = Outcome.ret a := by
  unfold Object.upload
  cases res with
  | error err => exact ⟨_, rfl⟩
  | ok result =>
    simp only [bind, Exec.bind, emit]
    split
    · exact ⟨_, rfl⟩
    · rename_i hc
      cases hh : result.entries with
      | nil => simp [hh] at hc
      | cons e es => exact ⟨_, rfl⟩

theorem uploadMultipart_returns (res : Except Error Item) (o : Object)
    (leaf directoryID : GoString) (size modTime : Int) :
    ∃ a, (o.uploadMultipart res leaf directoryID size modTime).out = Outcome.ret a := by
  unfold Object.uploadMultipart
  cases res <;> exact ⟨_, rfl⟩

/-- C2 (as stated, refuted): with the default cutoff of 50 MiB, an object
of exactly that size is at the cutoff, and Update sends it by the
single-request upload, with no multipart upload and no token; and for a
60 MB object whose parent directory cannot be resolved Update returns the
error without selecting either upload. -/
theorem update_at_cutoff_counterexample :
    (52428800 : Int) ≥ defaultConfig.uploadCutoff ∧
    (helloLower.Update defaultConfig helloUpdateEnv 52428800 0).trace =
      [Event.tokenRenewerStart,
       Event.findRootAndPath exampleFs (ascii "hello.txt") true,
       Event.call false (uploadRequest helloLower (ascii "hello.txt") (ascii "0") 0),
       Event.tokenRenewerStop] ∧
    (60000000 : Int) ≥ defaultConfig.uploadCutoff ∧
    helloLower.Update defaultConfig
        { helloUpdateEnv with findRootAndPath := .error (.other "mkdir failed") }
        60000000 0 =
      { trace := [Event.tokenRenewerStart,
                  Event.findRootAndPath exampleFs (ascii "hello.txt") true,
                  Event.tokenRenewerStop],
        out := Outcome.ret (helloLower, some (Error.other "mkdir failed")) } := by
  refine ⟨by decide, rfl, by decide, rfl⟩

/-- C2 (amended): for every size strictly above the upload cutoff, once the
parent directory has been resolved, Update runs uploadMultipart between the
start and the stop of the token renewer and returns its result, and it never
makes the single-request upload call. -/
theorem update_above_cutoff_multipart (cfg : Config) (env : UpdateEnv) (o : Object)
    (size modTime : Int) (leaf directoryID : GoString)
    (hfind : env.findRootAndPath = .ok (leaf, directoryID))
    (hsize : cfg.uploadCutoff < size) :
    o.Update cfg env size modTime =
      { trace := [Event.tokenRenewerStart, Event.findRootAndPath o.fs o.remote true]
          ++ (o.uploadMultipart env.multipart leaf directoryID size modTime).trace
          ++ [Event.tokenRenewerStop],
        out := (o.uploadMultipart env.multipart leaf directoryID size modTime).out } ∧
    ∀ req, Event.call false req ∉ (o.Update cfg env size modTime).trace := by
  have hnot : ¬ size ≤ cfg.uploadCutoff := not_le.mpr hsize
  have key := update_run cfg env o size modTime leaf directoryID
    (o.uploadMultipart env.multipart leaf directoryID size modTime) hfind
    (by simp only [hnot, if_false]) (uploadMultipart_returns _ _ _ _ _ _)
  refine ⟨key, ?_⟩
  intro req
  rw [key, uploadMultipart_trace]
  simp

/-- Witness for C2 (amended): a 60 MB object with the default cutoff. -/
theorem update_above_cutoff_multipart_witness :
    helloUpdateEnv.findRootAndPath = .ok (ascii "hello.txt", ascii "0") ∧
    defaultConfig.uploadCutoff < 60000000 ∧
    (helloLower.Update defaultConfig helloUpdateEnv 60000000 0).trace =
      [Event.tokenRenewerStart,
       Event.findRootAndPath exampleFs (ascii "hello.txt") true,
       Event.tokenGet,
       Event.multipart (ascii "hello.txt") (ascii "0") 60000000 0,
       Event.tokenPut,
       Event.tokenRenewerStop] :=
  ⟨rfl, by decide,
   congrArg Exec.trace (update_above_cutoff_multipart defaultConfig helloUpdateEnv
     helloLower 60000000 0 (ascii "hello.txt") (ascii "0") rfl (by decide)).1⟩

/-- C3: for every size strictly below the upload cutoff, once the parent
directory has been resolved, Update runs the single-request upload between
the start and the stop of the token renewer and returns its result; it never
calls uploadMultipart and acquires no TokenDispenser slot. -/
theorem update_below_cutoff_single (cfg : Config) (env : UpdateEnv) (o : Object)
    (size modTime : Int) (leaf directoryID : GoString)
    (hfind : env.findRootAndPath = .ok (leaf, directoryID))
    (hsize : size < cfg.uploadCutoff) :
    o.Update cfg env size modTime =
      { trace := [Event.tokenRenewerStart, Event.findRootAndPath o.fs o.remote true]
          ++ (o.upload env.upload leaf directoryID modTime).trace
          ++ [Event.tokenRenewerStop],
        out := (o.upload env.upload leaf directoryID modTime).out } ∧
    (o.upload env.upload leaf directoryID modTime).trace
      = [Event.call false (uploadRequest o leaf directoryID modTime)] ∧
    Event.tokenGet ∉ (o.Update cfg env size modTime).trace ∧
    ∀ l d sz mt, Event.multipart l d sz mt ∉ (o.Update cfg env size modTime).trace := by
  have hle : size ≤ cfg.uploadCutoff := le_of_lt hsize
  have key := update_run cfg env o size modTime leaf directoryID
    (o.upload env.upload leaf directoryID modTime) hfind
    (by simp only [hle, if_true]) (upload_returns _ _ _ _ _)
  refine ⟨key, upload_trace _ _ _ _ _, ?_, ?_⟩
  · rw [key, upload_trace]
    simp
  · intro l d sz mt
    rw [key, upload_trace]
    simp

/-- Witness for C3: a 10 MB object with a cutoff of 50 MB. -/
theorem update_below_cutoff_single_witness :
    helloUpdateEnv.findRootAndPath = .ok (ascii "hello.txt", ascii "0") ∧
    (10000000 : Int) < (Config.mk 50000000).uploadCutoff ∧
    (helloLower.Update (Config.mk 50000000) helloUpdateEnv 10000000 0).trace =
      [Event.tokenRenewerStart,
       Event.findRootAndPath exampleFs (ascii "hello.txt") true,
       Event.call false (uploadRequest helloLower (ascii "hello.txt") (ascii "0") 0),
       Event.tokenRenewerStop] :=
  ⟨rfl, by decide,
   congrArg Exec.trace (update_below_cutoff_single (Config.mk 50000000) helloUpdateEnv
     helloLower 10000000 0 (ascii "hello.txt") (ascii "0") rfl (by decide)).1⟩

theorem dirMove_exists_a (lib : Lib) (env : DirMoveEnv) (f : Fs) (src : SrcFs)
    (srcRemote dstRemote : GoString)
    (h : (dstRemote ≠ [] ∧ ∃ id, env.dstFindDir = .ok id) ∨
         (dstRemote = [] ∧ env.dstFoundRoot = true)) :
    (∃ err, (f.DirMove lib env src srcRemote dstRemote).out = Outcome.ret (some err)) ∧
    (∀ req, Event.call true req ∉ (f.DirMove lib env src srcRemote dstRemote).trace) ∧
    (∀ g d, Event.flushDir g d ∉ (f.DirMove lib env src srcRemote dstRemote).trace) := by
  rcases env with ⟨sfr, dfr, dfound, fp, dfd, sfd, mv⟩
  cases src with
  | foreign d => simp [Fs.DirMove, bind, Exec.bind, emit, pure]
  | box srcFs =>
    by_cases hroot : lib.pathJoin srcFs.root srcRemote = [] ∨ lib.pathJoin f.root dstRemote = []
    · simp [Fs.DirMove, hroot, bind, Exec.bind, emit, pure]
    · rcases h with ⟨hne, id, hid⟩ | ⟨he, hf⟩
      · simp only at hid
        subst hid
        cases sfr <;> cases dfr <;> cases fp <;>
          simp [Fs.DirMove, Fs.dirMoveCheckAndMove, hroot, hne, bind, Exec.bind, emit, pure]
      · simp only at hf
        subst hf
        subst he
        cases sfr <;>
          simp [Fs.DirMove, Fs.dirMoveCheckAndMove, hroot, bind, Exec.bind, emit, pure]

theorem dirMove_exists_b (lib : Lib) (env : DirMoveEnv) (f srcFs : Fs)
    (srcRemote dstRemote : GoString)
    (hsrc : lib.pathJoin srcFs.root srcRemote ≠ [])
    (hdst : lib.pathJoin f.root dstRemote ≠ [])
    (hsfr : env.srcFindRoot = none)
    (h : (dstRemote ≠ [] ∧ env.dstFindRoot = none ∧ (∃ p, env.findPath = .ok p) ∧
            ∃ id, env.dstFindDir = .ok id) ∨
         (dstRemote = [] ∧ env.dstFoundRoot = true)) :
    (f.DirMove lib env (SrcFs.box srcFs) srcRemote dstRemote).out
      = Outcome.ret (some Error.ErrorDirExists) := by
  rcases env with ⟨sfr, dfr, dfound, fp, dfd, sfd, mv⟩
  simp only at hsfr
  subst hsfr
  rcases h with ⟨hne, hdfr, ⟨p, hp⟩, id, hid⟩ | ⟨he, hf⟩
  · simp only at hdfr hp hid
    subst hdfr hp hid
    simp [Fs.DirMove, Fs.dirMoveCheckAndMove, hsrc, hdst, hne, bind, Exec.bind, emit, pure]
  · simp only at hf
    subst hf he
    simp [Fs.DirMove, Fs.dirMoveCheckAndMove, hsrc, hdst, bind, Exec.bind, emit, pure]

theorem dirMove_move_c (lib : Lib) (env : DirMoveEnv) (f : Fs) (src : SrcFs)
    (srcRemote dstRemote : GoString) (req : Request)
    (hmem : Event.call true req ∈ (f.DirMove lib env src srcRemote dstRemote).trace) :
    (dstRemote ≠ [] → env.dstFindDir = .error .ErrorDirNotFound ∧
      ∃ pre post, (f.DirMove lib env src srcRemote dstRemote).trace
          = pre ++ Event.call true req :: post ∧
        Event.findDir f dstRemote false ∈ pre) ∧
    (dstRemote = [] → env.dstFoundRoot = false) := by
  rcases env with ⟨sfr, dfr, dfound, fp, dfd, sfd, mv⟩
  cases src with
  | foreign d => simp [Fs.DirMove, bind, Exec.bind, emit, pure] at hmem
  | box srcFs =>
    by_cases hroot : lib.pathJoin srcFs.root srcRemote = [] ∨ lib.pathJoin f.root dstRemote = []
    · simp [Fs.DirMove, hroot, bind, Exec.bind, emit, pure] at hmem
    · by_cases hd : dstRemote = []
      · subst hd
        cases sfr <;> cases dfound <;> cases fp <;> cases sfd <;> cases mv <;>
          simp [Fs.DirMove, Fs.dirMoveCheckAndMove, Fs.move, hroot, bind, Exec.bind,
            emit, pure] at hmem ⊢
      · refine ⟨fun _ => ?_, fun h0 => absurd h0 hd⟩
        rcases dfd with err | id
        · by_cases he : err = Error.ErrorDirNotFound
          · subst he
            rcases sfr with _ | e1
            · rcases dfr with _ | e2
              · rcases fp with e3 | ⟨leaf, dirID⟩
                · simp [Fs.DirMove, hroot, hd, bind, Exec.bind, emit, pure] at hmem
                · rcases sfd with e4 | srcID
                  · simp [Fs.DirMove, Fs.dirMoveCheckAndMove, hroot, hd, bind, Exec.bind,
                      emit, pure] at hmem
                  · have htrace : ∃ post, (∀ r, Event.call true r ∉ post) ∧
                        (f.DirMove lib ⟨none, none, dfound, .ok (leaf, dirID),
                          .error .ErrorDirNotFound, .ok srcID, mv⟩ (SrcFs.box srcFs)
                          srcRemote dstRemote).trace =
                        [Event.findRoot srcFs false, Event.findRoot f true,
                         Event.findPath f dstRemote true, Event.findDir f dstRemote false,
                         Event.findDir srcFs srcRemote false] ++
                        Event.call true (moveRequest (ascii "/folders/") srcID leaf dirID)
                          :: post := by
                      cases mv with
                      | error e5 =>
                        refine ⟨[], by simp, ?_⟩
                        simp [Fs.DirMove, Fs.dirMoveCheckAndMove, Fs.move, hroot, hd, bind,
                          Exec.bind, emit, pure]
                      | ok info =>
                        refine ⟨[Event.flushDir srcFs srcRemote], by simp, ?_⟩
                        simp [Fs.DirMove, Fs.dirMoveCheckAndMove, Fs.move, hroot, hd, bind,
                          Exec.bind, emit, pure]
                    obtain ⟨post, hpost, ht⟩ := htrace
                    rw [ht] at hmem ⊢
                    have hreq : req = moveRequest (ascii "/folders/") srcID leaf dirID := by
                      simp only [List.mem_append, List.mem_cons] at hmem
                      rcases hmem with h1 | h1 | h1
                      · simp at h1
                      · simpa using h1
                      · exact absurd h1 (hpost req)
                    subst hreq
                    exact ⟨rfl, _, post, rfl, by simp⟩
              · simp [Fs.DirMove, hroot, hd, bind, Exec.bind, emit, pure] at hmem
            · simp [Fs.DirMove, hroot, hd, bind, Exec.bind, emit, pure] at hmem
          · cases sfr <;> cases dfr <;> cases fp <;>
              simp [Fs.DirMove, Fs.dirMoveCheckAndMove, hroot, hd, he, bind, Exec.bind,
                emit, pure] at hmem
        · cases sfr <;> cases dfr <;> cases fp <;>
            simp [Fs.DirMove, Fs.dirMoveCheckAndMove, hroot, hd, bind, Exec.bind,
              emit, pure] at hmem

/-- C9 (as stated, refuted): with dstRemote empty and the destination root
already found, a source root that is not found makes DirMove return
fs.ErrorDirNotFound, not fs.ErrorDirExists; and with dstRemote empty and the
destination root not yet found the move request is sent although no lookup
of the destination was made. -/
theorem dirMove_exists_counterexample :
    rootFoundEnv.dstFoundRoot = true ∧
    (dstFs.DirMove exampleLib rootFoundEnv (SrcFs.box srcFsMissing) [] []).out
      = Outcome.ret (some Error.ErrorDirNotFound) ∧
    (dstFs.DirMove exampleLib rootFoundEnv (SrcFs.box srcFsMissing) [] []).out
      ≠ Outcome.ret (some Error.ErrorDirExists) ∧
    (dstFs.DirMove exampleLib freshDstEnv (SrcFs.box srcFsMissing) [] []).trace =
      [Event.findRoot srcFsMissing false, Event.foundRoot dstFs,
       Event.findPath dstFs (ascii "dst") true,
       Event.findDir srcFsMissing [] false,
       Event.call true (moveRequest (ascii "/folders/") (ascii "3") (ascii "dst") (ascii "0")),
       Event.flushDir srcFsMissing []] := by
  refine ⟨rfl, rfl, by decide, rfl⟩

/-- C9 (amended): whenever the destination directory already exists (for a
non-empty dstRemote FindDir(dstRemote, false) succeeds, for an empty one the
destination root has been found), DirMove returns a non-nil error, never
sends the move request and never flushes the source cache subtree; that
error is fs.ErrorDirExists when the steps before the check succeed (box
source, neither path empty, source root found and, for a non-empty
dstRemote, destination root and parent resolved); and when the move request
is sent, then for a non-empty dstRemote the destination lookup returned
fs.ErrorDirNotFound and was made before the request, and for an empty
dstRemote FoundRoot() was false. -/
theorem dirMove_destination_check (lib : Lib) (env : DirMoveEnv) (f : Fs) (src : SrcFs)
    (srcRemote dstRemote : GoString) :
    (((dstRemote ≠ [] ∧ ∃ id, env.dstFindDir = .ok id) ∨
        (dstRemote = [] ∧ env.dstFoundRoot = true)) →
      (∃ err, (f.DirMove lib env src srcRemote dstRemote).out = Outcome.ret (some err)) ∧
      (∀ req, Event.call true req ∉ (f.DirMove lib env src srcRemote dstRemote).trace) ∧
      (∀ g d, Event.flushDir g d ∉ (f.DirMove lib env src srcRemote dstRemote).trace)) ∧
    (∀ srcFs, src = SrcFs.box srcFs →
      lib.pathJoin srcFs.root srcRemote ≠ [] → lib.pathJoin f.root dstRemote ≠ [] →
      env.srcFindRoot = none →
      ((dstRemote ≠ [] ∧ env.dstFindRoot = none ∧ (∃ p, env.findPath = .ok p) ∧
          ∃ id, env.dstFindDir = .ok id) ∨
        (dstRemote = [] ∧ env.dstFoundRoot = true)) →
      (f.DirMove lib env src srcRemote dstRemote).out
        = Outcome.ret (some Error.ErrorDirExists)) ∧
    (∀ req, Event.call true req ∈ (f.DirMove lib env src srcRemote dstRemote).trace →
      (dstRemote ≠ [] → env.dstFindDir = .error .ErrorDirNotFound ∧
        ∃ pre post, (f.DirMove lib env src srcRemote dstRemote).trace
            = pre ++ Event.call true req :: post ∧
          Event.findDir f dstRemote false ∈ pre) ∧
      (dstRemote = [] → env.dstFoundRoot = false)) := by
  refine ⟨dirMove_exists_a lib env f src srcRemote dstRemote, ?_,
    fun req h => dirMove_move_c lib env f src srcRemote dstRemote req h⟩
  intro srcFs hsrc h1 h2 h3 h4
  subst hsrc
  exact dirMove_exists_b lib env f srcFs srcRemote dstRemote h1 h2 h3 h4

/-- Witness for C9 (amended): moving directory a of the remote rooted at src
to b of the remote rooted at dst, when b exists and when it does not. -/
theorem dirMove_destination_check_witness :
    ((ascii "b" ≠ [] ∧ ∃ id, dstExistsEnv.dstFindDir = .ok id) ∧
      (dstFs.DirMove exampleLib dstExistsEnv (SrcFs.box srcFsMissing) (ascii "a")
        (ascii "b")).out = Outcome.ret (some Error.ErrorDirExists)) ∧
    (Event.call true (moveRequest (ascii "/folders/") (ascii "3") (ascii "b") (ascii "0"))
        ∈ (dstFs.DirMove exampleLib (freshDstEnvFor (ascii "b")) (SrcFs.box srcFsMissing)
            (ascii "a") (ascii "b")).trace ∧
      (freshDstEnvFor (ascii "b")).dstFindDir = .error .ErrorDirNotFound) :=
  ⟨⟨⟨by decide, ascii "9", rfl⟩,
    (dirMove_destination_check exampleLib dstExistsEnv dstFs (SrcFs.box srcFsMissing)
      (ascii "a") (ascii "b")).2.1 srcFsMissing rfl (by decide) (by decide) rfl
      (Or.inl ⟨by decide, rfl, ⟨(ascii "b", ascii "0"), rfl⟩, ascii "9", rfl⟩)⟩,
   ⟨by decide,
    (((dirMove_destination_check exampleLib (freshDstEnvFor (ascii "b")) dstFs
      (SrcFs.box srcFsMissing) (ascii "a") (ascii "b")).2.2
        (moveRequest (ascii "/folders/") (ascii "3") (ascii "b") (ascii "0"))
        (by decide)).1 (by decide)).1⟩⟩

/-! ### listAll: early termination -/

theorem itemTypeFolder_ne_file : ItemTypeFolder ≠ ItemTypeFile := by decide

theorem listAllEntries_cons {σ : Type} (f : Fs) (d fo : Bool)
    (fn : Item → σ → Exec (Bool × σ)) (item : Item) (rest : List Item) (s : σ) :
    listAllEntries f d fo fn (item :: rest) s =
      if listAllKeeps d fo item = true then
        (fn { item with name := restoreReservedChars item.name } s >>= fun r =>
          if r.1 then pure (true, r.2) else listAllEntries f d fo fn rest r.2)
      else if item.type ≠ ItemTypeFolder ∧ item.type ≠ ItemTypeFile then
        (emit (.debugf "Ignoring %q - unknown type %q") >>= fun _ =>
          listAllEntries f d fo fn rest s)
      else listAllEntries f d fo fn rest s := by
  have hne := itemTypeFolder_ne_file
  rw [listAllEntries]
  by_cases h1 : item.type = ItemTypeFolder
  · have h2 : item.type ≠ ItemTypeFile := fun h => hne (h1.symm.trans h)
    by_cases h3 : item.itemStatus = ItemStatusActive <;> cases fo <;>
      simp [listAllKeeps, h1, h2, h3, hne]
  · by_cases h2 : item.type = ItemTypeFile
    · by_cases h3 : item.itemStatus = ItemStatusActive <;> cases d <;>
        simp [listAllKeeps, h1, h2, h3, hne.symm]
    · simp [listAllKeeps, h1, h2]

theorem cons_eq_append_cons {x a : Event} {t pre post : List Event} (hne : x ≠ a)
    (h : x :: t = pre ++ a :: post) : ∃ pre1, pre = x :: pre1 ∧ t = pre1 ++ a :: post := by
  cases pre with
  | nil =>
    simp only [List.nil_append, List.cons.injEq] at h
    exact absurd h.1 hne
  | cons y ys =>
    simp only [List.cons_append, List.cons.injEq] at h
    exact ⟨ys, by rw [h.1], h.2⟩

theorem append_eq_append_cons {a : Event} (l1 : List Event) :
    ∀ {l2 pre post : List Event}, a ∉ l1 → l1 ++ l2 = pre ++ a :: post →
      ∃ pre1, pre = l1 ++ pre1 ∧ l2 = pre1 ++ a :: post := by
  induction l1 with
  | nil => intro l2 pre post _ h; exact ⟨pre, rfl, h⟩
  | cons x xs ih =>
    intro l2 pre post hmem h
    have hx : x ≠ a := fun e => hmem (by simp [e])
    obtain ⟨pre1, hpre, ht⟩ := cons_eq_append_cons hx (by simpa using h)
    obtain ⟨pre2, hpre2, h2⟩ := ih (fun hm => hmem (List.mem_cons_of_mem _ hm)) ht
    exact ⟨pre2, by rw [hpre, hpre2]; rfl, h2⟩

theorem observed_run {σ : Type} (p : Item → σ → Bool × σ) (item : Item) (s : σ) :
    observed p item s =
      { trace := [Event.applied item (p item s).1], out := Outcome.ret (p item s) } := rfl

/-- The entry loop with an observed user function: it returns; it reports a
hit exactly when some application returned true; nothing follows an
application that returned true; every application is to a kept entry with
its name restored; and it requests nothing. -/
theorem listAllEntries_observed {σ : Type} (f : Fs) (d fo : Bool)
    (p : Item → σ → Bool × σ) (items : List Item) : ∀ s,
    (∃ hit s1, (listAllEntries f d fo (observed p) items s).out = Outcome.ret (hit, s1) ∧
      (hit = true ↔
        ∃ item, Event.applied item true ∈ (listAllEntries f d fo (observed p) items s).trace)) ∧
    (∀ pre post item, (listAllEntries f d fo (observed p) items s).trace
        = pre ++ Event.applied item true :: post → post = []) ∧
    (∀ item b, Event.applied item b ∈ (listAllEntries f d fo (observed p) items s).trace →
      ∃ raw ∈ items, item = { raw with name := restoreReservedChars raw.name } ∧
        listAllKeeps d fo raw = true) ∧
    (∀ r req, Event.call r req ∉ (listAllEntries f d fo (observed p) items s).trace) := by
  induction items with
  | nil =>
    intro s
    refine ⟨⟨false, s, rfl, ?_⟩, ?_, ?_, ?_⟩
    · simp [listAllEntries, pure]
    · intro pre post item h
      simp [listAllEntries, pure] at h
    · intro item b h
      simp [listAllEntries, pure] at h
    · intro r req h
      simp [listAllEntries, pure] at h
  | cons raw rest ih =>
    intro s
    rw [listAllEntries_cons]
    by_cases hk : listAllKeeps d fo raw = true
    · simp only [hk, if_true, observed_run]
      cases hb : (p { raw with name := restoreReservedChars raw.name } s).1 with
      | true =>
        simp only [bind, Exec.bind, hb, if_true, pure, List.append_nil]
        refine ⟨⟨true, _, rfl, by simp⟩, ?_, ?_, ?_⟩
        · intro pre post item h
          cases pre with
          | nil =>
            simp only [List.nil_append, List.cons.injEq] at h
            exact h.2.symm
          | cons y ys => simp at h
        · intro item b h
          simp only [List.mem_singleton, Event.applied.injEq] at h
          exact ⟨raw, by simp, h.1, hk⟩
        · intro r req h
          simp at h
      | false =>
        obtain ⟨⟨hit, s1, hout, hiff⟩, h2, h3, h4⟩ :=
          ih (p { raw with name := restoreReservedChars raw.name } s).2
        simp only [bind, Exec.bind, hb, Bool.false_eq_true, if_false, List.singleton_append]
        refine ⟨⟨hit, s1, hout, ?_⟩, ?_, ?_, ?_⟩
        · rw [hiff]
          constructor
          · rintro ⟨item, hm⟩
            exact ⟨item, List.mem_cons_of_mem _ hm⟩
          · rintro ⟨item, hm⟩
            simp only [List.mem_cons, Event.applied.injEq] at hm
            rcases hm with hm | hm
            · simp at hm
            · exact ⟨item, hm⟩
        · intro pre post item h
          obtain ⟨pre1, _, ht⟩ := cons_eq_append_cons (by simp) h
          exact h2 pre1 post item ht
        · intro item b h
          simp only [List.mem_cons, Event.applied.injEq] at h
          rcases h with h | h
          · exact ⟨raw, by simp, h.1, hk⟩
          · obtain ⟨raw1, hmem, heq, hkeep⟩ := h3 item b h
            exact ⟨raw1, List.mem_cons_of_mem _ hmem, heq, hkeep⟩
        · intro r req h
          simp only [List.mem_cons] at h
          rcases h with h | h
          · simp at h
          · exact h4 r req h
    · simp only [hk, Bool.false_eq_true, if_false]
      obtain ⟨⟨hit, s1, hout, hiff⟩, h2, h3, h4⟩ := ih s
      have h3a : ∀ item b, Event.applied item b ∈ (listAllEntries f d fo (observed p) rest s).trace →
          ∃ raw1 ∈ raw :: rest, item = { raw1 with name := restoreReservedChars raw1.name } ∧
            listAllKeeps d fo raw1 = true := by
        intro item b h
        obtain ⟨raw1, hmem, heq, hkeep⟩ := h3 item b h
        exact ⟨raw1, List.mem_cons_of_mem _ hmem, heq, hkeep⟩
      split
      · simp only [bind, Exec.bind, emit, List.singleton_append]
        refine ⟨⟨hit, s1, hout, ?_⟩, ?_, ?_, ?_⟩
        · rw [hiff]
          constructor
          · rintro ⟨item, hm⟩
            exact ⟨item, List.mem_cons_of_mem _ hm⟩
          · rintro ⟨item, hm⟩
            simp only [List.mem_cons] at hm
            rcases hm with hm | hm
            · simp at hm
            · exact ⟨item, hm⟩
        · intro pre post item h
          obtain ⟨pre1, _, ht⟩ := cons_eq_append_cons (by simp) h
          exact h2 pre1 post item ht
        · intro item b h
          simp only [List.mem_cons] at h
          rcases h with h | h
          · simp at h
          · exact h3a item b h
        · intro r req h
          simp only [List.mem_cons] at h
          rcases h with h | h
          · simp at h
          · exact h4 r req h
      · exact ⟨⟨hit, s1, hout, hiff⟩, h2, h3a, h4⟩

/-- The page loop with an observed user function. -/
theorem listAllPages_observed {σ : Type} (env : ListEnv) (f : Fs) (dirID : GoString)
    (d fo : Bool) (p : Item → σ → Bool × σ) (fuel : Nat) : ∀ n offset s,
    (∀ found err s1,
      (listAllPages env f dirID d fo (observed p) fuel n offset s).out
        = Outcome.ret ((found, err), s1) →
      (found = true ↔ ∃ item, Event.applied item true ∈
        (listAllPages env f dirID d fo (observed p) fuel n offset s).trace)) ∧
    ((∃ item, Event.applied item true ∈
        (listAllPages env f dirID d fo (observed p) fuel n offset s).trace) →
      ∃ s1, (listAllPages env f dirID d fo (observed p) fuel n offset s).out
        = Outcome.ret ((true, none), s1)) ∧
    (∀ pre post item, (listAllPages env f dirID d fo (observed p) fuel n offset s).trace
        = pre ++ Event.applied item true :: post → post = []) ∧
    (∀ item b, Event.applied item b ∈
        (listAllPages env f dirID d fo (observed p) fuel n offset s).trace →
      ∃ m page raw, env.pages m = .ok page ∧ raw ∈ page.entries ∧
        item = { raw with name := restoreReservedChars raw.name } ∧
        listAllKeeps d fo raw = true) := by
  induction fuel with
  | zero =>
    intro n offset s
    simp [listAllPages]
  | succ k ih =>
    intro n offset s
    rw [listAllPages]
    cases hpg : env.pages n with
    | error err =>
      simp only [bind, Exec.bind, emit, pure, List.append_nil]
      refine ⟨by simp, by simp, ?_, by simp⟩
      intro pre post item h
      obtain ⟨pre1, _, ht⟩ := cons_eq_append_cons (by simp) h
      simp at ht
    | ok result =>
      obtain ⟨⟨hit, s1, hout, hiff⟩, h2, h3, h4⟩ :=
        listAllEntries_observed f d fo p result.entries s
      simp only [bind, Exec.bind, emit, hout, List.singleton_append]
      have hpage : ∀ item b,
          Event.applied item b ∈ (listAllEntries f d fo (observed p) result.entries s).trace →
          ∃ m page raw, env.pages m = .ok page ∧ raw ∈ page.entries ∧
            item = { raw with name := restoreReservedChars raw.name } ∧
            listAllKeeps d fo raw = true := by
        intro item b h
        obtain ⟨raw, hmem, heq, hkeep⟩ := h3 item b h
        exact ⟨n, result, raw, hpg, hmem, heq, hkeep⟩
      cases hit with
      | true =>
        obtain ⟨item0, hitem0⟩ := hiff.mp rfl
        simp only [if_true, pure, List.append_nil]
        refine ⟨?_, ?_, ?_, ?_⟩
        · intro found err s2 h
          simp only [Outcome.ret.injEq, Prod.mk.injEq] at h
          rw [← h.1.1]
          simp only [true_iff]
          exact ⟨item0, List.mem_cons_of_mem _ hitem0⟩
        · intro _
          exact ⟨s1, rfl⟩
        · intro pre post item h
          obtain ⟨pre1, _, ht⟩ := cons_eq_append_cons (by simp) h
          exact h2 pre1 post item ht
        · intro item b h
          simp only [List.mem_cons] at h
          rcases h with h | h
          · simp at h
          · exact hpage item b h
      | false =>
        have hno : ∀ item, Event.applied item true ∉
            (listAllEntries f d fo (observed p) result.entries s).trace := by
          intro item hm
          have := hiff.mpr ⟨item, hm⟩
          simp at this
        simp only [Bool.false_eq_true, if_false]
        by_cases hstop : wrapInt (offset + result.limit) ≥ result.totalCount
        · simp only [hstop, if_true, pure, List.append_nil]
          refine ⟨?_, ?_, ?_, ?_⟩
          · intro found err s2 h
            simp only [Outcome.ret.injEq, Prod.mk.injEq] at h
            rw [← h.1.1]
            simp only [Bool.false_eq_true, false_iff, not_exists, List.mem_cons, not_or]
            intro item
            exact ⟨by simp, hno item⟩
          · rintro ⟨item, hm⟩
            simp only [List.mem_cons] at hm
            rcases hm with hm | hm
            · simp at hm
            · exact absurd hm (hno item)
          · intro pre post item h
            obtain ⟨pre1, _, ht⟩ := cons_eq_append_cons (by simp) h
            exact h2 pre1 post item ht
          · intro item b h
            simp only [List.mem_cons] at h
            rcases h with h | h
            · simp at h
            · exact hpage item b h
        · simp only [hstop, if_false]
          obtain ⟨i1, i1b, i2, i3⟩ := ih (n + 1) (wrapInt (offset + result.limit)) s1
          have hmem : ∀ item,
              Event.applied item true ∈ Event.call true (listAllRequest dirID offset) ::
                ((listAllEntries f d fo (observed p) result.entries s).trace ++
                  (listAllPages env f dirID d fo (observed p) k (n + 1)
                    (wrapInt (offset + result.limit)) s1).trace) ↔
              Event.applied item true ∈ (listAllPages env f dirID d fo (observed p) k (n + 1)
                    (wrapInt (offset + result.limit)) s1).trace := by
            intro item
            simp only [List.mem_cons, List.mem_append]
            constructor
            · rintro (h | h | h)
              · simp at h
              · exact absurd h (hno item)
              · exact h
            · intro h
              exact Or.inr (Or.inr h)
          refine ⟨?_, ?_, ?_, ?_⟩
          · intro found err s2 h
            rw [i1 found err s2 h]
            exact exists_congr (fun item => (hmem item).symm)
          · rintro ⟨item, hm⟩
            exact i1b ⟨item, (hmem item).mp hm⟩
          · intro pre post item h
            obtain ⟨pre1, _, ht⟩ := cons_eq_append_cons (by simp) h
            obtain ⟨pre2, _, ht2⟩ := append_eq_append_cons _ (hno item) ht
            exact i2 pre2 post item ht2
          · intro item b h
            simp only [List.mem_cons, List.mem_append] at h
            rcases h with h | h | h
            · simp at h
            · exact hpage item b h
            · exact i3 item b h

theorem listAllKeeps_iff (d fo : Bool) (raw : Item) :
    listAllKeeps d fo raw = true ↔
      ((raw.type = ItemTypeFolder ∧ fo = false) ∨ (raw.type = ItemTypeFile ∧ d = false)) ∧
        raw.itemStatus = ItemStatusActive := by
  cases d <;> cases fo <;> simp [listAllKeeps]

/-- C11: listAll run with a user function fn whose applications are
recorded. (1) When listAll returns, found is true exactly when some
application of fn returned true. (2) Once fn has returned true listAll
returns found = true with a nil error (it does not go on looping). (3) Nothing
at all follows the application that returned true: no further application
and no further page request. (4) Every application is to an entry of a
fetched page that is a folder with filesOnly unset or a file with
directoriesOnly unset, and active, with its name passed through
restoreReservedChars. -/
theorem listAll_early_termination {σ : Type} (fuel : Nat) (env : ListEnv) (f : Fs)
    (dirID : GoString) (directoriesOnly filesOnly : Bool) (fn : Item → σ → Bool × σ)
    (s : σ) :
    (∀ found err s1,
      (f.listAll fuel env dirID directoriesOnly filesOnly (observed fn) s).out
        = Outcome.ret ((found, err), s1) →
      (found = true ↔ ∃ item, Event.applied item true ∈
        (f.listAll fuel env dirID directoriesOnly filesOnly (observed fn) s).trace)) ∧
    ((∃ item, Event.applied item true ∈
        (f.listAll fuel env dirID directoriesOnly filesOnly (observed fn) s).trace) →
      ∃ s1, (f.listAll fuel env dirID directoriesOnly filesOnly (observed fn) s).out
        = Outcome.ret ((true, none), s1)) ∧
    (∀ pre post item,
      (f.listAll fuel env dirID directoriesOnly filesOnly (observed fn) s).trace
        = pre ++ Event.applied item true :: post → post = []) ∧
    (∀ item b, Event.applied item b ∈
        (f.listAll fuel env dirID directoriesOnly filesOnly (observed fn) s).trace →
      ∃ m page raw, env.pages m = .ok page ∧ raw ∈ page.entries ∧
        item = { raw with name := restoreReservedChars raw.name } ∧
        ((raw.type = ItemTypeFolder ∧ filesOnly = false) ∨
          (raw.type = ItemTypeFile ∧ directoriesOnly = false)) ∧
        raw.itemStatus = ItemStatusActive) := by
  obtain ⟨h1, h1b, h2, h3⟩ :=
    listAllPages_observed env f dirID directoriesOnly filesOnly fn fuel 0 0 s
  refine ⟨h1, h1b, h2, ?_⟩
  intro item b h
  obtain ⟨m, page, raw, hp, hmem, heq, hk⟩ := h3 item b h
  exact ⟨m, page, raw, hp, hmem, heq, (listAllKeeps_iff _ _ raw).mp hk⟩

/-- Witness for C11: a listing of two pages; the first holds a folder, a
trashed file and the active file a.txt, on which fn returns true: fn is
applied to a.txt only, the second page is never requested and found is
true. -/
theorem listAll_early_termination_witness :
    (exampleFs.listAll 5 twoPagesEnv (ascii "0") false true (observed nameIsA) ()).trace =
      [Event.call true (listAllRequest (ascii "0") 0),
       Event.applied (fileItem (ascii "a.txt") ItemStatusActive) true] ∧
    (∃ s1, (exampleFs.listAll 5 twoPagesEnv (ascii "0") false true (observed nameIsA) ()).out
      = Outcome.ret ((true, none), s1)) :=
  ⟨rfl,
   (listAll_early_termination 5 twoPagesEnv exampleFs (ascii "0") false true nameIsA ()).2.1
     ⟨fileItem (ascii "a.txt") ItemStatusActive, by decide⟩⟩

/-! ### shouldRetry -/

theorem shouldRetry_out (errRetry : Option Error → Bool) (resp : Option Response)
    (err : Option Error) :
    (shouldRetry errRetry resp err).out =
      Outcome.ret (authRetry resp || errRetry err || shouldRetryHTTP resp retryErrorCodes,
        err) := by
  unfold shouldRetry
  cases h : authRetry resp <;> simp [bind, Exec.bind, emit, pure]

theorem authRetry_iff (resp : Response) :
    authRetry (some resp) = true ↔
      resp.statusCode = 401 ∧ ∃ v, resp.wwwAuthenticate = [v] ∧
        stringsContains v (ascii "expired_token") = true := by
  unfold authRetry
  rcases resp with ⟨code, st, hs⟩
  cases hs with
  | nil => simp
  | cons v vs =>
    cases vs with
    | nil => simp
    | cons w ws => simp

theorem shouldRetryHTTP_iff (resp : Response) :
    shouldRetryHTTP (some resp) retryErrorCodes = true ↔
      resp.statusCode = 429 ∨ resp.statusCode = 500 ∨ resp.statusCode = 502 ∨
      resp.statusCode = 503 ∨ resp.statusCode = 504 ∨ resp.statusCode = 509 := by
  simp [shouldRetryHTTP, retryErrorCodes]

/-- The error handler always makes an api error, with the code and status of
the body, or of the response where the body leaves them out. -/
theorem errorHandler_out (resp : Response) (decodeFailed : Bool) (code : GoString)
    (status : Int) :
    (errorHandler resp decodeFailed code status).out =
      Outcome.ret (Error.api (if code = [] then resp.status else code)
        (if status = 0 then resp.statusCode else status)) := by
  unfold errorHandler
  cases decodeFailed <;> simp [bind, Exec.bind, emit, pure]

/-- C12: for every response received with a nil transport error, that is
with err nil or the api error that errorHandler makes of a non-2xx response,
shouldRetry reports retry exactly when the status is one of 429, 500, 502,
503, 504, 509, or the status is 401 and the response carries a single
Www-Authenticate value containing expired_token; hence every other 4xx
status is not retried; errorHandler makes an api error of every response it
is given; for any err, a transport error included, retry is reported exactly
when fserrors.ShouldRetry accepts err or the response is one of those above;
and for every resp and err the second result is err. -/
theorem shouldRetry_classification (transient : String → Bool) (resp : Response) :
    (∀ err : Option Error, (err = none ∨ ∃ code status, err = some (Error.api code status)) →
      ∃ retry, (shouldRetry (ShouldRetry transient) (some resp) err).out
          = Outcome.ret (retry, err) ∧
        (retry = true ↔
          (resp.statusCode = 429 ∨ resp.statusCode = 500 ∨ resp.statusCode = 502 ∨
            resp.statusCode = 503 ∨ resp.statusCode = 504 ∨ resp.statusCode = 509) ∨
          (resp.statusCode = 401 ∧ ∃ v, resp.wwwAuthenticate = [v] ∧
            stringsContains v (ascii "expired_token") = true)) ∧
        (400 ≤ resp.statusCode → resp.statusCode < 500 → resp.statusCode ≠ 429 →
          ¬ (resp.statusCode = 401 ∧ ∃ v, resp.wwwAuthenticate = [v] ∧
            stringsContains v (ascii "expired_token") = true) →
          retry = false)) ∧
    (∀ (decodeFailed : Bool) (code : GoString) (status : Int),
      ∃ c s, (errorHandler resp decodeFailed code status).out = Outcome.ret (Error.api c s)) ∧
    (∀ err : Option Error,
      ∃ retry, (shouldRetry (ShouldRetry transient) (some resp) err).out
          = Outcome.ret (retry, err) ∧
        (retry = true ↔
          ShouldRetry transient err = true ∨
          (resp.statusCode = 429 ∨ resp.statusCode = 500 ∨ resp.statusCode = 502 ∨
            resp.statusCode = 503 ∨ resp.statusCode = 504 ∨ resp.statusCode = 509) ∨
          (resp.statusCode = 401 ∧ ∃ v, resp.wwwAuthenticate = [v] ∧
            stringsContains v (ascii "expired_token") = true))) ∧
    (∀ (errRetry : Option Error → Bool) (r : Option Response) (err : Option Error),
      ∃ retry, (shouldRetry errRetry r err).out = Outcome.ret (retry, err)) := by
  refine ⟨?_, ?_, ?_, ?_⟩
  · intro err herr
    have hnot : ShouldRetry transient err = false := by
      rcases herr with h | ⟨code, status, h⟩
      · subst h; rfl
      · subst h; rfl
    have hiff : (authRetry (some resp) || ShouldRetry transient err ||
          shouldRetryHTTP (some resp) retryErrorCodes) = true ↔
        (resp.statusCode = 429 ∨ resp.statusCode = 500 ∨ resp.statusCode = 502 ∨
            resp.statusCode = 503 ∨ resp.statusCode = 504 ∨ resp.statusCode = 509) ∨
          (resp.statusCode = 401 ∧ ∃ v, resp.wwwAuthenticate = [v] ∧
            stringsContains v (ascii "expired_token") = true) := by
      rw [hnot, Bool.or_false, Bool.or_eq_true, authRetry_iff, shouldRetryHTTP_iff]
      exact Or.comm
    refine ⟨_, shouldRetry_out (ShouldRetry transient) (some resp) err, hiff, ?_⟩
    intro h400 h500 h429 hauth
    apply Bool.eq_false_iff.mpr
    intro ht
    rcases hiff.mp ht with hcode | ha
    · rcases hcode with h | h | h | h | h | h
      · exact h429 h
      all_goals omega
    · exact hauth ha
  · intro decodeFailed code status
    exact ⟨_, _, errorHandler_out resp decodeFailed code status⟩
  · intro err
    refine ⟨_, shouldRetry_out (ShouldRetry transient) (some resp) err, ?_⟩
    rw [Bool.or_eq_true, Bool.or_eq_true, authRetry_iff, shouldRetryHTTP_iff]
    constructor
    · rintro ((h | h) | h)
      · exact Or.inr (Or.inr h)
      · exact Or.inl h
      · exact Or.inr (Or.inl h)
    · rintro (h | h | h)
      · exact Or.inl (Or.inr h)
      · exact Or.inr h
      · exact Or.inl (Or.inl h)
  · intro errRetry r err
    exact ⟨_, shouldRetry_out errRetry r err⟩

/-- Witness for C12: a 404 and a 429 with the api error that errorHandler
makes of them, an expired token, a plain 401, and a 200 without error; every
transport error counts as transient. -/
theorem shouldRetry_classification_witness :
    (errorHandler { statusCode := 404, status := ascii "404 Not Found", wwwAuthenticate := [] }
      false (ascii "not_found") 404).out = Outcome.ret (Error.api (ascii "not_found") 404) ∧
    (shouldRetry (ShouldRetry (fun _ => true))
      (some { statusCode := 404, status := ascii "404 Not Found", wwwAuthenticate := [] })
      (some (Error.api (ascii "not_found") 404))).out
      = Outcome.ret (false, some (Error.api (ascii "not_found") 404)) ∧
    (shouldRetry (ShouldRetry (fun _ => true))
      (some { statusCode := 429, status := ascii "429 Too Many Requests",
              wwwAuthenticate := [] })
      (some (Error.api (ascii "429 Too Many Requests") 429))).out
      = Outcome.ret (true, some (Error.api (ascii "429 Too Many Requests") 429)) ∧
    (shouldRetry (ShouldRetry (fun _ => true))
      (some { statusCode := 401, status := ascii "401 Unauthorized",
              wwwAuthenticate := [ascii "Bearer error=expired_token"] })
      (some (Error.api (ascii "unauthorized") 401))).out
      = Outcome.ret (true, some (Error.api (ascii "unauthorized") 401)) ∧
    (shouldRetry (ShouldRetry (fun _ => true))
      (some { statusCode := 401, status := ascii "401 Unauthorized", wwwAuthenticate := [] })
      (some (Error.api (ascii "unauthorized") 401))).out
      = Outcome.ret (false, some (Error.api (ascii "unauthorized") 401)) ∧
    (shouldRetry (ShouldRetry (fun _ => true))
      (some { statusCode := 200, status := ascii "200 OK", wwwAuthenticate := [] }) none).out
      = Outcome.ret (false, none) ∧
    (∃ retry, (shouldRetry (ShouldRetry (fun _ => true))
      (some { statusCode := 503, status := ascii "503 Service Unavailable",
              wwwAuthenticate := [] })
      (some (Error.api (ascii "unavailable") 503))).out
        = Outcome.ret (retry, some (Error.api (ascii "unavailable") 503)) ∧ retry = true) :=
  ⟨by decide, by decide, by decide, by decide, by decide, by decide,
   ((shouldRetry_classification (fun _ => true)
      { statusCode := 503, status := ascii "503 Service Unavailable",
        wwwAuthenticate := [] }).1
      (some (Error.api (ascii "unavailable") 503)) (Or.inr ⟨_, _, rfl⟩)).imp
     (fun _ h => ⟨h.1, h.2.1.mpr (Or.inl (Or.inr (Or.inr (Or.inr (Or.inl rfl)))))⟩)⟩

/-! ### setMetaData and SetModTime -/

/-- C13: setMetaData either (info is of type file) returns nil with
hasMetaData true and size, sha1, modTime and id taken from info, or (any
other type) returns an error wrapping fs.ErrorNotAFile and leaves the object
as it was; and SetModTime either returns nil with the five fields taken from
the server's response, or returns an error with the object as it was. -/
theorem setMetaData_all_or_nothing (o : Object) (info : Item) (res : Except Error Item)
    (modTime : Int) :
    (info.type = ItemTypeFile →
      o.setMetaData info =
        ({ o with hasMetaData := true, size := info.size, sha1 := info.sha1,
                  modTime := info.modTime, id := info.id }, none)) ∧
    (info.type ≠ ItemTypeFile →
      ∃ msg, o.setMetaData info = (o, some (Error.wrap Error.ErrorNotAFile msg))) ∧
    ((∃ si, res = .ok si ∧ si.type = ItemTypeFile ∧
        (o.SetModTime res modTime).out =
          Outcome.ret ({ o with hasMetaData := true, size := si.size, sha1 := si.sha1,
                                modTime := si.modTime, id := si.id }, none)) ∨
      (∃ err, (o.SetModTime res modTime).out = Outcome.ret (o, some err))) := by
  refine ⟨?_, ?_, ?_⟩
  · intro h
    simp [Object.setMetaData, h]
  · intro h
    exact ⟨"%q is %q", by simp [Object.setMetaData, h]⟩
  · cases res with
    | error err =>
      exact Or.inr ⟨err, rfl⟩
    | ok si =>
      by_cases h : si.type = ItemTypeFile
      · refine Or.inl ⟨si, rfl, h, ?_⟩
        simp [Object.SetModTime, Object.setModTime, Object.setMetaData, h, bind, Exec.bind,
          emit, pure]
      · refine Or.inr ⟨Error.wrap Error.ErrorNotAFile "%q is %q", ?_⟩
        simp [Object.SetModTime, Object.setModTime, Object.setMetaData, h, bind, Exec.bind,
          emit, pure]

/-! ### NewObject -/

/-- C14 (the code at the failing input): when the listing request of the
parent directory fails with the api error not_found (the cached directory
was deleted on the server), NewObject returns that error wrapped by listAll,
not fs.ErrorObjectNotFound; the same api error handed over unwrapped by the
directory resolution is turned into fs.ErrorObjectNotFound by readMetaData. -/
theorem newObject_listing_not_found_wrapped :
    exampleFs.NewObject 1 staleDirEnv (ascii "a.txt") =
      { trace := [Event.findRootAndPath exampleFs (ascii "a.txt") false,
                  Event.call true (listAllRequest (ascii "0") 0)],
        out := Outcome.ret (none,
          some (Error.wrap (Error.api (ascii "not_found") 404) "couldn't list files")) } ∧
    Error.wrap (Error.api (ascii "not_found") 404) "couldn't list files"
      ≠ Error.ErrorObjectNotFound ∧
    (exampleFs.NewObject 1
        { staleDirEnv with findRootAndPath := .error (Error.api (ascii "not_found") 404) }
        (ascii "a.txt")).out
      = Outcome.ret (none, some Error.ErrorObjectNotFound) := by
  refine ⟨rfl, by decide, rfl⟩

/-! ### purgeCheck, Rmdir and Purge -/

theorem purgeCheck_run (lib : Lib) (env : PurgeEnv) (f : Fs) (dir : GoString)
    (check : Bool) (rootID : GoString)
    (hroot : lib.pathJoin f.root dir ≠ []) (hfr : env.findRoot = none)
    (hfd : env.findDir = .ok rootID) :
    f.purgeCheck lib env dir check =
      { trace := [Event.findRoot f false, Event.findDir f dir false,
                  Event.call true (purgeRequest rootID check)]
          ++ (if env.delete = none then [Event.flushDir f dir] else []),
        out := Outcome.ret (env.delete.map (fun err => Error.wrap err "rmdir failed")) } := by
  rcases env with ⟨fr, fd, del⟩
  simp only at hfr hfd
  subst hfr hfd
  cases del <;> simp [Fs.purgeCheck, hroot, bind, Exec.bind, emit, pure]

/-- The flush of purgeCheck: it happens exactly when purgeCheck returns nil,
it is of dir in the cache of f, after a delete request that succeeded. -/
theorem purgeCheck_flush (lib : Lib) (env : PurgeEnv) (f : Fs) (dir : GoString)
    (check : Bool) :
    ((f.purgeCheck lib env dir check).out = Outcome.ret none ↔
      Event.flushDir f dir ∈ (f.purgeCheck lib env dir check).trace) ∧
    (∀ g d, Event.flushDir g d ∈ (f.purgeCheck lib env dir check).trace →
      g = f ∧ d = dir ∧ env.delete = none ∧
      ∃ rootID pre, (f.purgeCheck lib env dir check).trace =
        pre ++ [Event.call true (purgeRequest rootID check), Event.flushDir f dir]) ∧
    (∀ r req, Event.call r req ∈ (f.purgeCheck lib env dir check).trace →
      r = true ∧ ∃ rootID, req = purgeRequest rootID check) := by
  rcases env with ⟨fr, fd, del⟩
  by_cases hroot : lib.pathJoin f.root dir = []
  · simp [Fs.purgeCheck, hroot, pure]
  · cases fr with
    | some e => simp [Fs.purgeCheck, hroot, bind, Exec.bind, emit, pure]
    | none =>
      cases fd with
      | error e => simp [Fs.purgeCheck, hroot, bind, Exec.bind, emit, pure]
      | ok rootID =>
        cases del with
        | some e =>
          simp [Fs.purgeCheck, hroot, bind, Exec.bind, emit, pure]
          exact ⟨rootID, rfl⟩
        | none =>
          simp only [Fs.purgeCheck, hroot, bind, Exec.bind, emit, pure, if_false,
            List.append_nil, List.singleton_append]
          refine ⟨by simp, ?_, ?_⟩
          · intro g d h
            simp only [List.mem_cons, Event.flushDir.injEq, List.mem_singleton] at h
            rcases h with h | h | h | h
            · simp at h
            · simp at h
            · simp at h
            · rcases h with h | h
              · exact ⟨h.1, h.2, trivial, rootID,
                  [Event.findRoot f false, Event.findDir f dir false], rfl⟩
              · simp at h
          · intro r req h
            simp at h
            exact ⟨h.1, rootID, h.2⟩

/-- C15 (as stated, refuted): on a remote whose root is empty the root
directory resolves, yet Purge() refuses to purge it: it returns an error and
sends no DELETE at all. -/
theorem purge_root_counterexample :
    purgeOkEnv.findRoot = none ∧ purgeOkEnv.findDir = .ok (ascii "0") ∧
    exampleFs.Purge exampleLib purgeOkEnv =
      { trace := [],
        out := Outcome.ret (some (Error.errorf "can't purge root directory")) } := by
  refine ⟨rfl, rfl, rfl⟩

/-- C15 (amended): for every directory that resolves and is not the root of
the remote (path.Join(f.root, dir) is not empty), purgeCheck
looks up the root and the directory and sends the folder DELETE with
recursive equal to the negation of check, so Rmdir(dir) sends
recursive=false and Purge() sends recursive=true; and the directory-cache
subtree for dir is flushed exactly when the delete succeeded. -/
theorem purgeCheck_recursive_flag (lib : Lib) (env : PurgeEnv) (f : Fs)
    (dir : GoString) (check : Bool) (rootID : GoString)
    (hroot : lib.pathJoin f.root dir ≠ []) (hfr : env.findRoot = none)
    (hfd : env.findDir = .ok rootID) :
    (f.purgeCheck lib env dir check).trace =
      [Event.findRoot f false, Event.findDir f dir false,
       Event.call true (purgeRequest rootID check)]
        ++ (if env.delete = none then [Event.flushDir f dir] else []) ∧
    (purgeRequest rootID check).method = "DELETE" ∧
    (purgeRequest rootID check).parameters = [Param.recursive (!check)] ∧
    ((f.Rmdir lib env dir).trace =
      [Event.findRoot f false, Event.findDir f dir false,
       Event.call true (purgeRequest rootID true)]
        ++ (if env.delete = none then [Event.flushDir f dir] else []) ∧
      (purgeRequest rootID true).parameters = [Param.recursive false]) ∧
    ((dir = [] → (f.Purge lib env).trace =
      [Event.findRoot f false, Event.findDir f [] false,
       Event.call true (purgeRequest rootID false)]
        ++ (if env.delete = none then [Event.flushDir f []] else [])) ∧
      (purgeRequest rootID false).parameters = [Param.recursive true]) ∧
    (Event.flushDir f dir ∈ (f.purgeCheck lib env dir check).trace ↔ env.delete = none) := by
  have key := fun c => purgeCheck_run lib env f dir c rootID hroot hfr hfd
  refine ⟨by rw [key], rfl, rfl, ⟨by rw [Fs.Rmdir, key], rfl⟩, ⟨?_, rfl⟩, ?_⟩
  · intro hd
    subst hd
    rw [Fs.Purge, key]
  · rw [key]
    cases h : env.delete <;> simp

/-- Witness for C15 (amended): Rmdir of the directory a and Purge of the
remote rooted at dst. -/
theorem purgeCheck_recursive_flag_witness :
    (exampleLib.pathJoin dstFs.root [] ≠ [] ∧ purgeOkEnv.findRoot = none ∧
      purgeOkEnv.findDir = .ok (ascii "0")) ∧
    (dstFs.Purge exampleLib purgeOkEnv).trace =
      [Event.findRoot dstFs false, Event.findDir dstFs [] false,
       Event.call true
         { method := "DELETE", path := ascii "/folders/0",
           parameters := [Param.recursive true], body := Body.none, rootURL := none },
       Event.flushDir dstFs []] ∧
    (dstFs.Rmdir exampleLib purgeOkEnv (ascii "a")).trace =
      [Event.findRoot dstFs false, Event.findDir dstFs (ascii "a") false,
       Event.call true
         { method := "DELETE", path := ascii "/folders/0",
           parameters := [Param.recursive false], body := Body.none, rootURL := none },
       Event.flushDir dstFs (ascii "a")] :=
  ⟨⟨by decide, rfl, rfl⟩,
   (purgeCheck_recursive_flag exampleLib purgeOkEnv dstFs [] false (ascii "0")
      (by decide) rfl rfl).2.2.2.2.1.1 rfl,
   (purgeCheck_recursive_flag exampleLib purgeOkEnv dstFs (ascii "a") true (ascii "0")
      (by decide) rfl rfl).2.2.2.1.1⟩

/-! ### FlushDir and its callers -/

/-- The flush of DirMove: it happens exactly when DirMove returns nil, it is
of srcRemote in the cache of the source, right after a move request that
succeeded. -/
theorem dirMove_flush (lib : Lib) (env : DirMoveEnv) (f : Fs) (src : SrcFs)
    (srcRemote dstRemote : GoString) :
    ((f.DirMove lib env src srcRemote dstRemote).out = Outcome.ret none ↔
      ∃ srcFs, src = SrcFs.box srcFs ∧
        Event.flushDir srcFs srcRemote ∈ (f.DirMove lib env src srcRemote dstRemote).trace) ∧
    (∀ g d, Event.flushDir g d ∈ (f.DirMove lib env src srcRemote dstRemote).trace →
      src = SrcFs.box g ∧ d = srcRemote ∧ (∃ info, env.move = .ok info) ∧
      ∃ req pre, (f.DirMove lib env src srcRemote dstRemote).trace =
        pre ++ [Event.call true req, Event.flushDir g srcRemote]) := by
  rcases env with ⟨sfr, dfr, dfound, fp, dfd, sfd, mv⟩
  cases src with
  | foreign d => simp [Fs.DirMove, bind, Exec.bind, emit, pure]
  | box srcFs =>
    by_cases hroot : lib.pathJoin srcFs.root srcRemote = [] ∨ lib.pathJoin f.root dstRemote = []
    · simp [Fs.DirMove, hroot, bind, Exec.bind, emit, pure]
    · cases sfr with
      | some e => simp [Fs.DirMove, hroot, bind, Exec.bind, emit, pure]
      | none =>
        by_cases hd : dstRemote = []
        · subst hd
          cases dfound with
          | true => simp [Fs.DirMove, hroot, bind, Exec.bind, emit, pure]
          | false =>
            rcases fp with e | ⟨leaf, dirID⟩
            · simp [Fs.DirMove, hroot, bind, Exec.bind, emit, pure]
            · rcases sfd with e | srcID
              · simp [Fs.DirMove, Fs.dirMoveCheckAndMove, hroot, bind, Exec.bind, emit, pure]
              · rcases mv with e | info
                · simp [Fs.DirMove, Fs.dirMoveCheckAndMove, Fs.move, hroot, bind, Exec.bind,
                    emit, pure]
                · have hrun : f.DirMove lib ⟨none, dfr, false, .ok (leaf, dirID), dfd,
                      .ok srcID, .ok info⟩ (SrcFs.box srcFs) srcRemote [] =
                      { trace := [Event.findRoot srcFs false, Event.foundRoot f,
                          Event.findPath f f.root true, Event.findDir srcFs srcRemote false]
                          ++ [Event.call true (moveRequest (ascii "/folders/") srcID leaf dirID),
                              Event.flushDir srcFs srcRemote],
                        out := Outcome.ret none } := by
                    simp [Fs.DirMove, Fs.dirMoveCheckAndMove, Fs.move, hroot, bind, Exec.bind,
                      emit, pure]
                  rw [hrun]
                  refine ⟨⟨fun _ => ⟨srcFs, rfl, by simp⟩, fun _ => rfl⟩, ?_⟩
                  intro g d h
                  simp at h
                  obtain ⟨hg, hdd⟩ := h
                  subst hg hdd
                  exact ⟨rfl, rfl, ⟨info, rfl⟩, _, _, rfl⟩
        · cases dfr with
          | some e => simp [Fs.DirMove, hroot, hd, bind, Exec.bind, emit, pure]
          | none =>
            rcases fp with e | ⟨leaf, dirID⟩
            · simp [Fs.DirMove, hroot, hd, bind, Exec.bind, emit, pure]
            · rcases dfd with e | id
              · by_cases he : e = Error.ErrorDirNotFound
                · subst he
                  rcases sfd with e | srcID
                  · simp [Fs.DirMove, Fs.dirMoveCheckAndMove, hroot, hd, bind, Exec.bind,
                      emit, pure]
                  · rcases mv with e | info
                    · simp [Fs.DirMove, Fs.dirMoveCheckAndMove, Fs.move, hroot, hd, bind,
                        Exec.bind, emit, pure]
                    · have hrun : f.DirMove lib ⟨none, none, dfound, .ok (leaf, dirID),
                          .error .ErrorDirNotFound, .ok srcID, .ok info⟩ (SrcFs.box srcFs)
                          srcRemote dstRemote =
                          { trace := [Event.findRoot srcFs false, Event.findRoot f true,
                              Event.findPath f dstRemote true, Event.findDir f dstRemote false,
                              Event.findDir srcFs srcRemote false]
                              ++ [Event.call true
                                    (moveRequest (ascii "/folders/") srcID leaf dirID),
                                  Event.flushDir srcFs srcRemote],
                            out := Outcome.ret none } := by
                        simp [Fs.DirMove, Fs.dirMoveCheckAndMove, Fs.move, hroot, hd, bind,
                          Exec.bind, emit, pure]
                      rw [hrun]
                      refine ⟨⟨fun _ => ⟨srcFs, rfl, by simp⟩, fun _ => rfl⟩, ?_⟩
                      intro g d h
                      simp at h
                      obtain ⟨hg, hdd⟩ := h
                      subst hg hdd
                      exact ⟨rfl, rfl, ⟨info, rfl⟩, _, _, rfl⟩
                · simp [Fs.DirMove, Fs.dirMoveCheckAndMove, hroot, hd, he, bind, Exec.bind,
                    emit, pure]
              · simp [Fs.DirMove, Fs.dirMoveCheckAndMove, hroot, hd, bind, Exec.bind,
                  emit, pure]

theorem flushDir_lookup (cache : DirCacheEntries) (path q : GoString)
    (hq : ¬ path <+: q) : (FlushDir cache path).lookup q = cache.lookup q := by
  induction cache with
  | nil => rfl
  | cons e rest ih =>
    rcases e with ⟨k, v⟩
    unfold FlushDir at ih ⊢
    by_cases hk : path <+: k
    · have hne : (q == k) = false := by
        simp only [beq_eq_false_iff_ne, ne_eq]
        intro h
        exact hq (h ▸ hk)
      have hp : path.isPrefixOf k = true := List.isPrefixOf_iff_prefix.mpr hk
      simp only [List.filter_cons, hp, Bool.not_true, Bool.false_eq_true, if_false,
        List.lookup_cons, hne]
      exact ih
    · have hp : path.isPrefixOf k = false := by
        cases h : path.isPrefixOf k with
        | false => rfl
        | true => exact absurd (List.isPrefixOf_iff_prefix.mp h) hk
      simp only [List.filter_cons, hp, Bool.not_false, if_true, List.lookup_cons]
      rw [ih]

/-- The paced call of purgeCheck: when it is sent and succeeds, the
directory is flushed and purgeCheck returns nil. -/
theorem purgeCheck_call_flush (lib : Lib) (env : PurgeEnv) (f : Fs) (dir : GoString)
    (check : Bool) :
    ∀ r req, Event.call r req ∈ (f.purgeCheck lib env dir check).trace → env.delete = none →
      Event.flushDir f dir ∈ (f.purgeCheck lib env dir check).trace ∧
      (f.purgeCheck lib env dir check).out = Outcome.ret none := by
  rcases env with ⟨fr, fd, del⟩
  by_cases hroot : lib.pathJoin f.root dir = []
  · simp [Fs.purgeCheck, hroot, pure]
  · cases fr with
    | some e => simp [Fs.purgeCheck, hroot, bind, Exec.bind, emit, pure]
    | none =>
      cases fd with
      | error e => simp [Fs.purgeCheck, hroot, bind, Exec.bind, emit, pure]
      | ok rootID =>
        cases del with
        | some e => simp [Fs.purgeCheck, hroot, bind, Exec.bind, emit, pure]
        | none => simp [Fs.purgeCheck, hroot, bind, Exec.bind, emit, pure]

/-- The paced call of DirMove is the move request: when it is sent and
succeeds, the source directory is flushed and DirMove returns nil. -/
theorem dirMove_call_flush (lib : Lib) (env : DirMoveEnv) (f : Fs) (src : SrcFs)
    (srcRemote dstRemote : GoString) :
    ∀ r req, Event.call r req ∈ (f.DirMove lib env src srcRemote dstRemote).trace →
      (r = true ∧ ∃ srcID leaf dirID, req = moveRequest (ascii "/folders/") srcID leaf dirID) ∧
      ((∃ info, env.move = .ok info) →
        ∃ srcFs, src = SrcFs.box srcFs ∧
          Event.flushDir srcFs srcRemote ∈ (f.DirMove lib env src srcRemote dstRemote).trace ∧
          (f.DirMove lib env src srcRemote dstRemote).out = Outcome.ret none) := by
  rcases env with ⟨sfr, dfr, dfound, fp, dfd, sfd, mv⟩
  cases src with
  | foreign d => simp [Fs.DirMove, bind, Exec.bind, emit, pure]
  | box srcFs =>
    by_cases hroot : lib.pathJoin srcFs.root srcRemote = [] ∨ lib.pathJoin f.root dstRemote = []
    · simp [Fs.DirMove, hroot, bind, Exec.bind, emit, pure]
    · cases sfr with
      | some e => simp [Fs.DirMove, hroot, bind, Exec.bind, emit, pure]
      | none =>
        by_cases hd : dstRemote = []
        · subst hd
          cases dfound with
          | true => simp [Fs.DirMove, hroot, bind, Exec.bind, emit, pure]
          | false =>
            rcases fp with e | ⟨leaf, dirID⟩
            · simp [Fs.DirMove, hroot, bind, Exec.bind, emit, pure]
            · rcases sfd with e | srcID
              · simp [Fs.DirMove, Fs.dirMoveCheckAndMove, hroot, bind, Exec.bind, emit, pure]
              · rcases mv with e | info
                · simp [Fs.DirMove, Fs.dirMoveCheckAndMove, Fs.move, hroot, bind, Exec.bind,
                    emit, pure]
                · simp [Fs.DirMove, Fs.dirMoveCheckAndMove, Fs.move, hroot, bind, Exec.bind,
                    emit, pure]
        · cases dfr with
          | some e => simp [Fs.DirMove, hroot, hd, bind, Exec.bind, emit, pure]
          | none =>
            rcases fp with e | ⟨leaf, dirID⟩
            · simp [Fs.DirMove, hroot, hd, bind, Exec.bind, emit, pure]
            · rcases dfd with e | id
              · by_cases he : e = Error.ErrorDirNotFound
                · subst he
                  rcases sfd with e | srcID
                  · simp [Fs.DirMove, Fs.dirMoveCheckAndMove, hroot, hd, bind, Exec.bind,
                      emit, pure]
                  · rcases mv with e | info
                    · simp [Fs.DirMove, Fs.dirMoveCheckAndMove, Fs.move, hroot, hd, bind,
                        Exec.bind, emit, pure]
                    · simp [Fs.DirMove, Fs.dirMoveCheckAndMove, Fs.move, hroot, hd, bind,
                        Exec.bind, emit, pure]
                · simp [Fs.DirMove, Fs.dirMoveCheckAndMove, hroot, hd, he, bind, Exec.bind,
                    emit, pure]
              · simp [Fs.DirMove, Fs.dirMoveCheckAndMove, hroot, hd, bind, Exec.bind,
                  emit, pure]

/-- C20: FlushDir(path) keeps exactly the entries whose path does not have
path as a prefix (so the entry for path itself is removed), and the lookup
of every other path is unchanged. purgeCheck (Rmdir, Purge) flushes the
directory dir of its own cache exactly when it returns nil, right after a
DELETE that succeeded, and whenever the DELETE it sent succeeded; DirMove
flushes the directory srcRemote of the source's cache exactly when it
returns nil, right after a move request that succeeded, and whenever the
move request it sent succeeded; neither flushes when the remote operation
failed. -/
theorem flushDir_frame_and_callers (cache : DirCacheEntries) (path : GoString)
    (lib : Lib) (penv : PurgeEnv) (denv : DirMoveEnv) (f : Fs) (dir : GoString)
    (check : Bool) (src : SrcFs) (srcRemote dstRemote : GoString) :
    ((∀ e, e ∈ FlushDir cache path ↔ e ∈ cache ∧ ¬ path <+: e.1) ∧
      (∀ id, (path, id) ∉ FlushDir cache path) ∧
      (∀ q, ¬ path <+: q → (FlushDir cache path).lookup q = cache.lookup q)) ∧
    (((f.purgeCheck lib penv dir check).out = Outcome.ret none ↔
        Event.flushDir f dir ∈ (f.purgeCheck lib penv dir check).trace) ∧
      (∀ g d, Event.flushDir g d ∈ (f.purgeCheck lib penv dir check).trace →
        g = f ∧ d = dir ∧ penv.delete = none ∧
        ∃ rootID pre, (f.purgeCheck lib penv dir check).trace =
          pre ++ [Event.call true (purgeRequest rootID check), Event.flushDir f dir]) ∧
      (∀ r req, Event.call r req ∈ (f.purgeCheck lib penv dir check).trace →
        (r = true ∧ ∃ rootID, req = purgeRequest rootID check) ∧
        (penv.delete = none →
          Event.flushDir f dir ∈ (f.purgeCheck lib penv dir check).trace ∧
          (f.purgeCheck lib penv dir check).out = Outcome.ret none))) ∧
    (((f.DirMove lib denv src srcRemote dstRemote).out = Outcome.ret none ↔
        ∃ srcFs, src = SrcFs.box srcFs ∧
          Event.flushDir srcFs srcRemote ∈ (f.DirMove lib denv src srcRemote dstRemote).trace) ∧
      (∀ g d, Event.flushDir g d ∈ (f.DirMove lib denv src srcRemote dstRemote).trace →
        src = SrcFs.box g ∧ d = srcRemote ∧ (∃ info, denv.move = .ok info) ∧
        ∃ req pre, (f.DirMove lib denv src srcRemote dstRemote).trace =
          pre ++ [Event.call true req, Event.flushDir g srcRemote]) ∧
      (∀ r req, Event.call r req ∈ (f.DirMove lib denv src srcRemote dstRemote).trace →
        (r = true ∧
          ∃ srcID leaf dirID, req = moveRequest (ascii "/folders/") srcID leaf dirID) ∧
        ((∃ info, denv.move = .ok info) →
          ∃ srcFs, src = SrcFs.box srcFs ∧
            Event.flushDir srcFs srcRemote
              ∈ (f.DirMove lib denv src srcRemote dstRemote).trace ∧
            (f.DirMove lib denv src srcRemote dstRemote).out = Outcome.ret none))) := by
  refine ⟨⟨?_, ?_, flushDir_lookup cache path⟩, ?_, ?_⟩
  · intro e
    simp only [FlushDir, List.mem_filter, Bool.not_eq_true', ← List.isPrefixOf_iff_prefix,
      Bool.not_eq_true]
  · intro id h
    simp only [FlushDir, List.mem_filter, Bool.not_eq_true'] at h
    have hp : path.isPrefixOf path = true := List.isPrefixOf_iff_prefix.mpr (List.prefix_refl _)
    rw [hp] at h
    exact absurd h.2 (by simp)
  · obtain ⟨h1, h2, h3⟩ := purgeCheck_flush lib penv f dir check
    refine ⟨h1, h2, fun r req h => ⟨h3 r req h, ?_⟩⟩
    exact purgeCheck_call_flush lib penv f dir check r req h
  · obtain ⟨h1, h2⟩ := dirMove_flush lib denv f src srcRemote dstRemote
    exact ⟨h1, h2, dirMove_call_flush lib denv f src srcRemote dstRemote⟩

/-- Witness for C20: flushing a in a cache holding a, a/b and c removes a and
a/b and leaves the lookup of c; a DirMove of a to b whose move request
succeeds flushes a in the cache of the source and returns nil; one whose
move request fails, and an Rmdir whose DELETE fails, flush nothing and
return the error. -/
theorem flushDir_frame_and_callers_witness :
    FlushDir [(ascii "a", ascii "1"), (ascii "a/b", ascii "2"), (ascii "c", ascii "3")]
      (ascii "a") = [(ascii "c", ascii "3")] ∧
    (FlushDir [(ascii "a", ascii "1"), (ascii "a/b", ascii "2"), (ascii "c", ascii "3")]
      (ascii "a")).lookup (ascii "c")
      = List.lookup (ascii "c")
          [(ascii "a", ascii "1"), (ascii "a/b", ascii "2"), (ascii "c", ascii "3")] ∧
    (Event.call true (moveRequest (ascii "/folders/") (ascii "3") (ascii "b") (ascii "0"))
        ∈ (dstFs.DirMove exampleLib (freshDstEnvFor (ascii "b")) (SrcFs.box srcFsMissing)
            (ascii "a") (ascii "b")).trace ∧
      (freshDstEnvFor (ascii "b")).move = .ok helloItem) ∧
    (∃ srcFs, SrcFs.box srcFsMissing = SrcFs.box srcFs ∧
      Event.flushDir srcFs (ascii "a")
        ∈ (dstFs.DirMove exampleLib (freshDstEnvFor (ascii "b")) (SrcFs.box srcFsMissing)
            (ascii "a") (ascii "b")).trace ∧
      (dstFs.DirMove exampleLib (freshDstEnvFor (ascii "b")) (SrcFs.box srcFsMissing)
        (ascii "a") (ascii "b")).out = Outcome.ret none) ∧
    dstFs.DirMove exampleLib
        { freshDstEnvFor (ascii "b") with move := .error (Error.other "conflict") }
        (SrcFs.box srcFsMissing) (ascii "a") (ascii "b") =
      { trace := [Event.findRoot srcFsMissing false, Event.findRoot dstFs true,
                  Event.findPath dstFs (ascii "b") true, Event.findDir dstFs (ascii "b") false,
                  Event.findDir srcFsMissing (ascii "a") false,
                  Event.call true
                    (moveRequest (ascii "/folders/") (ascii "3") (ascii "b") (ascii "0"))],
        out := Outcome.ret (some (Error.other "conflict")) } ∧
    dstFs.Rmdir exampleLib { purgeOkEnv with delete := some (Error.other "conflict") }
        (ascii "a") =
      { trace := [Event.findRoot dstFs false, Event.findDir dstFs (ascii "a") false,
                  Event.call true (purgeRequest (ascii "0") true)],
        out := Outcome.ret (some (Error.wrap (Error.other "conflict") "rmdir failed")) } ∧
    (Event.flushDir dstFs (ascii "a")
        ∈ (dstFs.purgeCheck exampleLib purgeOkEnv (ascii "a") true).trace ∧
      (dstFs.purgeCheck exampleLib purgeOkEnv (ascii "a") true).out = Outcome.ret none) :=
  ⟨by decide,
   (flushDir_frame_and_callers
      [(ascii "a", ascii "1"), (ascii "a/b", ascii "2"), (ascii "c", ascii "3")] (ascii "a")
      exampleLib purgeOkEnv (freshDstEnvFor (ascii "b")) dstFs (ascii "a") true
      (SrcFs.box srcFsMissing) (ascii "a") (ascii "b")).1.2.2 (ascii "c") (by decide),
   ⟨by decide, rfl⟩,
   ((flushDir_frame_and_callers
      [(ascii "a", ascii "1"), (ascii "a/b", ascii "2"), (ascii "c", ascii "3")] (ascii "a")
      exampleLib purgeOkEnv (freshDstEnvFor (ascii "b")) dstFs (ascii "a") true
      (SrcFs.box srcFsMissing) (ascii "a") (ascii "b")).2.2.2.2 true
      (moveRequest (ascii "/folders/") (ascii "3") (ascii "b") (ascii "0")) (by decide)).2
      ⟨helloItem, rfl⟩,
   by decide, by decide,
   ((flushDir_frame_and_callers
      [(ascii "a", ascii "1"), (ascii "a/b", ascii "2"), (ascii "c", ascii "3")] (ascii "a")
      exampleLib purgeOkEnv (freshDstEnvFor (ascii "b")) dstFs (ascii "a") true
      (SrcFs.box srcFsMissing) (ascii "a") (ascii "b")).2.1.2.2 true
      (purgeRequest (ascii "0") true) (by decide)).2 rfl⟩

end Box

namespace Accounting

/-! ### Max-transfer cutoff -/

theorem read_cutoff (C : Int) (stats : Stats) (acc : Account) (n : Nat)
    (hC : 0 ≤ C) (hb : C ≤ stats.bytes) :
    acc.Read C stats n =
      { stats := stats, acc := acc, data := [],
        err := some ReadError.ErrorMaxTransferLimitReached } := by
  simp [Account.Read, hC, hb]

theorem read_below (C : Int) (stats : Stats) (acc : Account) (n : Nat)
    (hb : stats.bytes < C) (hs : acc.stream ≠ []) :
    acc.Read C stats n =
      { stats := { stats with bytes := stats.bytes + ((acc.stream.take n).length : Int) },
        acc := { acc with stream := acc.stream.drop n,
                          bytes := acc.bytes + ((acc.stream.take n).length : Int) },
        data := acc.stream.take n, err := none } := by
  have h1 : ¬ (0 ≤ C ∧ C ≤ stats.bytes) := fun h => absurd h.2 (not_le.mpr hb)
  have h2 : ¬ (acc.stream = [] ∧ n ≠ 0) := fun h => hs h.1
  simp only [Account.Read, h1, h2, if_false]

theorem readLoop_succ_cutoff (C : Int) (n k : Nat) (stats : Stats) (acc : Account)
    (hC : 0 ≤ C) (hb : C ≤ stats.bytes) :
    readLoop C n (k + 1) stats acc =
      (stats, acc, [([], some ReadError.ErrorMaxTransferLimitReached)]) := by
  simp only [readLoop, read_cutoff C stats acc n hC hb]

theorem readLoop_succ_below (C : Int) (n k : Nat) (stats : Stats) (acc : Account)
    (hb : stats.bytes < C) (hs : acc.stream ≠ []) :
    readLoop C n (k + 1) stats acc =
      ((readLoop C n k
          { stats with bytes := stats.bytes + ((acc.stream.take n).length : Int) }
          { acc with stream := acc.stream.drop n,
                     bytes := acc.bytes + ((acc.stream.take n).length : Int) }).1,
       (readLoop C n k
          { stats with bytes := stats.bytes + ((acc.stream.take n).length : Int) }
          { acc with stream := acc.stream.drop n,
                     bytes := acc.bytes + ((acc.stream.take n).length : Int) }).2.1,
       (acc.stream.take n, none) :: (readLoop C n k
          { stats with bytes := stats.bytes + ((acc.stream.take n).length : Int) }
          { acc with stream := acc.stream.drop n,
                     bytes := acc.bytes + ((acc.stream.take n).length : Int) }).2.2) := by
  simp only [readLoop, read_below C stats acc n hb hs]

/-- A transfer under a ceiling that the stream outlasts: the reads succeed
until the count has reached the ceiling, then one read returns the cutoff
error with no bytes and the transfer stops. -/
theorem readLoop_cutoff (C : Int) (n : Nat) (hC : 0 ≤ C) (hn : 0 < n) (fuel : Nat) :
    ∀ (stats : Stats) (acc : Account), 0 < fuel → C - stats.bytes < fuel →
      C - stats.bytes < acc.stream.length →
      ∃ oks, (readLoop C n fuel stats acc).2.2
          = oks ++ [([], some ReadError.ErrorMaxTransferLimitReached)] ∧
        (∀ r ∈ oks, r.2 = none ∧ r.1 ≠ []) ∧
        (oks.map (fun r => r.1)).flatten ++ (readLoop C n fuel stats acc).2.1.stream
          = acc.stream ∧
        (readLoop C n fuel stats acc).1.bytes
          = stats.bytes + (((oks.map (fun r => r.1)).flatten).length : Int) ∧
        C ≤ (readLoop C n fuel stats acc).1.bytes ∧
        (stats.bytes < C → (readLoop C n fuel stats acc).1.bytes < C + n) ∧
        (C ≤ stats.bytes → (readLoop C n fuel stats acc).1.bytes = stats.bytes) := by
  induction fuel with
  | zero => intro stats acc h; omega
  | succ k ih =>
    intro stats acc _ hfuel hlen
    by_cases hb : C ≤ stats.bytes
    · rw [readLoop_succ_cutoff C n k stats acc hC hb]
      refine ⟨[], rfl, by simp, by simp, by simp, hb, ?_, fun _ => rfl⟩
      intro h
      exact absurd hb (not_le.mpr h)
    · have hlt : stats.bytes < C := not_le.mp hb
      have hs : acc.stream ≠ [] := by
        intro h
        rw [h] at hlen
        simp only [List.length_nil, Nat.cast_zero] at hlen
        omega
      have hlp : 0 < acc.stream.length := List.length_pos.mpr hs
      have hpos : 0 < (acc.stream.take n).length := by
        rw [List.length_take]
        omega
      have hle : (acc.stream.take n).length ≤ n := by
        rw [List.length_take]
        omega
      have hdrop : (acc.stream.drop n).length
          = acc.stream.length - (acc.stream.take n).length := by
        rw [List.length_drop, List.length_take]
        omega
      have htl : (acc.stream.take n).length ≤ acc.stream.length := by
        rw [List.length_take]
        omega
      have hk : 0 < k := by
        by_contra h0
        have : k = 0 := by omega
        subst this
        simp only [zero_add, Nat.cast_one] at hfuel
        omega
      obtain ⟨oks, h1, h2, h3, h4, h5, h6, h7⟩ := ih
        { stats with bytes := stats.bytes + ((acc.stream.take n).length : Int) }
        { acc with stream := acc.stream.drop n,
                   bytes := acc.bytes + ((acc.stream.take n).length : Int) }
        hk (by simp only; push_cast at hfuel; omega) (by simp only; rw [hdrop]; omega)
      rw [readLoop_succ_below C n k stats acc hlt hs]
      simp only at h3 h4 h6 h7
      refine ⟨(acc.stream.take n, none) :: oks, ?_, ?_, ?_, ?_, h5, ?_, ?_⟩
      · simp only [h1, List.cons_append]
      · intro r hr
        simp only [List.mem_cons] at hr
        rcases hr with hr | hr
        · rw [hr]
          refine ⟨rfl, fun h => ?_⟩
          have h0 : (acc.stream.take n).length = 0 := by
            rw [show acc.stream.take n = [] from h]
            rfl
          omega
        · exact h2 r hr
      · simp only [List.map_cons, List.flatten_cons, List.append_assoc]
        rw [h3]
        exact List.take_append_drop n acc.stream
      · simp only [List.map_cons, List.flatten_cons, List.length_append]
        rw [h4]
        push_cast
        omega
      · intro _
        by_cases hb2 : stats.bytes + ((acc.stream.take n).length : Int) < C
        · exact h6 hb2
        · rw [h7 (not_lt.mp hb2)]
          omega
      · intro h
        exact absurd h hb

/-- C16: with a ceiling of C bytes, counters reset and a stream longer than
C, a transfer that reads into a buffer of n bytes until its first error gets
successful reads, whose bytes are the next bytes of the stream, until the
count has reached C (at least C bytes, fewer than C + n), and then the
cutoff error ErrorMaxTransferLimitReached exactly once, with no bytes (n ==
0); the error is classified as fatal; and no further bytes are delivered: any
later Read returns the cutoff error again with no bytes and changes
nothing. -/
theorem max_transfer_cutoff (C : Int) (n fuel : Nat) (stats : Stats) (acc : Account)
    (hC : 0 ≤ C) (hn : 0 < n) (hreset : stats.bytes = 0)
    (hlen : C < acc.stream.length) (hfuel : C < fuel) :
    (∃ oks, (readLoop C n fuel stats acc).2.2
        = oks ++ [([], some ReadError.ErrorMaxTransferLimitReached)] ∧
      (∀ r ∈ oks, r.2 = none) ∧
      ((readLoop C n fuel stats acc).2.2.filter (fun r => r.2.isSome)).length = 1 ∧
      (oks.map (fun r => r.1)).flatten ++ (readLoop C n fuel stats acc).2.1.stream
        = acc.stream ∧
      C ≤ (((oks.map (fun r => r.1)).flatten).length : Int) ∧
      (0 < C → (((oks.map (fun r => r.1)).flatten).length : Int) < C + n)) ∧
    IsFatalError ReadError.ErrorMaxTransferLimitReached = true ∧
    (∀ m, (readLoop C n fuel stats acc).2.1.Read C (readLoop C n fuel stats acc).1 m =
      { stats := (readLoop C n fuel stats acc).1, acc := (readLoop C n fuel stats acc).2.1,
        data := [], err := some ReadError.ErrorMaxTransferLimitReached }) := by
  have hfuel0 : 0 < fuel := by omega
  obtain ⟨oks, h1, h2, h3, h4, h5, h6, _⟩ :=
    readLoop_cutoff C n hC hn fuel stats acc hfuel0 (by rw [hreset]; omega)
      (by rw [hreset]; omega)
  rw [hreset] at h4 h6
  refine ⟨⟨oks, h1, fun r hr => (h2 r hr).1, ?_, h3, by omega, fun h => by
    have := h6 h
    omega⟩, rfl, fun m => read_cutoff C _ _ m hC h5⟩
  rw [h1, List.filter_append]
  have hnone : oks.filter (fun r => r.2.isSome) = [] := by
    rw [List.filter_eq_nil_iff]
    intro r hr
    rw [(h2 r hr).1]
    simp
  rw [hnone]
  rfl

/-- Witness for C16: C = 15 and a stream of 100 bytes: reads of 10 bytes
return 10, 10, then (0, ErrorMaxTransferLimitReached). -/
theorem max_transfer_cutoff_witness :
    (readLoop 15 10 16 ⟨0, []⟩ (Account.mk 1 "test" 1 (List.replicate 100 0) 0 false)).2.2
      = [(List.replicate 10 0, none), (List.replicate 10 0, none),
         ([], some ReadError.ErrorMaxTransferLimitReached)] ∧
    ((readLoop 15 10 16 ⟨0, []⟩
        (Account.mk 1 "test" 1 (List.replicate 100 0) 0 false)).2.2.filter
      (fun r => r.2.isSome)).length = 1 :=
  ⟨by decide,
   (max_transfer_cutoff 15 10 16 ⟨0, []⟩ (Account.mk 1 "test" 1 (List.replicate 100 0) 0 false)
      (by decide) (by decide) rfl (by decide) (by decide)).1.elim
     (fun _ h => h.2.2.1)⟩

/-! ### Conservation -/

theorem read_conserves (C : Int) (stats : Stats) (acc : Account) (n : Nat) :
    (acc.Read C stats n).data ++ (acc.Read C stats n).acc.stream = acc.stream ∧
    (acc.Read C stats n).acc.bytes = acc.bytes + ((acc.Read C stats n).data.length : Int) ∧
    (acc.Read C stats n).stats.bytes
      = stats.bytes + ((acc.Read C stats n).data.length : Int) ∧
    (acc.Read C stats n).data.length ≤ n ∧
    ((acc.Read C stats n).err ≠ none → (acc.Read C stats n).data = []) ∧
    (acc.Read C stats n).acc.size = acc.size := by
  unfold Account.Read
  split
  · simp
  · split
    · simp
    · simp only [List.take_append_drop, ne_eq, not_true_eq_false, false_implies, true_and,
        and_true]
      rw [List.length_take]
      omega

theorem readAt_conserves (C : Int) (accs : List Account) : ∀ (i n : Nat) (stats : Stats),
    (readAt C i n stats accs).1.bytes - ((readAt C i n stats accs).2.map (fun a => a.bytes)).sum
      = stats.bytes - (accs.map (fun a => a.bytes)).sum ∧
    ((readAt C i n stats accs).2.map (fun a => a.bytes + (a.stream.length : Int))).sum
      = (accs.map (fun a => a.bytes + (a.stream.length : Int))).sum := by
  induction accs with
  | nil => intro i n stats; simp [readAt]
  | cons acc rest ih =>
    intro i n stats
    cases i with
    | zero =>
      obtain ⟨h1, h2, h3, _, _, _⟩ := read_conserves C stats acc n
      have hlen : (acc.stream.length : Int)
          = ((acc.Read C stats n).data.length : Int)
            + ((acc.Read C stats n).acc.stream.length : Int) := by
        rw [← h1]
        simp
      simp only [readAt, List.map_cons, List.sum_cons]
      rw [h2, h3, hlen]
      constructor <;> ring
    | succ j =>
      obtain ⟨i1, i2⟩ := ih j n stats
      simp only [readAt, List.map_cons, List.sum_cons]
      constructor
      · linarith
      · rw [i2]

theorem readSchedule_conserves (C : Int) (steps : List (Nat × Nat)) :
    ∀ (stats : Stats) (accs : List Account),
    (readSchedule C steps stats accs).1.bytes
        - ((readSchedule C steps stats accs).2.map (fun a => a.bytes)).sum
      = stats.bytes - (accs.map (fun a => a.bytes)).sum ∧
    ((readSchedule C steps stats accs).2.map
        (fun a => a.bytes + (a.stream.length : Int))).sum
      = (accs.map (fun a => a.bytes + (a.stream.length : Int))).sum := by
  induction steps with
  | nil => intro stats accs; simp [readSchedule]
  | cons step rest ih =>
    intro stats accs
    rcases step with ⟨i, n⟩
    obtain ⟨a1, a2⟩ := readAt_conserves C accs i n stats
    obtain ⟨i1, i2⟩ := ih (readAt C i n stats accs).1 (readAt C i n stats accs).2
    simp only [readSchedule]
    exact ⟨i1.trans a1, i2.trans a2⟩

theorem sum_map_congr_mem {α : Type} (l : List α) (g h : α → Int)
    (hgh : ∀ a ∈ l, g a = h a) : (l.map g).sum = (l.map h).sum := by
  induction l with
  | nil => rfl
  | cons a rest ih =>
    simp only [List.map_cons, List.sum_cons]
    rw [hgh a (by simp), ih (fun b hb => hgh b (List.mem_cons_of_mem _ hb))]

/-- C17: every Read that returns k bytes delivers exactly the next k bytes
of the wrapped stream (at most the size of the buffer) and adds exactly k to
the cumulative count of the Account and to the byte count of Stats; a read
that returns an error (io.EOF, the cutoff) delivers and adds nothing; so
after any schedule of reads over transfers of known sizes, starting from
reset counters, that leaves every stream read to its end, the bytes reported
by Stats equal the sum of the sizes. -/
theorem accounting_conservation (C : Int) (steps : List (Nat × Nat)) (stats : Stats)
    (accs : List Account) (hreset : stats.bytes = 0)
    (hfresh : ∀ a ∈ accs, a.bytes = 0)
    (hsize : ∀ a ∈ accs, a.size = (a.stream.length : Int)) :
    (∀ (st : Stats) (acc : Account) (n : Nat),
      (acc.Read C st n).data ++ (acc.Read C st n).acc.stream = acc.stream ∧
      (acc.Read C st n).acc.bytes = acc.bytes + ((acc.Read C st n).data.length : Int) ∧
      (acc.Read C st n).stats.bytes = st.bytes + ((acc.Read C st n).data.length : Int) ∧
      (acc.Read C st n).data.length ≤ n ∧
      ((acc.Read C st n).err ≠ none → (acc.Read C st n).data = [])) ∧
    ((∀ a ∈ (readSchedule C steps stats accs).2, a.stream = []) →
      (readSchedule C steps stats accs).1.bytes = (accs.map (fun a => a.size)).sum) := by
  refine ⟨fun st acc n => ?_, fun hdone => ?_⟩
  · obtain ⟨h1, h2, h3, h4, h5, _⟩ := read_conserves C st acc n
    exact ⟨h1, h2, h3, h4, h5⟩
  · obtain ⟨c1, c2⟩ := readSchedule_conserves C steps stats accs
    have e0 : (accs.map (fun a => a.bytes)).sum = 0 := by
      rw [sum_map_congr_mem accs (fun a => a.bytes) (fun _ => 0) hfresh]
      simp
    have e1 : (accs.map (fun a => a.bytes + (a.stream.length : Int))).sum
        = (accs.map (fun a => a.size)).sum :=
      sum_map_congr_mem accs _ _ (fun a ha => by rw [hfresh a ha, hsize a ha]; simp)
    have e2 : ((readSchedule C steps stats accs).2.map
          (fun a => a.bytes + (a.stream.length : Int))).sum
        = ((readSchedule C steps stats accs).2.map (fun a => a.bytes)).sum :=
      sum_map_congr_mem _ _ _ (fun a ha => by rw [hdone a ha]; simp)
    rw [e0, hreset] at c1
    rw [e1, e2] at c2
    linarith

/-- Witness for C17: two transfers of 3 and 2 bytes read in turn with a
buffer of 2 bytes until both streams are at their end: Stats reports 5. -/
theorem accounting_conservation_witness :
    (∀ a ∈ (readSchedule (-1) [(0, 2), (1, 2), (0, 2), (1, 2), (0, 2)] ⟨0, []⟩
        [Account.mk 1 "a" 3 [1, 2, 3] 0 false, Account.mk 2 "b" 2 [4, 5] 0 false]).2,
      a.stream = []) ∧
    (readSchedule (-1) [(0, 2), (1, 2), (0, 2), (1, 2), (0, 2)] ⟨0, []⟩
        [Account.mk 1 "a" 3 [1, 2, 3] 0 false, Account.mk 2 "b" 2 [4, 5] 0 false]).1.bytes
      = 5 :=
  ⟨by decide,
   (accounting_conservation (-1) [(0, 2), (1, 2), (0, 2), (1, 2), (0, 2)] ⟨0, []⟩
      [Account.mk 1 "a" 3 [1, 2, 3] 0 false, Account.mk 2 "b" 2 [4, 5] 0 false]
      rfl (by decide) (by decide)).2 (by decide)⟩

/-! ### Registration and close -/

theorem lookup_filter_ne (m : List (String × Nat)) (name : String) :
    (m.filter (fun e => e.1 != name)).lookup name = none := by
  induction m with
  | nil => rfl
  | cons e rest ih =>
    rcases e with ⟨k, v⟩
    by_cases h : k = name
    · simp [List.filter, h, ih]
    · have h2 : (name == k) = false := by
        simp only [beq_eq_false_iff_ne, ne_eq]
        exact fun x => h x.symm
      simp only [List.filter_cons, bne_iff_ne, ne_eq, h, not_false_eq_true, if_true,
        List.lookup_cons, h2]
      exact ih

/-- C18: NewAccountSizeName registers the new Account in the in-progress
set under name (the lookup of name returns it); Close returns no error and
removes the entry, so the lookup returns nil; closing the same Account again
returns no error and leaves the in-progress set, and everything else,
unchanged. -/
theorem account_register_and_close (stats : Stats) (addr : Nat) (stream : List Nat)
    (size : Int) (name : String) :
    inProgressGet (NewAccountSizeName stats addr stream size name).1.inProgress name
      = some (NewAccountSizeName stats addr stream size name).2.addr ∧
    ((NewAccountSizeName stats addr stream size name).2.Close
      (NewAccountSizeName stats addr stream size name).1).2.2 = none ∧
    inProgressGet ((NewAccountSizeName stats addr stream size name).2.Close
      (NewAccountSizeName stats addr stream size name).1).1.inProgress name = none ∧
    ((NewAccountSizeName stats addr stream size name).2.Close
      (NewAccountSizeName stats addr stream size name).1).2.1.Close
        ((NewAccountSizeName stats addr stream size name).2.Close
          (NewAccountSizeName stats addr stream size name).1).1
      = (((NewAccountSizeName stats addr stream size name).2.Close
          (NewAccountSizeName stats addr stream size name).1).1,
         ((NewAccountSizeName stats addr stream size name).2.Close
          (NewAccountSizeName stats addr stream size name).1).2.1, none) := by
  refine ⟨?_, ?_, ?_, ?_⟩
  · simp [NewAccountSizeName, inProgressGet, inProgressSet, List.lookup_cons]
  · simp [NewAccountSizeName, Account.Close]
  · simp only [NewAccountSizeName, Account.Close, Bool.false_eq_true, if_false,
      inProgressGet, inProgressClear]
    exact lookup_filter_ne _ name
  · simp [NewAccountSizeName, Account.Close]

end Accounting

namespace Pacer

theorem update_params (p : State) (retry : Bool) :
    (p.update retry).minSleep = p.minSleep ∧ (p.update retry).maxSleep = p.maxSleep ∧
    (p.update retry).decayConstant = p.decayConstant ∧
    (p.update retry).attackNum = p.attackNum ∧ (p.update retry).attackDen = p.attackDen := by
  cases retry <;> simp [State.update]

theorem update_retry (p : State) (hhi : p.sleepTime ≤ p.maxSleep)
    (hden : 0 < p.attackDen) (hatt : p.attackDen ≤ p.attackNum) :
    p.sleepTime ≤ (p.update true).sleepTime ∧ (p.update true).sleepTime ≤ p.maxSleep := by
  have hgrow : p.sleepTime ≤ p.sleepTime * p.attackNum / p.attackDen := by
    rw [Nat.le_div_iff_mul_le hden]
    exact Nat.mul_le_mul_left _ hatt
  have e : (p.update true).sleepTime
      = min p.maxSleep (p.sleepTime * p.attackNum / p.attackDen) := rfl
  rw [e]
  exact ⟨le_min hhi hgrow, min_le_left _ _⟩

theorem update_success (p : State) (hlo : p.minSleep ≤ p.sleepTime) :
    (p.update false).sleepTime ≤ p.sleepTime ∧ p.minSleep ≤ (p.update false).sleepTime ∧
    (p.update false).sleepTime
      = max p.minSleep (p.sleepTime * (p.decayConstant - 1) / p.decayConstant) := by
  have hdecay : p.sleepTime * (p.decayConstant - 1) / p.decayConstant ≤ p.sleepTime := by
    apply Nat.div_le_of_le_mul
    rw [Nat.mul_comm]
    exact Nat.mul_le_mul_right _ (Nat.sub_le _ _)
  have e : (p.update false).sleepTime
      = max p.minSleep (p.sleepTime * (p.decayConstant - 1) / p.decayConstant) := rfl
  rw [e]
  exact ⟨max_le hlo hdecay, le_max_left _ _, rfl⟩

theorem run_in_range (outcomes : List Bool) : ∀ (p : State),
    p.minSleep ≤ p.sleepTime → p.sleepTime ≤ p.maxSleep → 0 < p.attackDen →
    p.attackDen ≤ p.attackNum →
    (p.run outcomes).minSleep = p.minSleep ∧ (p.run outcomes).maxSleep = p.maxSleep ∧
    (p.run outcomes).decayConstant = p.decayConstant ∧
    (p.run outcomes).attackNum = p.attackNum ∧ (p.run outcomes).attackDen = p.attackDen ∧
    p.minSleep ≤ (p.run outcomes).sleepTime ∧ (p.run outcomes).sleepTime ≤ p.maxSleep := by
  induction outcomes with
  | nil => intro p hlo hhi _ _; exact ⟨rfl, rfl, rfl, rfl, rfl, hlo, hhi⟩
  | cons o rest ih =>
    intro p hlo hhi hden hatt
    obtain ⟨e1, e2, e3, e4, e5⟩ := update_params p o
    have hrange : (p.update o).minSleep ≤ (p.update o).sleepTime ∧
        (p.update o).sleepTime ≤ (p.update o).maxSleep := by
      rw [e1, e2]
      cases o with
      | true =>
        exact ⟨le_trans hlo (update_retry p hhi hden hatt).1, (update_retry p hhi hden hatt).2⟩
      | false =>
        exact ⟨(update_success p hlo).2.1, le_trans (update_success p hlo).1 hhi⟩
    obtain ⟨i1, i2, i3, i4, i5, i6, i7⟩ := ih (p.update o) hrange.1 hrange.2
      (by rw [e5]; exact hden) (by rw [e4, e5]; exact hatt)
    simp only [State.run, List.foldl_cons] at i1 i2 i3 i4 i5 i6 i7 ⊢
    exact ⟨i1.trans e1, i2.trans e2, i3.trans e3, i4.trans e4, i5.trans e5,
      by rw [← e1]; exact i6, by rw [← e2]; exact i7⟩

/-- C19: from a state with minSleep <= sleep <= maxSleep (and a factor of
increase of at least 1), after every sequence of call outcomes the sleep
interval is within [minSleep, maxSleep]; a retry then never decreases it; a
success never increases it and sets it to max(minSleep, sleep *
(decayConstant - 1) / decayConstant); the box backend configures minSleep =
10ms, maxSleep = 2s and decayConstant = 2, for which a success halves the
interval down to 10ms. -/
theorem pacer_backoff (p : State) (outcomes : List Bool)
    (hlo : p.minSleep ≤ p.sleepTime) (hhi : p.sleepTime ≤ p.maxSleep)
    (hden : 0 < p.attackDen) (hatt : p.attackDen ≤ p.attackNum) :
    (p.minSleep ≤ (p.run outcomes).sleepTime ∧ (p.run outcomes).sleepTime ≤ p.maxSleep) ∧
    (p.run outcomes).sleepTime ≤ ((p.run outcomes).update true).sleepTime ∧
    ((p.run outcomes).update false).sleepTime ≤ (p.run outcomes).sleepTime ∧
    ((p.run outcomes).update false).sleepTime
      = max p.minSleep ((p.run outcomes).sleepTime * (p.decayConstant - 1) / p.decayConstant) ∧
    (Box.minSleep = 10000000 ∧ Box.maxSleep = 2000000000 ∧ Box.decayConstant = 2 ∧
      ∀ a b s, ((boxPacer a b s).update false).sleepTime = max 10000000 (s / 2)) := by
  obtain ⟨e1, e2, e3, e4, e5, r1, r2⟩ := run_in_range outcomes p hlo hhi hden hatt
  have hlo1 : (p.run outcomes).minSleep ≤ (p.run outcomes).sleepTime := by rw [e1]; exact r1
  have hhi1 : (p.run outcomes).sleepTime ≤ (p.run outcomes).maxSleep := by rw [e2]; exact r2
  refine ⟨⟨r1, r2⟩, ?_, ?_, ?_, rfl, rfl, rfl, ?_⟩
  · exact (update_retry _ hhi1 (by rw [e5]; exact hden) (by rw [e4, e5]; exact hatt)).1
  · exact (update_success _ hlo1).1
  · rw [(update_success _ hlo1).2.2, e1, e3]
  · intro a b s
    have e : ((boxPacer a b s).update false).sleepTime
        = max Box.minSleep (s * (Box.decayConstant - 1) / Box.decayConstant) := rfl
    rw [e]
    simp [Box.minSleep, Box.decayConstant]

/-- Witness for C19: the box pacer at 10ms with a doubling increase, after
two retries and a success: 10ms, 20ms, 40ms, 20ms. -/
theorem pacer_backoff_witness :
    ((boxPacer 2 1 10000000).run [true, true, false]).sleepTime = 20000000 ∧
    (10000000 ≤ ((boxPacer 2 1 10000000).run [true, true, false]).sleepTime ∧
      ((boxPacer 2 1 10000000).run [true, true, false]).sleepTime ≤ 2000000000) :=
  ⟨by decide,
   (pacer_backoff (boxPacer 2 1 10000000) [true, true, false]
      (by decide) (by decide) (by decide) (by decide)).1⟩

end Pacer

namespace Webdav

open Box (GoString ascii)

theorem takeWhile_dropWhile_append (p : Nat → Bool) (a b : GoString)
    (ha : ∀ c ∈ a, p c = true) (hb : ∀ c ∈ b.head?, p c = false) :
    (a ++ b).takeWhile p = a ∧ (a ++ b).dropWhile p = b := by
  induction a with
  | nil =>
    cases b with
    | nil => simp
    | cons c cs =>
      have : p c = false := hb c (by simp)
      simp [List.takeWhile, List.dropWhile, this]
  | cons x xs ih =>
    have hx : p x = true := ha x (by simp)
    have := ih (fun c hc => ha c (by simp [hc]))
    simp [List.takeWhile, List.dropWhile, hx, this]

theorem space_not_version (c : Nat) (h : isSpace c = true) : isVersionChar c = false := by
  simp only [isSpace, Bool.or_eq_true, decide_eq_true_eq] at h
  rcases h with (((h | h) | h) | h) | h <;> subst h <;> decide

theorem digit_not_space (c : Nat) (h : isDigit c = true) : isSpace c = false := by
  simp only [isDigit, Bool.and_eq_true, decide_eq_true_eq] at h
  simp only [isSpace, Bool.or_eq_false_iff, decide_eq_false_iff_not]
  omega

theorem head_dropWhile (p : Nat → Bool) (l : GoString) :
    ∀ c ∈ (l.dropWhile p).head?, p c = false := by
  induction l with
  | nil => simp
  | cons x xs ih =>
    by_cases hx : p x = true
    · simpa [List.dropWhile, hx] using ih
    · simp [List.dropWhile, hx]

theorem takeWhile_all (p : Nat → Bool) (l : GoString) : ∀ c ∈ l.takeWhile p, p c = true := by
  intro c hc
  exact (List.mem_takeWhile_imp hc)

/-- What FindStringSubmatch and Atoi give on a status of the accepted form. -/
theorem parseStatusFind_of_form (v ws ds rest : GoString)
    (hv : v ≠ []) (hvc : ∀ c ∈ v, isVersionChar c = true)
    (hw : ws ≠ []) (hwc : ∀ c ∈ ws, isSpace c = true)
    (hd : ds ≠ []) (hdc : ∀ c ∈ ds, isDigit c = true)
    (hr : ∀ c ∈ rest.head?, isDigit c = false) :
    parseStatusFind (ascii "HTTP/" ++ v ++ ws ++ ds ++ rest) =
      [ascii "HTTP/" ++ v ++ ws ++ ds, ds] := by
  have h1 := takeWhile_dropWhile_append isVersionChar v (ws ++ ds ++ rest) hvc (by
    cases ws with
    | nil => exact absurd rfl hw
    | cons w ws' =>
      intro c hc
      simp only [List.cons_append, List.head?_cons, Option.mem_def, Option.some.injEq] at hc
      subst hc
      exact space_not_version _ (hwc _ (by simp)))
  have h2 := takeWhile_dropWhile_append isSpace ws (ds ++ rest) hwc (by
    cases ds with
    | nil => exact absurd rfl hd
    | cons w ws' =>
      intro c hc
      simp only [List.cons_append, List.head?_cons, Option.mem_def, Option.some.injEq] at hc
      subst hc
      exact digit_not_space _ (hdc _ (by simp)))
  have h3 := takeWhile_dropWhile_append isDigit ds rest hdc hr
  have hp : (ascii "HTTP/").isPrefixOf (ascii "HTTP/" ++ v ++ ws ++ ds ++ rest) = true := by
    simp [List.append_assoc]
  have hdrop : (ascii "HTTP/" ++ v ++ ws ++ ds ++ rest).drop 5 = v ++ (ws ++ ds ++ rest) := by
    have : (ascii "HTTP/").length = 5 := by decide
    simp only [List.append_assoc]
    rw [← this, List.drop_left]
  simp only [parseStatusFind, hp, if_true, hdrop, h1.1, h1.2]
  simp only [List.append_assoc] at h2 ⊢
  simp only [h2.1, h2.2, h3.1, hv, hw, hd, or_self, if_false]

/-- Atoi on a non-empty string of digits. -/
theorem strconvAtoi_digits (ds : GoString) (hd : ds ≠ []) (hdc : ∀ c ∈ ds, isDigit c = true) :
    strconvAtoi ds =
      if digitsValue ds < 2 ^ 63 then some (digitsValue ds : Int) else none := by
  cases ds with
  | nil => exact absurd rfl hd
  | cons d ds' =>
    have h0 : isDigit d = true := hdc d (by simp)
    have hne43 : d ≠ 43 := by
      intro h; subst h; exact absurd h0 (by decide)
    have hne45 : d ≠ 45 := by
      intro h; subst h; exact absurd h0 (by decide)
    have hall : (d :: ds').all isDigit = true := by
      rw [List.all_eq_true]; exact hdc
    simp only [strconvAtoi, List.head?_cons, Option.some.injEq, hne43, hne45, or_self,
      if_false, hall, not_true_eq_false, or_false, decide_False]
    simp

/-- The flag StatusOK gives for a first status. -/
theorem statusOK_cons_iff (s0 : GoString) (tl : List GoString) :
    DavProp.StatusOK { Status := s0 :: tl } = true ↔ IsOKStatus s0 := by
  constructor
  · intro h
    simp only [DavProp.StatusOK] at h
    by_cases hlen : (parseStatusFind s0).length < 2
    · simp [hlen] at h
    · simp only [hlen, if_false] at h
      by_cases hp : (ascii "HTTP/").isPrefixOf s0 = true
      · obtain ⟨r0, hr0⟩ := List.isPrefixOf_iff_prefix.mp hp
        have hdrop : s0.drop 5 = r0 := by
          have : (ascii "HTTP/").length = 5 := by decide
          rw [← hr0, ← this, List.drop_left]
        by_cases hemp : r0.takeWhile isVersionChar = [] ∨
            (r0.dropWhile isVersionChar).takeWhile isSpace = [] ∨
            ((r0.dropWhile isVersionChar).dropWhile isSpace).takeWhile isDigit = []
        · have hnil : parseStatusFind s0 = [] := by
            simp only [parseStatusFind, hp, if_true, hdrop, hemp]
          rw [hnil] at hlen
          exact absurd (by simp) hlen
        · have hfind : parseStatusFind s0 =
              [ascii "HTTP/" ++ r0.takeWhile isVersionChar
                ++ (r0.dropWhile isVersionChar).takeWhile isSpace
                ++ ((r0.dropWhile isVersionChar).dropWhile isSpace).takeWhile isDigit,
               ((r0.dropWhile isVersionChar).dropWhile isSpace).takeWhile isDigit] := by
            simp only [parseStatusFind, hp, if_true, hdrop, hemp, if_false]
          push_neg at hemp
          obtain ⟨hv, hw, hd⟩ := hemp
          have h2 : (match strconvAtoi
                (((r0.dropWhile isVersionChar).dropWhile isSpace).takeWhile isDigit) with
              | none => false
              | some code => if code ≥ 200 ∧ code < 300 then true else false) = true := by
            rw [hfind] at h
            exact h
          rw [strconvAtoi_digits _ hd (takeWhile_all _ _)] at h2
          refine ⟨r0.takeWhile isVersionChar,
            (r0.dropWhile isVersionChar).takeWhile isSpace,
            ((r0.dropWhile isVersionChar).dropWhile isSpace).takeWhile isDigit,
            ((r0.dropWhile isVersionChar).dropWhile isSpace).dropWhile isDigit,
            ?_, hv, takeWhile_all _ _, hw, takeWhile_all _ _, hd, takeWhile_all _ _,
            head_dropWhile _ _, ?_⟩
          · rw [← hr0]
            simp only [List.append_assoc, List.takeWhile_append_dropWhile]
          · by_cases hlt : digitsValue
                (((r0.dropWhile isVersionChar).dropWhile isSpace).takeWhile isDigit) < 2 ^ 63
            · simp only [hlt, if_true] at h2
              by_cases hc : ((digitsValue
                  (((r0.dropWhile isVersionChar).dropWhile isSpace).takeWhile isDigit) : Nat)
                    : Int) ≥ 200 ∧
                  ((digitsValue
                  (((r0.dropWhile isVersionChar).dropWhile isSpace).takeWhile isDigit) : Nat)
                    : Int) < 300
              · omega
              · simp only [hc, if_false] at h2
                exact absurd h2 (by simp)
            · simp only [hlt, if_false] at h2
              exact absurd h2 (by simp)
      · simp [parseStatusFind, hp] at hlen
  · rintro ⟨v, ws, ds, rest, rfl, hv, hvc, hw, hwc, hd, hdc, hr, hlo, hhi⟩
    have hfind := parseStatusFind_of_form v ws ds rest hv hvc hw hwc hd hdc hr
    have hlt : digitsValue ds < 2 ^ 63 := by
      have : (299 : Nat) < 2 ^ 63 := by norm_num
      omega
    simp only [DavProp.StatusOK, hfind, List.length_cons, List.length_nil,
      List.getD_cons_succ, List.getD_cons_zero, strconvAtoi_digits ds hd hdc, hlt, if_true]
    have h1 : (200 : Int) ≤ (digitsValue ds : Int) := by exact_mod_cast hlo
    have h2 : (digitsValue ds : Int) < 300 := by
      have : digitsValue ds < 300 := by omega
      exact_mod_cast this
    simp [h1, h2]

/-- C23: StatusOK examines only the first status. It returns true if no
statuses were received; otherwise it returns true if and only if the first
status consists of HTTP/, digits and dots, whitespace and a decimal status
code, optionally followed by more text, with a code in 200..299; and the
result does not depend on any status after the first. -/
theorem statusOK_first_status_only :
    (∀ p : DavProp, p.StatusOK = true ↔
      p.Status = [] ∨ ∃ s0 tl, p.Status = s0 :: tl ∧ IsOKStatus s0) ∧
    (∀ (s0 : GoString) (tl tl2 : List GoString),
      DavProp.StatusOK { Status := s0 :: tl } = DavProp.StatusOK { Status := s0 :: tl2 }) ∧
    DavProp.StatusOK { Status := [ascii "HTTP/1.1 200 OK", ascii "HTTP/1.1 404 Not Found"] }
      = true ∧
    DavProp.StatusOK { Status := [ascii "HTTP/1.1 200"] } = true ∧
    DavProp.StatusOK { Status := [ascii "HTTP/1.1 404 Not Found", ascii "HTTP/1.1 200 OK"] }
      = false := by
  refine ⟨?_, ?_, by decide, by decide, by decide⟩
  · intro p
    rcases p with ⟨st⟩
    cases st with
    | nil => simp [DavProp.StatusOK]
    | cons s0 tl =>
      rw [statusOK_cons_iff]
      simp
  · intro s0 tl tl2
    rfl

end Webdav

namespace Fstest

/-- What CheckTimeEqualWithPrecision computes: the delta t0 - t1 (as Time.Sub
gives it: exact when it fits a Duration) together with a flag that is true
exactly when the magnitude of the delta is less than the precision. -/
theorem checkTimeEqual_strict (t0 t1 precision : Int)
    (hp : minDuration ≤ precision ∧ precision ≤ maxDuration) :
    (CheckTimeEqualWithPrecision t0 t1 precision).1 = timeSub t0 t1 ∧
    (minDuration ≤ t0 - t1 ∧ t0 - t1 ≤ maxDuration → timeSub t0 t1 = t0 - t1) ∧
    ((CheckTimeEqualWithPrecision t0 t1 precision).2 = true ↔
      |timeSub t0 t1| < precision) ∧
    ((CheckTimeEqualWithPrecision t0 t1 precision).2 = false ↔
      |timeSub t0 t1| ≥ precision) := by
  have hr : minDuration ≤ timeSub t0 t1 ∧ timeSub t0 t1 ≤ maxDuration := by
    unfold timeSub minDuration maxDuration
    split
    · norm_num
    · split
      · norm_num
      · constructor <;> omega
  have hflag : (CheckTimeEqualWithPrecision t0 t1 precision).2 = true ↔
      |timeSub t0 t1| < precision := by
    unfold CheckTimeEqualWithPrecision
    simp only
    generalize timeSub t0 t1 = dt at hr ⊢
    unfold negDuration
    unfold minDuration maxDuration at *
    rw [abs_lt]
    by_cases h1 : dt ≥ precision
    · simp only [h1, true_or, if_true]
      constructor
      · intro h; exact absurd h (by simp)
      · intro h; omega
    · by_cases h2 : precision = -(2 ^ 63)
      · subst h2
        omega
      · simp only [h1, h2, if_false, false_or]
        by_cases h3 : dt ≤ -precision
        · simp only [h3, if_true]
          constructor
          · intro h; exact absurd h (by simp)
          · intro h; omega
        · simp only [h3, if_false, true_iff]
          constructor <;> omega
  refine ⟨?_, ?_, hflag, ?_⟩
  · unfold CheckTimeEqualWithPrecision
    simp only
    split <;> rfl
  · intro h
    unfold timeSub
    unfold minDuration maxDuration at *
    rw [if_neg (by omega), if_neg (by omega)]
  · rw [ge_iff_le, ← not_lt, ← hflag]
    cases (CheckTimeEqualWithPrecision t0 t1 precision).2 <;> simp

/-- C24 (the code at the failing input): for two times 1ns apart and a
precision of 1ns, CheckTimeEqualWithPrecision returns the delta 1ns and the
flag false, although the magnitude of the delta is not greater than the
precision; the same for two equal times at the precision 0. In general the
delta is t0 - t1 and the flag is false exactly when the magnitude of the
delta is greater than or equal to the precision, so next to the differences
greater than the precision the one of exactly the precision is rejected. -/
theorem checkTimeEqual_rejects_at_precision :
    (CheckTimeEqualWithPrecision 1 0 1 = (1, false) ∧ ¬ (|(1 : Int) - 0| > 1)) ∧
    (CheckTimeEqualWithPrecision 5 5 0 = (0, false) ∧ ¬ (|(5 : Int) - 5| > 0)) ∧
    (∀ t0 t1 precision : Int, minDuration ≤ precision → precision ≤ maxDuration →
      (CheckTimeEqualWithPrecision t0 t1 precision).1 = timeSub t0 t1 ∧
      (minDuration ≤ t0 - t1 ∧ t0 - t1 ≤ maxDuration → timeSub t0 t1 = t0 - t1) ∧
      ((CheckTimeEqualWithPrecision t0 t1 precision).2 = false ↔
        |timeSub t0 t1| > precision ∨ |timeSub t0 t1| = precision) ∧
      ((CheckTimeEqualWithPrecision t0 t1 precision).2 = true ↔
        |timeSub t0 t1| < precision)) := by
  refine ⟨⟨by decide, by decide⟩, ⟨by decide, by decide⟩, ?_⟩
  intro t0 t1 precision h1 h2
  obtain ⟨ha, hb, hc, hd⟩ := checkTimeEqual_strict t0 t1 precision ⟨h1, h2⟩
  refine ⟨ha, hb, ?_, hc⟩
  rw [hd]
  constructor
  · intro h
    rcases lt_or_eq_of_le h with h3 | h3
    · exact Or.inl h3
    · exact Or.inr h3.symm
  · rintro (h | h)
    · exact le_of_lt h
    · exact le_of_eq h.symm

end Fstest

namespace GetGithubRelease

open Box (GoString ascii)

/-- The loop of defaultBinDir never assigns binDir: started with an empty
binDir it returns the first writable directory that has home as a prefix,
or the empty string. -/
theorem defaultBinDirLoop_empty (writable : GoString → Bool) (home : GoString)
    (dirs : List GoString) :
    defaultBinDirLoop writable home dirs [] =
      ((dirs.find? (fun dir => writable dir && stringsHasPrefix dir home)).getD []) := by
  induction dirs with
  | nil => rfl
  | cons dir rest ih =>
    by_cases hw : writable dir = true
    · by_cases hp : stringsHasPrefix dir home = true
      · simp [defaultBinDirLoop, hw, hp]
      · simp [defaultBinDirLoop, hw, hp, ih]
    · simp [defaultBinDirLoop, hw, ih]

/-- C25 (the code at the failing input): with HOME=/home/u,
PATH=/usr/local/bin:/usr/bin and every directory writable, no directory on
$PATH is in $HOME and defaultBinDir returns the empty string, not the first
writable directory /usr/local/bin. In general defaultBinDir returns the
first writable directory on $PATH that has $HOME as a prefix and the empty
string when there is none, whatever else is writable. -/
theorem defaultBinDir_no_fallback :
    stringsSplit 58 (systemPathEnv (ascii "PATH")) = [ascii "/usr/local/bin", ascii "/usr/bin"] ∧
    defaultBinDir systemPathEnv (fun _ => true) = [] ∧
    defaultBinDir homePathEnv (fun _ => true) = ascii "/home/u/bin" ∧
    (∀ (getenv : GoString → GoString) (writable : GoString → Bool),
      defaultBinDir getenv writable =
        (((stringsSplit 58 (getenv (ascii "PATH"))).find?
          (fun dir => writable dir && stringsHasPrefix dir (getenv (ascii "HOME")))).getD [])) := by
  refine ⟨by decide, by decide, by decide, ?_⟩
  intro getenv writable
  exact defaultBinDirLoop_empty _ _ _

end GetGithubRelease

namespace Ftp

open Box (GoString ascii)

/-- C26: CheckPasswd returns (true, nil) if and only if user equals
BasicUser and either BasicPass is empty or pass equals BasicPass; it never
returns an error; with a non-empty BasicPass no wrong password and no wrong
user name is accepted, and with an empty BasicPass every password is
accepted for the configured user. -/
theorem checkPasswd_decision (a : Auth) (user pass : GoString) :
    (a.CheckPasswd user pass = (true, none) ↔
      user = a.BasicUser ∧ (a.BasicPass = [] ∨ pass = a.BasicPass)) ∧
    (a.CheckPasswd user pass).2 = none ∧
    (a.BasicPass ≠ [] → pass ≠ a.BasicPass → (a.CheckPasswd user pass).1 = false) ∧
    (user ≠ a.BasicUser → (a.CheckPasswd user pass).1 = false) ∧
    (a.BasicPass = [] → (a.CheckPasswd a.BasicUser pass).1 = true) := by
  rcases a with ⟨bu, bp⟩
  refine ⟨?_, rfl, ?_, ?_, ?_⟩
  · simp only [Auth.CheckPasswd, Prod.mk.injEq, and_true, Bool.and_eq_true,
      Bool.or_eq_true, decide_eq_true_eq]
    constructor
    · rintro ⟨h1, h2⟩
      exact ⟨h1.symm, h2.imp id Eq.symm⟩
    · rintro ⟨h1, h2⟩
      exact ⟨h1.symm, h2.imp id Eq.symm⟩
  · intro h1 h2
    have h3 : ¬ bp = pass := fun h => h2 h.symm
    have h1b : ¬ bp = [] := h1
    simp [Auth.CheckPasswd, h1b, h3]
  · intro h1
    have h3 : ¬ bu = user := fun h => h1 h.symm
    simp [Auth.CheckPasswd, h3]
  · intro h1
    have h1b : bp = [] := h1
    simp [Auth.CheckPasswd, h1b]

end Ftp

namespace Ncdu

open Box (GoString ascii wrapInt)

set_option maxHeartbeats 1600000 in
/-- C27: for a UI showing n > 0 entries on dirListHeight > 0 lines whose
stored position for the current path has 0 <= offset <= entry < n and
entry < offset + dirListHeight, after move(d) for every int d the stored
position has 0 <= entry < n, 0 <= offset < n and
offset <= entry < offset + dirListHeight; and move changes no position
stored for another path, and nothing else of the UI. An int has 64 bits and
its arithmetic wraps around; a slice of entries has at most 2^62 elements
(a longer one does not fit a 64-bit address space). -/
theorem move_cursor_invariant (u : UI) (dir : Dir) (d : Int)
    (hdir : u.d = some dir)
    (hn : 0 < u.entries.length ∧ (u.entries.length : Int) ≤ 2 ^ 62)
    (hh : 0 < u.dirListHeight ∧ u.dirListHeight < 2 ^ 63)
    (hd : -(2 ^ 63) ≤ d ∧ d < 2 ^ 63)
    (hpos : 0 ≤ (u.dirPosMap u.path).offset ∧
      (u.dirPosMap u.path).offset ≤ (u.dirPosMap u.path).entry ∧
      (u.dirPosMap u.path).entry < u.entries.length ∧
      (u.dirPosMap u.path).entry < (u.dirPosMap u.path).offset + u.dirListHeight) :
    (0 ≤ ((u.move d).dirPosMap u.path).entry ∧
      ((u.move d).dirPosMap u.path).entry < u.entries.length) ∧
    (0 ≤ ((u.move d).dirPosMap u.path).offset ∧
      ((u.move d).dirPosMap u.path).offset < u.entries.length) ∧
    (((u.move d).dirPosMap u.path).offset ≤ ((u.move d).dirPosMap u.path).entry ∧
      ((u.move d).dirPosMap u.path).entry <
        ((u.move d).dirPosMap u.path).offset + u.dirListHeight) ∧
    (∀ q, q ≠ u.path → (u.move d).dirPosMap q = u.dirPosMap q) ∧
    ((u.move d).path = u.path ∧ (u.move d).entries = u.entries ∧
      (u.move d).dirListHeight = u.dirListHeight ∧ (u.move d).sortPerm = u.sortPerm ∧
      (u.move d).invSortPerm = u.invSortPerm) := by
  rcases u with ⟨ud, path, entries, sp, isp, h, m⟩
  simp only at hdir hn hh hd hpos
  subst hdir
  generalize hpe : (m path).entry = e at hpos
  generalize hpo : (m path).offset = o at hpos
  generalize hlen : (entries.length : Int) = n at hn hpos
  have hn0 : (0 : Int) < n := by
    rw [← hlen]; exact_mod_cast hn.1
  simp only [UI.move, Function.update_same, hpe, hpo, hlen]
  refine ⟨?_, ?_, ?_, ?_, ?_⟩
  · unfold wrapInt
    split_ifs <;> omega
  · unfold wrapInt
    split_ifs <;> omega
  · unfold wrapInt
    split_ifs <;> omega
  · intro q hq
    exact Function.update_noteq hq _ _
  · trivial

/-- Witness for C27: five entries on three lines, the cursor on entry 2 at
the bottom of the screen, moved down by 5. -/
theorem move_cursor_invariant_witness :
    (exampleUI.d = some exampleDir ∧ 0 < exampleUI.entries.length ∧
      (5 : Int) < exampleUI.entries.length + 1) ∧
    (exampleUI.move 5).dirPosMap exampleUI.path = { entry := 4, offset := 4 } ∧
    ((0 ≤ ((exampleUI.move 5).dirPosMap exampleUI.path).entry ∧
      ((exampleUI.move 5).dirPosMap exampleUI.path).entry < exampleUI.entries.length) ∧
    (0 ≤ ((exampleUI.move 5).dirPosMap exampleUI.path).offset ∧
      ((exampleUI.move 5).dirPosMap exampleUI.path).offset < exampleUI.entries.length) ∧
    (((exampleUI.move 5).dirPosMap exampleUI.path).offset ≤
        ((exampleUI.move 5).dirPosMap exampleUI.path).entry ∧
      ((exampleUI.move 5).dirPosMap exampleUI.path).entry <
        ((exampleUI.move 5).dirPosMap exampleUI.path).offset + exampleUI.dirListHeight)) :=
  ⟨⟨rfl, by decide, by decide⟩, by decide,
   (move_cursor_invariant exampleUI exampleDir 5 rfl (by decide) (by decide) (by decide)
      (by decide)).1,
   (move_cursor_invariant exampleUI exampleDir 5 rfl (by decide) (by decide) (by decide)
      (by decide)).2.1,
   (move_cursor_invariant exampleUI exampleDir 5 rfl (by decide) (by decide) (by decide)
      (by decide)).2.2.1⟩

/-! ### sortCurrentDir -/

theorem getAt_of_lt (s : List Int) (i : Int) (h0 : 0 ≤ i) (h1 : i.toNat < s.length) :
    getAt s i = some (s.get ⟨i.toNat, h1⟩) := by
  simp [getAt, h0, List.getElem?_eq_getElem h1]

/-- Swap of two positions in range succeeds and permutes the slice. -/
theorem swap_perm (s : List Int) (i j : Int) (hi0 : 0 ≤ i) (hi : i.toNat < s.length)
    (hj0 : 0 ≤ j) (hj : j.toNat < s.length) :
    ∃ s2, ncduSort.Swap s i j = some s2 ∧ s2.Perm s := by
  have hlen : (s.set i.toNat (s.get ⟨j.toNat, hj⟩)).length = s.length := by simp
  refine ⟨(s.set i.toNat (s.get ⟨j.toNat, hj⟩)).set j.toNat (s.get ⟨i.toNat, hi⟩), ?_, ?_⟩
  · simp [ncduSort.Swap, getAt_of_lt s i hi0 hi, getAt_of_lt s j hj0 hj, setAt, hi0, hi, hj0, hj]
  · rw [List.perm_iff_count]
    intro a
    have hj2 : j.toNat < (s.set i.toNat (s.get ⟨j.toNat, hj⟩)).length := by
      rw [hlen]; exact hj
    rw [List.count_set _ _ _ _ hj2, List.count_set _ _ _ _ hi]
    have hget : (s.set i.toNat (s.get ⟨j.toNat, hj⟩))[j.toNat] = s.get ⟨j.toNat, hj⟩ := by
      rw [List.getElem_set]
      split
      · rfl
      · rfl
    rw [hget]
    have hpos : (if s[i.toNat] == a then 1 else 0) ≤ s.count a := by
      split
      · rename_i h
        have hm : s[i.toNat] ∈ s := List.getElem_mem hi
        have := List.count_pos_iff.mpr hm
        rw [beq_iff_eq] at h
        rw [h] at this
        exact this
      · exact Nat.zero_le _
    simp only [List.get_eq_getElem]
    omega

/-- The calls of Swap that sort.Sort makes permute the slice. -/
theorem sortSort_perm (swaps : List (Int × Int)) :
    ∀ s : List Int,
      (∀ ij ∈ swaps, (0 ≤ ij.1 ∧ ij.1.toNat < s.length) ∧ (0 ≤ ij.2 ∧ ij.2.toNat < s.length)) →
      ∃ s2, sortSort swaps s = some s2 ∧ s2.Perm s := by
  induction swaps with
  | nil => intro s _; exact ⟨s, rfl, List.Perm.refl _⟩
  | cons ij rest ih =>
    intro s h
    rcases ij with ⟨i, j⟩
    have hij := h (i, j) (by simp)
    obtain ⟨s1, hs1, hp1⟩ := swap_perm s i j hij.1.1 hij.1.2 hij.2.1 hij.2.2
    have hl : s1.length = s.length := hp1.length_eq
    obtain ⟨s2, hs2, hp2⟩ := ih s1 (fun p hp => by
      rw [hl]; exact h p (by simp [hp]))
    exact ⟨s2, by simp [sortSort, hs1, hs2], hp2.trans hp1⟩

theorem getAt_set_same (inv : List Int) (j v : Int) (h0 : 0 ≤ j) (h1 : j.toNat < inv.length) :
    getAt (inv.set j.toNat v) j = some v := by
  simp [getAt, h0, h1]

theorem getAt_set_other (inv : List Int) (j k v : Int) (hne : k ≠ j) (h0 : 0 ≤ j) :
    getAt (inv.set j.toNat v) k = getAt inv k := by
  unfold getAt
  split
  · rename_i hk
    have : j.toNat ≠ k.toNat := by omega
    rw [List.getElem?_set_ne this]
  · rfl

/-- The loop that fills the inverse permutation. -/
theorem fillInvSortPerm_spec (perm : List Int) :
    ∀ (i : Int) (inv : List Int), perm.Nodup →
      (∀ j ∈ perm, 0 ≤ j ∧ j.toNat < inv.length) →
      ∃ inv2, fillInvSortPerm perm i inv = some inv2 ∧ inv2.length = inv.length ∧
        (∀ k (hk : k < perm.length), getAt inv2 (perm.get ⟨k, hk⟩) = some (i + k)) ∧
        (∀ j, j ∉ perm → getAt inv2 j = getAt inv j) := by
  induction perm with
  | nil =>
    intro i inv _ _
    exact ⟨inv, rfl, rfl, fun k hk => absurd hk (by simp), fun _ _ => rfl⟩
  | cons j rest ih =>
    intro i inv hnd hr
    have hj := hr j (by simp)
    have hnd2 := List.nodup_cons.mp hnd
    obtain ⟨inv2, h1, h2, h3, h4⟩ := ih (i + 1) (inv.set j.toNat i) hnd2.2 (fun x hx => by
      rw [List.length_set]; exact hr x (by simp [hx]))
    refine ⟨inv2, ?_, ?_, ?_, ?_⟩
    · simp [fillInvSortPerm, setAt, hj.1, hj.2, h1]
    · rw [h2, List.length_set]
    · intro k hk
      cases k with
      | zero =>
        simp only [List.get_eq_getElem, List.getElem_cons_zero, Nat.cast_zero, add_zero]
        rw [h4 j hnd2.1, getAt_set_same inv j i hj.1 hj.2]
      | succ k =>
        have hk2 : k < rest.length := by simpa using hk
        have := h3 k hk2
        simp only [List.get_eq_getElem, List.getElem_cons_succ, Nat.cast_add, Nat.cast_one]
        simp only [List.get_eq_getElem] at this
        rw [this]
        congr 1
        ring
    · intro x hx
      have hx2 : x ≠ j ∧ x ∉ rest := by
        simpa [List.mem_cons, not_or] using hx
      rw [h4 x hx2.2, getAt_set_other inv j x i hx2.1 hj.1]

/-- C28: after sortCurrentDir, for a directory with n entries, sortPerm has
length n and is a permutation of 0..n-1 (every entry index occurs exactly
once), and invSortPerm[sortPerm[i]] == i for every i < n, whether
invSortPerm was longer or shorter than n before; sort.Sort is any sequence
of calls of Swap with indices below Len(). -/
theorem sortCurrentDir_permutation (swaps : List (Int × Int)) (u : UI)
    (hsw : ∀ ij ∈ swaps, (0 ≤ ij.1 ∧ ij.1 < u.entries.length) ∧
      (0 ≤ ij.2 ∧ ij.2 < u.entries.length)) :
    ∃ u2, u.sortCurrentDir swaps = some u2 ∧
      u2.sortPerm.length = u.entries.length ∧
      u2.sortPerm.Perm ((List.range u.entries.length).map Int.ofNat) ∧
      (∀ k : Nat, k < u.entries.length → u2.sortPerm.count (k : Int) = 1) ∧
      (∀ i (hi : i < u2.sortPerm.length),
        getAt u2.invSortPerm (u2.sortPerm.get ⟨i, hi⟩) = some (i : Int)) ∧
      u2.invSortPerm.length = max u.invSortPerm.length u.entries.length ∧
      u2.entries = u.entries ∧ u2.d = u.d := by
  have hlen0 : ((List.range u.entries.length).map Int.ofNat).length = u.entries.length := by
    simp
  have hnd0 : ((List.range u.entries.length).map Int.ofNat).Nodup :=
    (List.nodup_range _).map (fun a b h => by simpa using h)
  obtain ⟨sp, hsp, hperm⟩ := sortSort_perm swaps ((List.range u.entries.length).map Int.ofNat)
    (fun ij hij => by
      rw [hlen0]
      have := hsw ij hij
      omega)
  have hlen : sp.length = u.entries.length := by rw [hperm.length_eq, hlen0]
  have hnd : sp.Nodup := hperm.nodup_iff.mpr hnd0
  have hmem : ∀ j ∈ sp, 0 ≤ j ∧ j.toNat < u.entries.length := by
    intro j hj
    have := hperm.mem_iff.mp hj
    simp only [List.mem_map, List.mem_range] at this
    obtain ⟨k, hk, rfl⟩ := this
    simp [hk]
  have hinvlen : (if u.invSortPerm.length < sp.length then List.replicate sp.length (0 : Int)
      else u.invSortPerm).length = max u.invSortPerm.length u.entries.length := by
    split
    · rename_i h
      rw [List.length_replicate, hlen]
      rw [hlen] at h
      omega
    · rename_i h
      rw [hlen] at h
      omega
  obtain ⟨inv, hinv, hil, hget, _⟩ := fillInvSortPerm_spec sp 0
    (if u.invSortPerm.length < sp.length then List.replicate sp.length (0 : Int)
      else u.invSortPerm) hnd (fun j hj => by
      have := hmem j hj
      rw [hinvlen]
      omega)
  refine ⟨{ u with sortPerm := sp, invSortPerm := inv }, ?_, hlen, hperm, ?_, ?_, ?_, rfl, rfl⟩
  · simp only [UI.sortCurrentDir, hsp, hinv]
  · intro k hk
    have hm : (k : Int) ∈ sp := hperm.mem_iff.mpr (by
      simp only [List.mem_map, List.mem_range]
      exact ⟨k, hk, rfl⟩)
    exact List.count_eq_one_of_mem hnd hm
  · intro i hi
    have := hget i hi
    simpa using this
  · rw [hil, hinvlen]

/-- Witness for C28: five entries, an inverse permutation left over with
seven elements, and a sort that swaps positions 0 and 4 and then 1 and 2. -/
theorem sortCurrentDir_permutation_witness :
    (∀ ij ∈ [((0 : Int), (4 : Int)), (1, 2)],
      (0 ≤ ij.1 ∧ ij.1 < exampleUI.entries.length) ∧
      (0 ≤ ij.2 ∧ ij.2 < exampleUI.entries.length)) ∧
    (exampleUI.sortCurrentDir [(0, 4), (1, 2)]).map (fun u => (u.sortPerm, u.invSortPerm))
      = some ([4, 2, 1, 3, 0], [4, 2, 1, 3, 0, 1, 0]) ∧
    ∃ u2, exampleUI.sortCurrentDir [(0, 4), (1, 2)] = some u2 ∧
      u2.sortPerm.length = exampleUI.entries.length ∧
      u2.sortPerm.Perm ((List.range exampleUI.entries.length).map Int.ofNat) :=
  ⟨by decide, by decide,
   (sortCurrentDir_permutation [(0, 4), (1, 2)] exampleUI (by decide)).imp
     (fun _ h => ⟨h.1, h.2.1, h.2.2.1⟩)⟩

/-! ### The usage graph of Draw -/

theorem biggestEntryLoop_ge (dir : Dir) (sortPerm : List Int) (idx : List Nat) :
    ∀ b0 b, biggestEntryLoop dir sortPerm idx b0 = some b → b0 ≤ b := by
  induction idx with
  | nil =>
    intro b0 b h
    simp only [biggestEntryLoop, Option.some.injEq] at h
    omega
  | cons i rest ih =>
    intro b0 b h
    simp only [biggestEntryLoop] at h
    split at h
    · exact absurd h (by simp)
    · split at h
      · rename_i hgt
        have := ih _ _ h
        omega
      · exact ih _ _ h

theorem biggestEntry_nonneg (u : UI) (b : Int) (h : u.biggestEntry = some b) : 0 ≤ b := by
  rcases u with ⟨ud, path, entries, sp, isp, ht, m⟩
  cases ud with
  | none =>
    simp only [UI.biggestEntry, Option.some.injEq] at h
    omega
  | some dir =>
    simp only [UI.biggestEntry] at h
    exact biggestEntryLoop_ge _ _ _ _ _ h

theorem graphExtras_of_slice (size perBar : Int) (g : GoString)
    (h : goSlice graph (graphBars - clippedBars size perBar)
      (2 * graphBars - clippedBars size perBar) = some g) :
    graphExtras size perBar = some (ascii "[" ++ g ++ ascii "] ") := by
  unfold graphExtras
  rw [h]

/-- The slice of the graph string for a number of bars in 0..10. -/
theorem graph_slice (b : Int) (h0 : 0 ≤ b) (h1 : b ≤ 10) :
    goSlice graph (graphBars - b) (2 * graphBars - b) =
      some (List.replicate b.toNat 35 ++ List.replicate (10 - b.toNat) 32) := by
  interval_cases b <;> decide

/-- C30: the usage graph never indexes out of range. For every entry size
and every size of the biggest entry, perBar is not zero, the clipped value
bars lies in 0..10, the slice graph[10-bars : 20-bars] is within the
20-character graph string and is exactly 10 characters long: bars
characters # followed by 10-bars spaces; and biggestEntry is never
negative. -/
theorem usage_graph_in_range (size biggest : Int) :
    perBarOf biggest ≠ 0 ∧
    (0 ≤ clippedBars size (perBarOf biggest) ∧ clippedBars size (perBarOf biggest) ≤ 10) ∧
    (0 ≤ graphBars - clippedBars size (perBarOf biggest) ∧
      2 * graphBars - clippedBars size (perBarOf biggest) ≤ graph.length ∧
      graph.length = 20) ∧
    goSlice graph (graphBars - clippedBars size (perBarOf biggest))
        (2 * graphBars - clippedBars size (perBarOf biggest)) =
      some (List.replicate (clippedBars size (perBarOf biggest)).toNat 35 ++
        List.replicate (10 - (clippedBars size (perBarOf biggest)).toNat) 32) ∧
    (List.replicate (clippedBars size (perBarOf biggest)).toNat 35 ++
        List.replicate (10 - (clippedBars size (perBarOf biggest)).toNat) 32).length = 10 ∧
    graphExtras size (perBarOf biggest) =
      some (ascii "[" ++ (List.replicate (clippedBars size (perBarOf biggest)).toNat 35 ++
        List.replicate (10 - (clippedBars size (perBarOf biggest)).toNat) 32) ++ ascii "] ") ∧
    (∀ (u : UI) (b : Int), u.biggestEntry = some b → 0 ≤ b) ∧
    clippedBars 50 (perBarOf 100) = 5 ∧
    graphExtras 50 (perBarOf 100) = some (ascii "[#####     ] ") ∧
    graphExtras 0 (perBarOf 0) = some (ascii "[          ] ") := by
  have hb : 0 ≤ clippedBars size (perBarOf biggest) ∧
      clippedBars size (perBarOf biggest) ≤ 10 := by
    unfold clippedBars
    simp only
    split
    · omega
    · split <;> omega
  have hlen : graph.length = 20 := by decide
  have hg : graphBars = 10 := rfl
  have hidx : 0 ≤ graphBars - clippedBars size (perBarOf biggest) ∧
      2 * graphBars - clippedBars size (perBarOf biggest) ≤ graph.length := by
    rw [hlen, hg]
    generalize clippedBars size (perBarOf biggest) = b at hb
    constructor
    · omega
    · push_cast; omega
  have hs := graph_slice _ hb.1 hb.2
  refine ⟨?_, hb, ⟨hidx.1, hidx.2, hlen⟩, hs, ?_, ?_, ?_,
    by set_option maxRecDepth 10000 in decide,
    by set_option maxRecDepth 10000 in decide,
    by set_option maxRecDepth 10000 in decide⟩
  · unfold perBarOf
    split
    · decide
    · assumption
  · rw [List.length_append, List.length_replicate, List.length_replicate]
    omega
  · exact graphExtras_of_slice _ _ _ hs
  · exact biggestEntry_nonneg

end Ncdu

namespace Box

theorem requestsOf_append (a b : List Event) :
    requestsOf (a ++ b) = requestsOf a ++ requestsOf b := by
  simp [requestsOf, List.filterMap_append]

theorem wrapInt_of_range (x : Int) (h : -(2 ^ 63) ≤ x ∧ x < 2 ^ 63) : wrapInt x = x := by
  unfold wrapInt
  omega

/-- The entry loop returns when the user function does. -/
theorem listAllEntries_returns {σ : Type} (f : Fs) (d fo : Bool)
    (fn : Item → σ → Exec (Bool × σ))
    (hfn : ∀ item s, ∃ r, (fn item s).out = Outcome.ret r) (entries : List Item) :
    ∀ s, ∃ r, (listAllEntries f d fo fn entries s).out = Outcome.ret r := by
  induction entries with
  | nil => intro s; exact ⟨(false, s), rfl⟩
  | cons item rest ih =>
    intro s
    obtain ⟨r, hr⟩ := hfn { item with name := restoreReservedChars item.name } s
    unfold listAllEntries
    split
    · split
      · exact ih s
      · split
        · exact ih s
        · simp only [bind, Exec.bind, hr]
          split
          · exact ⟨_, rfl⟩
          · exact ih _
    · split
      · split
        · exact ih s
        · split
          · exact ih s
          · simp only [bind, Exec.bind, hr]
            split
            · exact ⟨_, rfl⟩
            · exact ih _
      · simp only [bind, Exec.bind, emit]
        exact ih s

/-- The entry loop with a user function that never returns true and sends no
request: it returns false and sends no request. -/
theorem listAllEntries_quiet {σ : Type} (f : Fs) (d fo : Bool)
    (fn : Item → σ → Exec (Bool × σ))
    (hfn : ∀ item s, requestsOf (fn item s).trace = [] ∧
      ∃ s2, (fn item s).out = Outcome.ret (false, s2)) (entries : List Item) :
    ∀ s, requestsOf (listAllEntries f d fo fn entries s).trace = [] ∧
      ∃ s2, (listAllEntries f d fo fn entries s).out = Outcome.ret (false, s2) := by
  induction entries with
  | nil => intro s; exact ⟨rfl, s, rfl⟩
  | cons item rest ih =>
    intro s
    obtain ⟨hq, s1, hr⟩ := hfn { item with name := restoreReservedChars item.name } s
    unfold listAllEntries
    split
    · split
      · exact ih s
      · split
        · exact ih s
        · simp only [bind, Exec.bind, hr, Bool.false_eq_true, if_false]
          rw [requestsOf_append, hq]
          exact ih s1
    · split
      · split
        · exact ih s
        · split
          · exact ih s
          · simp only [bind, Exec.bind, hr, Bool.false_eq_true, if_false]
            rw [requestsOf_append, hq]
            exact ih s1
      · simp only [bind, Exec.bind, emit]
        rw [requestsOf_append]
        exact ih s

/-- The page loop returns when the user function does, every page reports a
limit in 1..L and a total count of at most B, and B + L fits an int. -/
theorem listAllPages_returns {σ : Type} (env : ListEnv) (f : Fs) (dirID : GoString)
    (d fo : Bool) (fn : Item → σ → Exec (Bool × σ))
    (hfn : ∀ item s, ∃ r, (fn item s).out = Outcome.ret r)
    (L B : Int) (hLB : B + L < 2 ^ 63)
    (hlim : ∀ i r, env.pages i = .ok r → 1 ≤ r.limit ∧ r.limit ≤ L ∧ r.totalCount ≤ B)
    (fuel : Nat) :
    ∀ n offset s, 0 ≤ offset → offset ≤ B → B - offset < fuel →
      ∃ r, (listAllPages env f dirID d fo fn fuel n offset s).out = Outcome.ret r := by
  induction fuel with
  | zero =>
    intro n offset s h0 h1 h2
    simp only [Nat.cast_zero] at h2
    omega
  | succ k ih =>
    intro n offset s h0 h1 h2
    unfold listAllPages
    simp only [bind, Exec.bind, emit]
    cases hp : env.pages n with
    | error err => exact ⟨_, rfl⟩
    | ok result =>
      obtain ⟨r, hr⟩ := listAllEntries_returns f d fo fn hfn result.entries s
      obtain ⟨hl1, hl2, hl3⟩ := hlim n result hp
      have hw : wrapInt (offset + result.limit) = offset + result.limit :=
        wrapInt_of_range _ (by constructor <;> omega)
      simp only [pure, hr, hw]
      split
      · exact ⟨_, rfl⟩
      · split
        · exact ⟨_, rfl⟩
        · rename_i hns
          obtain ⟨r2, hr2⟩ := ih (n + 1) (offset + result.limit) r.2 (by omega) (by omega)
            (by push_cast at h2 ⊢; omega)
          exact ⟨r2, by rw [← hr2]⟩

/-- The offsets of the pages before the first page that stops the loop
increase strictly. -/
theorem pageOffset_strict (env : ListEnv) (m : Nat)
    (hlim : ∀ i r, env.pages i = .ok r → 1 ≤ r.limit)
    (hgo : ∀ i, i < m → pageStops env i = false) :
    ∀ j, j ≤ m → ∀ i, i < j → pageOffset env i < pageOffset env j := by
  intro j
  induction j with
  | zero => intro _ i hi; omega
  | succ j ih =>
    intro hj i hi
    have hstep : pageOffset env j < pageOffset env (j + 1) := by
      have hs := hgo j (by omega)
      simp only [pageOffset, pageLimit]
      unfold pageStops at hs
      cases hp : env.pages j with
      | error err => rw [hp] at hs; exact absurd hs (by simp)
      | ok result =>
        have := hlim j result hp
        simp only
        omega
    by_cases hij : i = j
    · subst hij; exact hstep
    · have := ih (by omega) i (by omega)
      omega

/-- With the same limit on every page the offsets are 0, Limit, 2*Limit, ... -/
theorem pageOffset_uniform (env : ListEnv) (m : Nat) (lim : Int)
    (hlim : ∀ i r, env.pages i = .ok r → r.limit = lim)
    (hgo : ∀ i, i < m → pageStops env i = false) :
    ∀ j, j ≤ m → pageOffset env j = j * lim := by
  intro j
  induction j with
  | zero => intro _; simp [pageOffset]
  | succ j ih =>
    intro hj
    have hs := hgo j (by omega)
    simp only [pageOffset, pageLimit]
    unfold pageStops at hs
    cases hp : env.pages j with
    | error err => rw [hp] at hs; exact absurd hs (by simp)
    | ok result =>
      simp only
      rw [ih (by omega), hlim j result hp]
      push_cast
      ring

/-- The page loop with a user function that never returns true: the pages
it requests and what it returns. -/
theorem listAllPages_schedule {σ : Type} (env : ListEnv) (f : Fs) (dirID : GoString)
    (d fo : Bool) (fn : Item → σ → Exec (Bool × σ))
    (hfn : ∀ item s, requestsOf (fn item s).trace = [] ∧
      ∃ s2, (fn item s).out = Outcome.ret (false, s2))
    (L B : Int) (hLB : B + L < 2 ^ 63)
    (hlim : ∀ i r, env.pages i = .ok r → 1 ≤ r.limit ∧ r.limit ≤ L ∧ r.totalCount ≤ B)
    (fuel : Nat) :
    ∀ n s, 0 ≤ pageOffset env n → pageOffset env n ≤ B → B - pageOffset env n < fuel →
      ∃ m, n ≤ m ∧ pageStops env m = true ∧ (∀ i, n ≤ i → i < m → pageStops env i = false) ∧
        requestsOf (listAllPages env f dirID d fo fn fuel n (pageOffset env n) s).trace =
          (List.range' n (m + 1 - n)).map (fun i => listAllRequest dirID (pageOffset env i)) ∧
        ∃ err s2, (listAllPages env f dirID d fo fn fuel n (pageOffset env n) s).out =
          Outcome.ret ((false, err), s2) := by
  induction fuel with
  | zero =>
    intro n s h0 h1 h2
    simp only [Nat.cast_zero] at h2
    omega
  | succ k ih =>
    intro n s h0 h1 h2
    unfold listAllPages
    simp only [bind, Exec.bind, emit]
    cases hp : env.pages n with
    | error err =>
      refine ⟨n, le_refl _, ?_, fun i h1 h2 => by omega, ?_, _, _, rfl⟩
      · simp [pageStops, hp]
      · simp [pure, requestsOf]
    | ok result =>
      obtain ⟨hq, s1, hr⟩ := listAllEntries_quiet f d fo fn hfn result.entries s
      obtain ⟨hl1, hl2, hl3⟩ := hlim n result hp
      have hw : wrapInt (pageOffset env n + result.limit) = pageOffset env n + result.limit :=
        wrapInt_of_range _ (by constructor <;> omega)
      have hnext : pageOffset env (n + 1) = pageOffset env n + result.limit := by
        simp [pageOffset, pageLimit, hp]
      simp only [pure, hr, hw, Bool.false_eq_true, if_false]
      by_cases hstop : pageOffset env n + result.limit ≥ result.totalCount
      · simp only [hstop, if_true]
        refine ⟨n, le_refl _, ?_, fun i h1 h2 => by omega, ?_, _, _, rfl⟩
        · simp [pageStops, hp, hstop]
        · simp only [List.append_nil, List.singleton_append]
          have : n + 1 - n = 1 := by omega
          rw [this]
          simp only [requestsOf, List.filterMap_cons]
          have hq2 : List.filterMap (fun ev => match ev with
              | Event.call _ req => some req
              | _ => none)
              (listAllEntries f d fo fn result.entries s).trace = [] := hq
          rw [hq2]
          rfl
      · simp only [hstop, if_false]
        rw [← hnext]
        obtain ⟨m, hm1, hm2, hm3, hm4, err, s2, hm5⟩ := ih (n + 1) s1 (by omega) (by omega)
          (by push_cast at h2 ⊢; omega)
        refine ⟨m, by omega, hm2, ?_, ?_, err, s2, ?_⟩
        · intro i hi1 hi2
          by_cases hin : i = n
          · subst hin
            simp [pageStops, hp, hstop]
          · exact hm3 i (by omega) hi2
        · rw [List.singleton_append]
          have hcons : requestsOf (Event.call true (listAllRequest dirID (pageOffset env n)) ::
              ((listAllEntries f d fo fn result.entries s).trace ++
                (listAllPages env f dirID d fo fn k (n + 1) (pageOffset env (n + 1)) s1).trace))
              = listAllRequest dirID (pageOffset env n) ::
                requestsOf ((listAllEntries f d fo fn result.entries s).trace ++
                (listAllPages env f dirID d fo fn k (n + 1) (pageOffset env (n + 1)) s1).trace) :=
            rfl
          rw [hcons, requestsOf_append, hq, List.nil_append, hm4]
          have : m + 1 - n = (m + 1 - (n + 1)) + 1 := by omega
          rw [this, List.range'_succ]
          rfl
        · exact hm5

theorem listAllRequest_offset (dirID : GoString) (a b : Int)
    (h : listAllRequest dirID a = listAllRequest dirID b) : a = b := by
  simp only [listAllRequest, fieldsValue, Request.mk.injEq, List.cons_append, List.nil_append,
    List.cons.injEq, Param.offset.injEq, Param.limit.injEq, and_true, true_and] at h
  exact h

/-- The server of the counterexample keeps listAll in its loop: the offset
runs through 0, 1, -2^63, -2^63 + 1 and is 0 again. -/
theorem wrapPages_running (fuel : Nat) :
    ∀ n offset, ((n % 4 = 0 ∧ offset = 0) ∨ (n % 4 = 1 ∧ offset = 1) ∨
        (n % 4 = 2 ∧ offset = -(2 ^ 63)) ∨ (n % 4 = 3 ∧ offset = -(2 ^ 63) + 1)) →
      (listAllPages wrapPagesEnv exampleFs (ascii "0") false false neverFound
        fuel n offset ()).out = Outcome.running := by
  induction fuel with
  | zero => intro n offset _; rfl
  | succ k ih =>
    intro n offset h
    unfold listAllPages
    simp only [bind, Exec.bind, emit, wrapPagesEnv, listAllEntries, pure]
    rcases h with ⟨hn, rfl⟩ | ⟨hn, rfl⟩ | ⟨hn, rfl⟩ | ⟨hn, rfl⟩
    · have h2 : n % 2 = 0 := by omega
      have hw : wrapInt (0 + 1) = 1 := by unfold wrapInt; norm_num
      simp only [h2, if_true, hw, Bool.false_eq_true, if_false]
      rw [if_neg (by norm_num)]
      exact ih (n + 1) 1 (Or.inr (Or.inl ⟨by omega, rfl⟩))
    · have h2 : ¬ n % 2 = 0 := by omega
      have hw : wrapInt (1 + (2 ^ 63 - 1)) = -(2 ^ 63) := by unfold wrapInt; norm_num
      simp only [h2, if_false, hw, Bool.false_eq_true]
      rw [if_neg (by norm_num)]
      exact ih (n + 1) _ (Or.inr (Or.inr (Or.inl ⟨by omega, rfl⟩)))
    · have h2 : n % 2 = 0 := by omega
      have hw : wrapInt (-(2 ^ 63) + 1) = -(2 ^ 63) + 1 := by unfold wrapInt; norm_num
      simp only [h2, if_true, hw, Bool.false_eq_true, if_false]
      rw [if_neg (by norm_num)]
      exact ih (n + 1) _ (Or.inr (Or.inr (Or.inr ⟨by omega, rfl⟩)))
    · have h2 : ¬ n % 2 = 0 := by omega
      have hw : wrapInt (-(2 ^ 63) + 1 + (2 ^ 63 - 1)) = 0 := by unfold wrapInt; norm_num
      simp only [h2, if_false, hw, Bool.false_eq_true]
      rw [if_neg (by norm_num)]
      exact ih (n + 1) _ (Or.inl ⟨by omega, rfl⟩)

/-- C29 (as stated, refuted): a server that reports a total count of 10 on
every page and per-page limits of 1 and 2^63 - 1 in turn (each at least 1)
makes the offset of listAll wrap around: the fifth request is for offset 0
again, the offsets do not increase, and listAll does not return whatever
the number of pages it may request. -/
theorem listAll_wrap_counterexample :
    (wrapPagesEnv.pages 0).toOption.map (fun r => (r.limit, r.totalCount)) = some (1, 10) ∧
    (wrapPagesEnv.pages 1).toOption.map (fun r => (r.limit, r.totalCount))
      = some (2 ^ 63 - 1, 10) ∧
    exampleFs.listAll 5 wrapPagesEnv (ascii "0") false false neverFound () =
      { trace := [Event.call true (listAllRequest (ascii "0") 0),
                  Event.call true (listAllRequest (ascii "0") 1),
                  Event.call true (listAllRequest (ascii "0") (-(2 ^ 63))),
                  Event.call true (listAllRequest (ascii "0") (-(2 ^ 63) + 1)),
                  Event.call true (listAllRequest (ascii "0") 0)],
        out := Outcome.running } ∧
    (∀ fuel, (exampleFs.listAll fuel wrapPagesEnv (ascii "0") false false neverFound ()).out
      = Outcome.running) := by
  refine ⟨by decide, by decide, by set_option maxRecDepth 100000 in decide, ?_⟩
  intro fuel
  exact wrapPages_running fuel 0 0 (Or.inl ⟨rfl, rfl⟩)

/-- C29 (amended): listAll terminates whenever the user function returns,
every fetched page reports a per-page Limit in 1..L and a TotalCount of at
most B, and B + L fits an int: enough fuel gives a result. If fn never
returns true it requests pages at the offsets 0, Limit, 2*Limit, ... (the
sums of the limits reported so far) and stops after the first page that
failed or for which offset + Limit >= TotalCount, always fetching at least
one page; the offset strictly increases between requests, so no page is
requested twice. -/
theorem listAll_terminates {σ : Type} (env : ListEnv) (f : Fs) (dirID : GoString)
    (d fo : Bool) (fn : Item → σ → Exec (Bool × σ)) (s : σ) (L B : Int) (fuel : Nat)
    (hLB : 0 ≤ B ∧ B + L < 2 ^ 63)
    (hlim : ∀ i r, env.pages i = .ok r → 1 ≤ r.limit ∧ r.limit ≤ L ∧ r.totalCount ≤ B)
    (hfuel : B < fuel) :
    ((∀ item s, ∃ r, (fn item s).out = Outcome.ret r) →
      ∃ r, (f.listAll fuel env dirID d fo fn s).out = Outcome.ret r) ∧
    ((∀ item s, requestsOf (fn item s).trace = [] ∧
        ∃ s2, (fn item s).out = Outcome.ret (false, s2)) →
      ∃ m, pageStops env m = true ∧ (∀ i, i < m → pageStops env i = false) ∧
        requestsOf (f.listAll fuel env dirID d fo fn s).trace =
          (List.range (m + 1)).map (fun i => listAllRequest dirID (pageOffset env i)) ∧
        (∃ err s2, (f.listAll fuel env dirID d fo fn s).out = Outcome.ret ((false, err), s2)) ∧
        (∀ i j, i < j → j ≤ m → pageOffset env i < pageOffset env j) ∧
        (requestsOf (f.listAll fuel env dirID d fo fn s).trace).Nodup ∧
        (∀ lim, (∀ i r, env.pages i = .ok r → r.limit = lim) →
          ∀ j, j ≤ m → pageOffset env j = j * lim)) := by
  constructor
  · intro hfn
    exact listAllPages_returns env f dirID d fo fn hfn L B hLB.2 hlim fuel 0 0 s
      (le_refl _) hLB.1 (by omega)
  · intro hfn
    obtain ⟨m, _, hm2, hm3, hm4, hm5⟩ :=
      listAllPages_schedule env f dirID d fo fn hfn L B hLB.2 hlim fuel 0 s
        (le_refl _) hLB.1 (by simp only [pageOffset]; omega)
    have hgo : ∀ i, i < m → pageStops env i = false := fun i hi => hm3 i (Nat.zero_le _) hi
    have hstrict := pageOffset_strict env m (fun i r h => (hlim i r h).1) hgo
    have htrace : requestsOf (f.listAll fuel env dirID d fo fn s).trace =
        (List.range (m + 1)).map (fun i => listAllRequest dirID (pageOffset env i)) := by
      have : requestsOf (f.listAll fuel env dirID d fo fn s).trace =
          (List.range' 0 (m + 1 - 0)).map
            (fun i => listAllRequest dirID (pageOffset env i)) := hm4
      rw [this, Nat.sub_zero, List.range_eq_range']
    refine ⟨m, hm2, hgo, htrace, hm5, fun i j hij hj => hstrict j hj i hij, ?_, ?_⟩
    · rw [htrace]
      refine List.Nodup.map_on ?_ (List.nodup_range _)
      intro i hi j hj h
      have hi2 : i ≤ m := by have := List.mem_range.mp hi; omega
      have hj2 : j ≤ m := by have := List.mem_range.mp hj; omega
      have heq := listAllRequest_offset dirID _ _ h
      by_contra hne
      rcases Nat.lt_or_gt_of_ne hne with hlt | hgt
      · have := hstrict j hj2 i hlt
        omega
      · have := hstrict i hi2 j hgt
        omega
    · intro lim hl
      exact pageOffset_uniform env m lim hl hgo

/-- Witness for C29 (amended): a server that reports a total count of 5 and
a limit of 2 on every page is asked for the pages at offsets 0, 2 and 4. -/
theorem listAll_terminates_witness :
    ((0 : Int) ≤ 5 ∧ (5 : Int) + 2 < 2 ^ 63) ∧
    exampleFs.listAll 6 threePagesEnv (ascii "0") false false neverFound () =
      { trace := [Event.call true (listAllRequest (ascii "0") 0),
                  Event.call true (listAllRequest (ascii "0") 2),
                  Event.call true (listAllRequest (ascii "0") 4)],
        out := Outcome.ret ((false, none), ()) } ∧
    ∃ r, (exampleFs.listAll 6 threePagesEnv (ascii "0") false false neverFound ()).out
      = Outcome.ret r :=
  ⟨by decide, by set_option maxRecDepth 100000 in decide,
   (listAll_terminates threePagesEnv exampleFs (ascii "0") false false neverFound () 2 5 6
      (by decide)
      (fun i r h => by
        simp only [threePagesEnv, Except.ok.injEq] at h
        subst h
        decide)
      (by decide)).1 (fun item s => ⟨(false, s), rfl⟩)⟩

end Box

namespace Operations

open Box (GoString ascii stringsTrim)

theorem isAncestorOrSelf_iff (a b : GoString) :
    isAncestorOrSelf a b = true ↔ a = [] ∨ a = b ∨ ∃ rest, b = a ++ [47] ++ rest := by
  simp only [isAncestorOrSelf, Bool.or_eq_true, decide_eq_true_eq, or_assoc]
  constructor
  · rintro (h | h | h)
    · exact Or.inl h
    · exact Or.inr (Or.inl h)
    · obtain ⟨rest, hr⟩ := List.isPrefixOf_iff_prefix.mp h
      exact Or.inr (Or.inr ⟨rest, hr.symm⟩)
  · rintro (h | h | ⟨rest, hr⟩)
    · exact Or.inl h
    · exact Or.inr (Or.inl h)
    · exact Or.inr (Or.inr (List.isPrefixOf_iff_prefix.mpr ⟨rest, hr.symm⟩))

/-- A mere string prefix is not an ancestor. -/
theorem not_ancestor_of_string_prefix (a rest : GoString) (c : Nat) (ha : a ≠ [])
    (hc : c ≠ 47) :
    isAncestorOrSelf a (a ++ c :: rest) = false ∧
    isAncestorOrSelf (a ++ c :: rest) a = false := by
  constructor
  · rw [Bool.eq_false_iff]
    intro h
    rcases (isAncestorOrSelf_iff _ _).mp h with h | h | ⟨r, hr⟩
    · exact ha h
    · have := congrArg List.length h
      simp at this
    · rw [List.append_assoc, List.append_cancel_left_eq] at hr
      simp only [List.singleton_append, List.cons.injEq] at hr
      exact hc hr.1
  · rw [Bool.eq_false_iff]
    intro h
    rcases (isAncestorOrSelf_iff _ _).mp h with h | h | ⟨r, hr⟩
    · simp at h
    · have := congrArg List.length h
      simp at this
    · have := congrArg List.length hr
      simp at this

/-- C21: Overlapping is symmetric; it is true exactly when the two remotes
have the same name and one root, ignoring leading and trailing slashes,
equals the other, is empty, or is followed in the other by a slash; a mere
string prefix is not overlap; and it gives the expected result on every row
of the table of TestOverlapping, in both directions. -/
theorem overlapping_symmetric_segments :
    (∀ a b : Info, Overlapping a b = Overlapping b a) ∧
    (∀ a b : Info, Overlapping a b = true ↔
      a.name = b.name ∧
        ((trimmedRoot a = [] ∨ trimmedRoot a = trimmedRoot b ∨
            ∃ rest, trimmedRoot b = trimmedRoot a ++ [47] ++ rest) ∨
         (trimmedRoot b = [] ∨ trimmedRoot b = trimmedRoot a ∨
            ∃ rest, trimmedRoot a = trimmedRoot b ++ [47] ++ rest))) ∧
    (∀ (a b : Info) (c : Nat) (rest : GoString), trimmedRoot a ≠ [] → c ≠ 47 →
      trimmedRoot b = trimmedRoot a ++ c :: rest →
      Overlapping a b = false ∧ Overlapping b a = false) ∧
    (∀ row ∈ overlappingTable,
      Overlapping testInfoA row.1 = row.2 ∧ Overlapping row.1 testInfoA = row.2) ∧
    Overlapping { name := ascii "name", root := ascii "roo" }
      { name := ascii "name", root := ascii "root" } = false ∧
    Overlapping { name := ascii "name", root := ascii "root" }
      { name := ascii "name", root := ascii "rooty" } = false ∧
    Overlapping { name := ascii "name", root := ascii "root" }
      { name := ascii "name", root := ascii "root/toot/" } = true := by
  refine ⟨?_, ?_, ?_, by decide, by decide, by decide, by decide⟩
  · intro a b
    rcases a with ⟨an, ar⟩
    rcases b with ⟨bn, br⟩
    simp only [Overlapping]
    by_cases h : an = bn
    · subst h
      simp only [decide_True, Bool.true_and]
      exact Bool.or_comm _ _
    · have h2 : ¬ bn = an := fun h3 => h h3.symm
      simp only [h, h2, decide_False, Bool.false_and]
  · intro a b
    simp only [Overlapping, Bool.and_eq_true, decide_eq_true_eq, Bool.or_eq_true,
      isAncestorOrSelf_iff]
  · intro a b c rest ha hc hb
    have h := not_ancestor_of_string_prefix (trimmedRoot a) rest c ha hc
    simp only [Overlapping, hb, h.1, h.2, Bool.or_self, Bool.and_false, and_self]

/-! ### CheckEqualReaders -/

theorem failure_none_iff (e : Option ReadErr) :
    failure e = none ↔ e = none ∨ e = some ReadErr.EOF := by
  rcases e with _ | (_ | msg) <;> simp [failure]

theorem readFill_full (r : Reader) (n : Nat) (h : n ≤ r.data.length) :
    ReadFill r n = (r.data.take n, none, { r with data := r.data.drop n }) := by
  simp [ReadFill, h]

theorem readFill_short (r : Reader) (n : Nat) (h : r.data.length < n) :
    ReadFill r n = (r.data,
      some (match r.err with
        | none => ReadErr.EOF
        | some msg => ReadErr.failed msg),
      { r with data := [] }) := by
  have : ¬ n ≤ r.data.length := by omega
  simp [ReadFill, this]

/-- The loop of CheckEqualReaders returns, and what it returns. -/
theorem checkEqualReadersLoop_spec (bufSize : Nat) (hb : 0 < bufSize) (fuel : Nat) :
    ∀ in1 in2 : Reader, in1.data.length < fuel →
      ∃ r, CheckEqualReadersLoop bufSize fuel in1 in2 = some r ∧
        (r = (false, none) ↔ in1.err = none ∧ in2.err = none ∧ in1.data = in2.data) ∧
        (r.1 = false → r.2 = none) ∧
        (∀ msg, r.2 = some msg → in1.err = some msg ∨ in2.err = some msg) := by
  induction fuel with
  | zero => intro in1 in2 h; omega
  | succ k ih =>
    intro in1 in2 hf
    rcases in1 with ⟨d1, e1⟩
    rcases in2 with ⟨d2, e2⟩
    simp only at hf
    unfold CheckEqualReadersLoop
    by_cases h1 : bufSize ≤ d1.length
    · -- the first reader fills the buffer
      rw [readFill_full _ _ h1]
      simp only [failure]
      by_cases h2 : bufSize ≤ d2.length
      · rw [readFill_full _ _ h2]
        simp only [failure]
        by_cases hc : d1.take bufSize = d2.take bufSize
        · simp only [hc, ne_eq, not_true_eq_false, if_false, false_and]
          obtain ⟨r, hr, hiff, hnil, herr⟩ := ih ⟨d1.drop bufSize, e1⟩ ⟨d2.drop bufSize, e2⟩
            (by simp only [List.length_drop]; omega)
          refine ⟨r, hr, ?_, hnil, herr⟩
          rw [hiff]
          simp only
          constructor
          · rintro ⟨ha, hb2, hd⟩
            refine ⟨ha, hb2, ?_⟩
            rw [← List.take_append_drop bufSize d1, ← List.take_append_drop bufSize d2, hc, hd]
          · rintro ⟨ha, hb2, hd⟩
            exact ⟨ha, hb2, by rw [hd]⟩
        · refine ⟨(true, none), by simp [hc], ?_, by simp, by simp⟩
          simp only [Prod.mk.injEq, Bool.true_eq_false, false_and, false_iff, not_and]
          intro _ _ hd
          exact hc (by rw [hd])
      · have h2s : d2.length < bufSize := by omega
        rw [readFill_short _ _ h2s]
        simp only
        have hne : d1.take bufSize ≠ d2 := by
          intro h
          have := congrArg List.length h
          simp only [List.length_take] at this
          omega
        have hdne : d1 ≠ d2 := by
          intro h
          rw [h] at h1
          omega
        cases e2 with
        | none =>
          refine ⟨(true, none), by simp [failure, hne], ?_, by simp, by simp⟩
          simp only [Prod.mk.injEq, Bool.true_eq_false, false_and, false_iff, not_and]
          intro _ _ hd
          exact hdne hd
        | some msg =>
          refine ⟨(true, some msg), by simp [failure], ?_, by simp, ?_⟩
          · simp
          · intro m hm
            simp only [Option.some.injEq] at hm
            exact Or.inr (by rw [hm])
    · have h1s : d1.length < bufSize := by omega
      rw [readFill_short _ _ h1s]
      simp only
      cases e1 with
      | some msg =>
        refine ⟨(true, some msg), by simp [failure], ?_, by simp, ?_⟩
        · simp
        · intro m hm
          simp only [Option.some.injEq] at hm
          exact Or.inl (by rw [hm])
      | none =>
        simp only [failure]
        by_cases h2 : bufSize ≤ d2.length
        · rw [readFill_full _ _ h2]
          simp only [failure]
          have hne : d1 ≠ d2.take bufSize := by
            intro h
            have := congrArg List.length h
            simp only [List.length_take] at this
            omega
          have hdne : d1 ≠ d2 := by
            intro h
            rw [← h] at h2
            omega
          refine ⟨(true, none), by simp [hne], ?_, by simp, by simp⟩
          simp only [Prod.mk.injEq, Bool.true_eq_false, false_and, false_iff, not_and]
          intro _ _ hd
          exact hdne hd
        · have h2s : d2.length < bufSize := by omega
          rw [readFill_short _ _ h2s]
          simp only
          cases e2 with
          | some msg =>
            refine ⟨(true, some msg), by simp [failure], ?_, by simp, ?_⟩
            · simp
            · intro m hm
              simp only [Option.some.injEq] at hm
              exact Or.inr (by rw [hm])
          | none =>
            by_cases hc : d1 = d2
            · refine ⟨(false, none), by simp [failure, hc], ?_, by simp, by simp⟩
              simp [hc]
            · refine ⟨(true, none), by simp [failure, hc], ?_, by simp, by simp⟩
              simp [hc]

/-- C22: CheckEqualReaders returns; it returns (differ = false, err = nil)
if and only if both readers end with EOF and deliver the same bytes; if the
contents differ in any byte or in length it returns differ = true; a
non-nil error is the error of one of the readers and comes with differ =
true (for every buffer size of at least one byte). -/
theorem checkEqualReaders_spec (bufSize fuel : Nat) (in1 in2 : Reader)
    (hb : 0 < bufSize) (hf : in1.data.length < fuel) :
    ∃ r, CheckEqualReaders bufSize fuel in1 in2 = some r ∧
      (r = (false, none) ↔ in1.err = none ∧ in2.err = none ∧ in1.data = in2.data) ∧
      (in1.data ≠ in2.data → r.1 = true) ∧
      (∀ msg, r.2 = some msg → r.1 = true ∧ (in1.err = some msg ∨ in2.err = some msg)) := by
  obtain ⟨r, hr, hiff, hnil, herr⟩ := checkEqualReadersLoop_spec bufSize hb fuel in1 in2 hf
  refine ⟨r, hr, hiff, ?_, ?_⟩
  · intro hne
    by_contra h
    have h1 : r.1 = false := by simpa using h
    have h2 := hnil h1
    have : r = (false, none) := Prod.ext h1 h2
    exact hne (hiff.mp this).2.2
  · intro msg hm
    refine ⟨?_, herr msg hm⟩
    by_contra h
    have h1 : r.1 = false := by simpa using h
    have h2 := hnil h1
    rw [h2] at hm
    exact absurd hm (by simp)

/-- Witness for C22: the twelve calls of TestCheckEqualReaders with the
buffers scaled down to a buffer size of 4. -/
theorem checkEqualReaders_spec_witness :
    (0 < 4 ∧ (buffer b5a).data.length < 8) ∧
    (∃ r, CheckEqualReaders 4 8 (buffer b5a) (buffer b5a) = some r ∧
      (r = (false, none) ↔
        (buffer b5a).err = none ∧ (buffer b5a).err = none ∧
          (buffer b5a).data = (buffer b5a).data)) ∧
    CheckEqualReaders 4 8 (buffer b5a) (buffer b5a) = some (false, none) ∧
    CheckEqualReaders 4 8 (buffer b5a) (buffer b5b) = some (true, none) ∧
    CheckEqualReaders 4 8 (buffer b5a) (buffer b6) = some (true, none) ∧
    CheckEqualReaders 4 8 (buffer b6) (buffer b5a) = some (true, none) ∧
    CheckEqualReaders 4 8 (wrap b5a) (buffer b5a) = some (true, some "sentinel") ∧
    CheckEqualReaders 4 8 (wrap b5a) (buffer b5b) = some (true, some "sentinel") ∧
    CheckEqualReaders 4 8 (wrap b5a) (buffer b6) = some (true, some "sentinel") ∧
    CheckEqualReaders 4 8 (wrap b6) (buffer b5a) = some (true, some "sentinel") ∧
    CheckEqualReaders 4 8 (buffer b5a) (wrap b5a) = some (true, some "sentinel") ∧
    CheckEqualReaders 4 8 (buffer b5a) (wrap b5b) = some (true, some "sentinel") ∧
    CheckEqualReaders 4 8 (buffer b5a) (wrap b6) = some (true, some "sentinel") ∧
    CheckEqualReaders 4 8 (buffer b6) (wrap b5a) = some (true, some "sentinel") :=
  ⟨by decide,
   (checkEqualReaders_spec 4 8 (buffer b5a) (buffer b5a) (by decide) (by decide)).imp
     (fun _ h => ⟨h.1, h.2.1⟩),
   by decide, by decide, by decide, by decide, by decide, by decide, by decide, by decide,
   by decide, by decide, by decide, by decide⟩

end Operations
